import Mathlib

/-!
# pranaOS memory core: physical frame accounting

Shallow embedding of the user-pool accounting of `kernel/vm/MemoryManager.cpp`
(`commit_user_physical_pages`, `uncommit_user_physical_pages`,
`deallocate_physical_page`, `find_free_user_physical_page`,
`allocate_committed_user_physical_page`, `allocate_user_physical_page`).

Conventions:
* `size_t` counters are natural numbers below `SIZE_MOD = 2^64`; `++`, `--`, `+=` and `-=`
  wrap around explicitly through `size_add` and `size_sub`.
* A function that can hit `VERIFY(...)`, `VERIFY_NOT_REACHED()` or `PANIC(...)` returns an
  `Option`; `none` is the kernel panic.
* A physical page handed out by the allocator is represented by its physical address.
-/

namespace Kernel

/-- The architecture page size `PAGE_SIZE`. -/
def PAGE_SIZE : Nat := 4096

/-- One more than the largest `size_t` value (x86_64). -/
def SIZE_MOD : Nat := 18446744073709551616

/-- Wrapping `size_t` addition. -/
def size_add (a b : Nat) : Nat := (a + b) % SIZE_MOD

/-- Wrapping `size_t` subtraction. -/
def size_sub (a b : Nat) : Nat := (SIZE_MOD + a - b % SIZE_MOD) % SIZE_MOD

/-- Modelled from the spec: `PhysicalRegion` (kernel/vm/PhysicalRegion.h is not among the
sources). Following the data model, a region is a contiguous pool of frames starting at the
physical address `lower`, with one free flag per frame (`true` = free); frame `i` has the
physical address `lower + i * PAGE_SIZE`. -/
structure PhysicalRegion where
  lower : Nat
  frames : List Bool
deriving DecidableEq, Repr

/-- Scan for the first free frame; mark it allocated and return its index. -/
def take_first_free : List Bool → Option (Nat × List Bool)
  | [] => none
  | true :: fs => some (0, false :: fs)
  | false :: fs =>
    match take_first_free fs with
    | none => none
    | some (i, fs') => some (i + 1, false :: fs')

namespace PhysicalRegion

/-- Modelled from the spec: `PhysicalRegion::size()`, the number of frames of the region. -/
def size (r : PhysicalRegion) : Nat := r.frames.length

/-- Modelled from the spec: `PhysicalRegion::upper()`, one past the last byte of the region. -/
def upper (r : PhysicalRegion) : Nat := r.lower + r.frames.length * PAGE_SIZE

/-- Modelled from the spec: `PhysicalRegion::contains(paddr)`, address containment. -/
def contains (r : PhysicalRegion) (paddr : Nat) : Bool :=
  decide (r.lower ≤ paddr ∧ paddr < r.upper)

/-- Index of the frame that holds `paddr`. -/
def frame_index (r : PhysicalRegion) (paddr : Nat) : Nat := (paddr - r.lower) / PAGE_SIZE

/-- Number of free frames of the region. -/
def free_count (r : PhysicalRegion) : Nat := r.frames.count true

/-- Modelled from the spec: `PhysicalRegion::take_free_page()`. Returns the address of a free
frame (the lowest one) and marks it allocated; `none` when the region has no free frame. -/
def take_free_page (r : PhysicalRegion) : Option (Nat × PhysicalRegion) :=
  match take_first_free r.frames with
  | none => none
  | some (i, fs) => some (r.lower + i * PAGE_SIZE, { r with frames := fs })

/-- Modelled from the spec: `PhysicalRegion::return_page(paddr)`. The frame holding `paddr`
is put back on the free list. -/
def return_page (r : PhysicalRegion) (paddr : Nat) : PhysicalRegion :=
  { r with frames := r.frames.set (r.frame_index paddr) true }

/-- The frame holding `paddr` is currently free in this region. -/
def is_free (r : PhysicalRegion) (paddr : Nat) : Bool :=
  r.frames.getD (r.frame_index paddr) false

end PhysicalRegion

/-- The counters of `SystemMemoryInfo` (all `size_t`). -/
structure SystemMemoryInfo where
  user_physical_pages : Nat
  user_physical_pages_used : Nat
  user_physical_pages_committed : Nat
  user_physical_pages_uncommitted : Nat
  super_physical_pages : Nat
  super_physical_pages_used : Nat
deriving DecidableEq, Repr

/-- The part of `MemoryManager` that the physical frame allocator reads and writes. -/
structure MemoryManager where
  m_system_memory_info : SystemMemoryInfo
  m_user_physical_regions : List PhysicalRegion
  m_super_physical_regions : List PhysicalRegion
deriving DecidableEq, Repr

/-- The loop `for (auto& region : regions) { page = region.take_free_page(); if (page) break; }`:
the first region that still has a free frame gives one up. -/
def take_from_regions : List PhysicalRegion → Option (Nat × List PhysicalRegion)
  | [] => none
  | r :: rs =>
    match r.take_free_page with
    | some (p, r') => some (p, r' :: rs)
    | none =>
      match take_from_regions rs with
      | some (p, rs') => some (p, r :: rs')
      | none => none

/-- The loop `for (auto& region : regions) { if (!region.contains(paddr)) continue;
region.return_page(paddr); ...; return; }`: the page goes back to the first region that
contains it; `none` when no region contains it. -/
def return_to_regions (paddr : Nat) : List PhysicalRegion → Option (List PhysicalRegion)
  | [] => none
  | r :: rs =>
    if r.contains paddr then some (r.return_page paddr :: rs)
    else
      match return_to_regions paddr rs with
      | some rs' => some (r :: rs')
      | none => none

/-- Sum of the free frames of a list of regions. -/
def free_frames : List PhysicalRegion → Nat
  | [] => 0
  | r :: rs => r.free_count + free_frames rs

/-- Sum of the sizes of a list of regions. -/
def total_frames : List PhysicalRegion → Nat
  | [] => 0
  | r :: rs => r.size + total_frames rs

/-- The frame holding `paddr` is allocated in the first region that contains `paddr`. -/
def is_allocated_frame (paddr : Nat) : List PhysicalRegion → Bool
  | [] => false
  | r :: rs => if r.contains paddr then !(r.is_free paddr) else is_allocated_frame paddr rs

/-- The frame holding `paddr` is free in the first region that contains `paddr`. -/
def is_free_frame (paddr : Nat) : List PhysicalRegion → Bool
  | [] => false
  | r :: rs => if r.contains paddr then r.is_free paddr else is_free_frame paddr rs

namespace MemoryManager

/-- `MemoryManager::commit_user_physical_pages(page_count)`. -/
def commit_user_physical_pages (mm : MemoryManager) (page_count : Nat) :
    Option (Bool × MemoryManager) :=
  if page_count = 0 then none
  else if mm.m_system_memory_info.user_physical_pages_uncommitted < page_count then
    some (false, mm)
  else
    some (true, { mm with m_system_memory_info :=
      { mm.m_system_memory_info with
        user_physical_pages_uncommitted :=
          size_sub mm.m_system_memory_info.user_physical_pages_uncommitted page_count
        user_physical_pages_committed :=
          size_add mm.m_system_memory_info.user_physical_pages_committed page_count } })

/-- `MemoryManager::uncommit_user_physical_pages(page_count)`. -/
def uncommit_user_physical_pages (mm : MemoryManager) (page_count : Nat) :
    Option MemoryManager :=
  if page_count = 0 then none
  else if mm.m_system_memory_info.user_physical_pages_committed < page_count then none
  else
    some { mm with m_system_memory_info :=
      { mm.m_system_memory_info with
        user_physical_pages_uncommitted :=
          size_add mm.m_system_memory_info.user_physical_pages_uncommitted page_count
        user_physical_pages_committed :=
          size_sub mm.m_system_memory_info.user_physical_pages_committed page_count } }

/-- `MemoryManager::deallocate_physical_page(paddr)`; `none` is the final `PANIC`. -/
def deallocate_physical_page (mm : MemoryManager) (paddr : Nat) : Option MemoryManager :=
  match return_to_regions paddr mm.m_user_physical_regions with
  | some rs =>
    some { mm with
      m_user_physical_regions := rs
      m_system_memory_info :=
        { mm.m_system_memory_info with
          user_physical_pages_used :=
            size_sub mm.m_system_memory_info.user_physical_pages_used 1
          user_physical_pages_uncommitted :=
            size_add mm.m_system_memory_info.user_physical_pages_uncommitted 1 } }
  | none =>
    match return_to_regions paddr mm.m_super_physical_regions with
    | some rs =>
      some { mm with
        m_super_physical_regions := rs
        m_system_memory_info :=
          { mm.m_system_memory_info with
            super_physical_pages_used :=
              size_sub mm.m_system_memory_info.super_physical_pages_used 1 } }
    | none => none

/-- The region loop and the closing `VERIFY(!committed || !page.is_null())` of
`find_free_user_physical_page`, run on the state `mm` whose counter was already decremented. -/
def find_free_scan (mm : MemoryManager) (committed : Bool) :
    Option (Option Nat × MemoryManager) :=
  match take_from_regions mm.m_user_physical_regions with
  | some (p, rs) =>
    some (some p, { mm with
      m_user_physical_regions := rs
      m_system_memory_info :=
        { mm.m_system_memory_info with
          user_physical_pages_used :=
            size_add mm.m_system_memory_info.user_physical_pages_used 1 } })
  | none => if committed then none else some (none, mm)

/-- `MemoryManager::find_free_user_physical_page(committed)`. The outer `none` is a failed
`VERIFY`; the inner option is the returned `RefPtr<PhysicalPage>` (null = `none`). -/
def find_free_user_physical_page (mm : MemoryManager) (committed : Bool) :
    Option (Option Nat × MemoryManager) :=
  if committed then
    if mm.m_system_memory_info.user_physical_pages_committed = 0 then none
    else
      find_free_scan { mm with m_system_memory_info :=
        { mm.m_system_memory_info with
          user_physical_pages_committed :=
            size_sub mm.m_system_memory_info.user_physical_pages_committed 1 } } true
  else
    if mm.m_system_memory_info.user_physical_pages_uncommitted = 0 then some (none, mm)
    else
      find_free_scan { mm with m_system_memory_info :=
        { mm.m_system_memory_info with
          user_physical_pages_uncommitted :=
            size_sub mm.m_system_memory_info.user_physical_pages_uncommitted 1 } } false

/-- `MemoryManager::allocate_committed_user_physical_page(should_zero_fill)`. The zero fill
through the quickmap slot writes only the page contents, which the accounting does not
observe; `release_nonnull()` asserts that the page is not null. -/
def allocate_committed_user_physical_page (mm : MemoryManager) :
    Option (Nat × MemoryManager) :=
  match find_free_user_physical_page mm true with
  | some (some p, mm') => some (p, mm')
  | _ => none

end MemoryManager

/-- A registered VM object, as far as `allocate_user_physical_page` looks at it: its identity
and the answer of `is_anonymous()`. -/
structure VMObject where
  id : Nat
  is_anonymous : Bool
deriving DecidableEq, Repr

/-- Trace entry: `purge()` was invoked on `object` and returned `purged_page_count`. -/
structure PurgeCall where
  object : VMObject
  purged_page_count : Int
deriving DecidableEq, Repr

/-- Result of `allocate_user_physical_page`: the returned page (null = `none`), the state
afterwards, the value stored through `did_purge`, and the trace of the `purge()` calls made,
in call order. The trace is bookkeeping of the embedding; the code keeps no such list. -/
structure UserPageResult where
  page : Option Nat
  state : MemoryManager
  did_purge : Bool
  purge_calls : List PurgeCall
deriving DecidableEq, Repr

namespace MemoryManager

/-- The callback loop `for_each_vmobject([&](auto& vmobject) { ... })` of
`allocate_user_physical_page`. `AnonymousVMObject::purge()` is not among the sources; it is the
parameter `purge`, which returns the `int` purged page count and the memory manager state it
leaves behind. -/
def purge_vmobjects (purge : VMObject → MemoryManager → Int × MemoryManager) :
    MemoryManager → List VMObject → Option UserPageResult
  | mm, [] => some ⟨none, mm, false, []⟩
  | mm, v :: vs =>
    if v.is_anonymous = false then purge_vmobjects purge mm vs
    else
      if (purge v mm).1 ≠ 0 then
        match find_free_user_physical_page (purge v mm).2 false with
        | some (some p, mm') => some ⟨some p, mm', true, [⟨v, (purge v mm).1⟩]⟩
        | _ => none
      else
        match purge_vmobjects purge (purge v mm).2 vs with
        | some r => some { r with purge_calls := ⟨v, (purge v mm).1⟩ :: r.purge_calls }
        | none => none

/-- `MemoryManager::allocate_user_physical_page(should_zero_fill, did_purge)`. The zero fill
writes only page contents; `vmobjects` is the list that `for_each_vmobject` walks. -/
def allocate_user_physical_page (purge : VMObject → MemoryManager → Int × MemoryManager)
    (mm : MemoryManager) (vmobjects : List VMObject) : Option UserPageResult :=
  match find_free_user_physical_page mm false with
  | some (some p, mm') => some ⟨some p, mm', false, []⟩
  | some (none, mm') => purge_vmobjects purge mm' vmobjects
  | none => none

end MemoryManager

/-- An operation on the user pool. -/
inductive PoolOp where
  | commit (page_count : Nat)
  | uncommit (page_count : Nat)
  | allocate (committed : Bool)
  | deallocate (paddr : Nat)
deriving DecidableEq, Repr

/-- One operation of the user pool. `none` means that the operation hit a failed `VERIFY`, or,
for `deallocate`, that the address is not a currently allocated frame of a user region (only
previously allocated user frames are handed back). -/
def pool_step (mm : MemoryManager) : PoolOp → Option MemoryManager
  | .commit n => (mm.commit_user_physical_pages n).map Prod.snd
  | .uncommit n => mm.uncommit_user_physical_pages n
  | .allocate c => (mm.find_free_user_physical_page c).map Prod.snd
  | .deallocate paddr =>
    if is_allocated_frame paddr mm.m_user_physical_regions then
      mm.deallocate_physical_page paddr
    else none

/-- A sequence of operations on the user pool, from left to right. -/
def pool_run (mm : MemoryManager) : List PoolOp → Option MemoryManager
  | [] => some mm
  | op :: ops =>
    match pool_step mm op with
    | some mm' => pool_run mm' ops
    | none => none

/-- Runs the allocations `cs` in order (`true` = `find_free_user_physical_page(true)`, `false`
= `find_free_user_physical_page(false)`) and reports whether no `VERIFY` fired and every
committed allocation returned a page. -/
def committed_allocations_succeed : MemoryManager → List Bool → Bool
  | _, [] => true
  | mm, c :: cs =>
    match mm.find_free_user_physical_page c with
    | some (p, mm') => (!c || p.isSome) && committed_allocations_succeed mm' cs
    | none => false

/-- The state at the end of `parse_memory_map`: nothing committed, nothing used, every frame of
every user region free, `user_physical_pages` the sum of the region sizes and
`user_physical_pages_uncommitted = user_physical_pages`. -/
def post_boot (mm : MemoryManager) : Prop :=
  mm.m_system_memory_info.user_physical_pages_committed = 0 ∧
  mm.m_system_memory_info.user_physical_pages_used = 0 ∧
  mm.m_system_memory_info.user_physical_pages_uncommitted
    = mm.m_system_memory_info.user_physical_pages ∧
  mm.m_system_memory_info.user_physical_pages = total_frames mm.m_user_physical_regions ∧
  free_frames mm.m_user_physical_regions = total_frames mm.m_user_physical_regions ∧
  mm.m_system_memory_info.user_physical_pages < SIZE_MOD

instance (mm : MemoryManager) : Decidable (post_boot mm) := by
  unfold post_boot
  infer_instance

/-- The accounting invariant of the user pool together with its coupling to the regions: the
free frames are exactly the committed plus the uncommitted ones, the used ones are the
allocated frames. -/
def pool_inv (mm : MemoryManager) : Prop :=
  mm.m_system_memory_info.user_physical_pages = total_frames mm.m_user_physical_regions ∧
  mm.m_system_memory_info.user_physical_pages_committed
    + mm.m_system_memory_info.user_physical_pages_uncommitted
    = free_frames mm.m_user_physical_regions ∧
  mm.m_system_memory_info.user_physical_pages_used + free_frames mm.m_user_physical_regions
    = total_frames mm.m_user_physical_regions ∧
  mm.m_system_memory_info.user_physical_pages < SIZE_MOD

instance (mm : MemoryManager) : Decidable (pool_inv mm) := by
  unfold pool_inv
  infer_instance

/-- A state with a single user region at `lower` whose free flags are `frames`, no super
region, and the given user-pool counters. -/
def pool_state (lower : Nat) (frames : List Bool) (used committed uncommitted : Nat) :
    MemoryManager :=
  { m_system_memory_info :=
      { user_physical_pages := frames.length, user_physical_pages_used := used,
        user_physical_pages_committed := committed,
        user_physical_pages_uncommitted := uncommitted,
        super_physical_pages := 0, super_physical_pages_used := 0 }
    m_user_physical_regions := [⟨lower, frames⟩]
    m_super_physical_regions := [] }

/-- A sample `purge()`: the object with id 7 holds the frame at 1 MiB as a purgeable page and
gives it back through `deallocate_physical_page`; every other object has nothing to purge. -/
def sample_purge (v : VMObject) (mm : MemoryManager) : Int × MemoryManager :=
  if v.id = 7 then
    match mm.deallocate_physical_page 1048576 with
    | some mm' => (1, mm')
    | none => (0, mm)
  else (0, mm)

/-- A state of one region of `n` free frames at address `lower`, right after boot. -/
def boot_state (lower n : Nat) : MemoryManager :=
  { m_system_memory_info :=
      { user_physical_pages := n, user_physical_pages_used := 0,
        user_physical_pages_committed := 0, user_physical_pages_uncommitted := n,
        super_physical_pages := 0, super_physical_pages_used := 0 }
    m_user_physical_regions := [⟨lower, List.replicate n true⟩]
    m_super_physical_regions := [] }

end Kernel

/-!
# Kernel heap (`kernel/heap/Heap.h`)

`Heap<CHUNK_SIZE, HEAP_SCRUB_BYTE_ALLOC, HEAP_SCRUB_BYTE_FREE>` and `ExpandableHeap`.
Pointers are addresses (natural numbers below `2^w`), the null pointer is `0`; `size_t` and
pointer arithmetic wrap modulo `2^w`. The arena memory is observed only where the heap itself
reads it: the `allocation_size_in_chunks` word at the start of each chunk.
-/

namespace Kernel

/-- The compile-time parameters of `Heap`: the template arguments, `sizeof(AllocationHeader)`
(the source requires `CHUNK_SIZE >= sizeof(AllocationHeader)`), `sizeof(SubHeap)` and the width
`w` of `size_t`. -/
structure HeapConfig where
  CHUNK_SIZE : Nat
  HEAP_SCRUB_BYTE_ALLOC : Nat
  HEAP_SCRUB_BYTE_FREE : Nat
  header_size : Nat
  subheap_size : Nat
  size_bits : Nat
deriving DecidableEq, Repr

namespace HeapConfig

/-- The number `2^w` of `size_t` values. -/
def size_mod (cfg : HeapConfig) : Nat := 2 ^ cfg.size_bits

/-- Truncation to `size_t`. -/
def wrap (cfg : HeapConfig) (x : Nat) : Nat := x % cfg.size_mod

/-- Wrapping `size_t` subtraction. -/
def sub (cfg : HeapConfig) (a b : Nat) : Nat :=
  (cfg.size_mod + a % cfg.size_mod - b % cfg.size_mod) % cfg.size_mod

/-- The `size_t` word all of whose bytes are `b`, as left behind by `memset`. -/
def scrub_word (cfg : HeapConfig) (b : Nat) : Nat :=
  ((List.range (cfg.size_bits / 8)).map (fun i => (b % 256) * 256 ^ i)).sum

end HeapConfig

/-- The i686 build: 32-byte chunks, a 4-byte header, 32-bit `size_t`, no scrubbing. -/
def heap_config_i686 : HeapConfig :=
  { CHUNK_SIZE := 32, HEAP_SCRUB_BYTE_ALLOC := 0, HEAP_SCRUB_BYTE_FREE := 0,
    header_size := 4, subheap_size := 32, size_bits := 32 }

/-- The x86_64 build: 64-byte chunks, a 16-byte header (`allocation_size_in_chunks` and
`alignment_dummy`), 64-bit `size_t`, no scrubbing. -/
def heap_config_x86_64 : HeapConfig :=
  { CHUNK_SIZE := 64, HEAP_SCRUB_BYTE_ALLOC := 0, HEAP_SCRUB_BYTE_FREE := 0,
    header_size := 16, subheap_size := 64, size_bits := 64 }

/-- Modelled from the spec: `Bitmap::get(index)` of the side occupancy bitmap (base/Bitmap.h is
not among the sources); a bit beyond the end reads as clear. -/
def bitmap_get (bits : List Bool) (index : Nat) : Bool := bits.getD index false

/-- All bits of `[start, start + len)` differ from `value`. -/
def bitmap_range_flips (bits : List Bool) (start len : Nat) (value : Bool) : Bool :=
  (List.range len).all (fun k => bits.getD (start + k) value != value)

/-- Write `value` to the bits `[start, start + len)`. -/
def bitmap_fill (bits : List Bool) (start len : Nat) (value : Bool) : List Bool :=
  (List.range bits.length).map
    (fun i => if start ≤ i ∧ i < start + len then value else bits.getD i false)

/-- Modelled from the spec: `Bitmap::set_range_and_verify_that_all_bits_flip(start, len,
value)` (base/Bitmap.h is not among the sources). The range must lie inside the bitmap and
every bit of it must change; otherwise the verification fails (`none`). -/
def bitmap_set_range_and_verify_that_all_bits_flip (bits : List Bool) (start len : Nat)
    (value : Bool) : Option (List Bool) :=
  if start + len ≤ bits.length ∧ bitmap_range_flips bits start len value then
    some (bitmap_fill bits start len value)
  else none

/-- Modelled from the spec: `Bitmap::find_first_fit(min_length)`, the start of the first run of
at least `min_length` clear bits. -/
def bitmap_find_first_fit (bits : List Bool) (min_length : Nat) : Option Nat :=
  (List.range bits.length).find?
    (fun i => decide (i + min_length ≤ bits.length) && bitmap_range_flips bits i min_length true)

/-- Length of the run of clear bits that starts at the head of the list. -/
def clear_run_length : List Bool → Nat
  | false :: bs => clear_run_length bs + 1
  | _ => 0

/-- The maximal runs of clear bits as pairs (start, length), scanning from index `i`. The flag
`inside` tells whether the previous bit was clear. -/
def clear_runs : List Bool → Nat → Bool → List (Nat × Nat)
  | [], _, _ => []
  | true :: bs, i, _ => clear_runs bs (i + 1) false
  | false :: bs, i, true => clear_runs bs (i + 1) true
  | false :: bs, i, false => (i, clear_run_length (false :: bs)) :: clear_runs bs (i + 1) true

/-- The first shortest run among `runs`. -/
def shortest_run : List (Nat × Nat) → Option (Nat × Nat)
  | [] => none
  | r :: rs =>
    match shortest_run rs with
    | none => some r
    | some q => if q.2 < r.2 then some q else some r

/-- Modelled from the spec: `Bitmap::find_best_fit(min_length)`, the start of the smallest run
of clear bits that has at least `min_length` bits. -/
def bitmap_find_best_fit (bits : List Bool) (min_length : Nat) : Option Nat :=
  (shortest_run ((clear_runs bits 0 false).filter (fun r => min_length ≤ r.2))).map Prod.fst

/-- The two search functions of the absent `Bitmap` class, as `Heap::allocate` uses them. -/
structure BitmapSearch where
  find_first_fit : List Bool → Nat → Option Nat
  find_best_fit : List Bool → Nat → Option Nat

/-- The search functions modelled from the spec. -/
def bitmap_search : BitmapSearch := ⟨bitmap_find_first_fit, bitmap_find_best_fit⟩

/-- Overwrite the entries `[start, start + len)` of a list with `v`. -/
def fill_words (ws : List Nat) (start len v : Nat) : List Nat :=
  (List.range ws.length).map (fun i => if start ≤ i ∧ i < start + len then v else ws.getD i 0)

/-- The state of a `Heap`: `m_chunks` is the address of the arena, `m_bitmap` the occupancy
bitmap (`true` = chunk in use) and `chunk_words` the `allocation_size_in_chunks` word stored at
the start of each chunk of the arena. -/
structure Heap where
  m_total_chunks : Nat
  m_allocated_chunks : Nat
  m_chunks : Nat
  m_bitmap : List Bool
  chunk_words : List Nat
deriving DecidableEq, Repr

namespace Heap

/-- `Heap::calculate_chunks(memory_size)`. -/
def calculate_chunks (cfg : HeapConfig) (memory_size : Nat) : Nat :=
  cfg.wrap memory_size / cfg.wrap (cfg.CHUNK_SIZE + 1)

/-- The chunk count `(sizeof(AllocationHeader) + bytes + CHUNK_SIZE - 1) / CHUNK_SIZE` that both
`calculate_memory_for_bytes` (as `needed_chunks`) and `allocate` (as `chunks_needed`) compute. -/
def chunks_needed (cfg : HeapConfig) (size : Nat) : Nat :=
  cfg.wrap (cfg.wrap (cfg.wrap (size + cfg.header_size) + cfg.CHUNK_SIZE) + cfg.size_mod - 1)
    / cfg.CHUNK_SIZE

/-- `Heap::calculate_memory_for_bytes(bytes)`. -/
def calculate_memory_for_bytes (cfg : HeapConfig) (bytes : Nat) : Nat :=
  cfg.wrap (cfg.wrap (chunks_needed cfg bytes * cfg.CHUNK_SIZE)
    + cfg.wrap (chunks_needed cfg bytes + 7) / 8)

/-- The constructor `Heap(memory, memory_size)`; `none` when its `VERIFY` fails. The
constructor wraps the memory as it finds it: `memory_bits i` is bit `i` of the bytes behind
the chunks, where the bitmap lies, and `memory_words i` the `size_t` word at the start of
chunk `i`. -/
def create (cfg : HeapConfig) (memory memory_size : Nat) (memory_bits : Nat → Bool)
    (memory_words : Nat → Nat) : Option Heap :=
  if cfg.wrap (cfg.wrap (calculate_chunks cfg memory_size * cfg.CHUNK_SIZE)
      + cfg.wrap (calculate_chunks cfg memory_size + 7) / 8) ≤ memory_size then
    some
      { m_total_chunks := calculate_chunks cfg memory_size
        m_allocated_chunks := 0
        m_chunks := memory
        m_bitmap := (List.range (calculate_chunks cfg memory_size)).map memory_bits
        chunk_words := (List.range (calculate_chunks cfg memory_size)).map memory_words }
  else none

/-- `Heap::free_chunks()`. -/
def free_chunks (cfg : HeapConfig) (h : Heap) : Nat :=
  cfg.sub h.m_total_chunks h.m_allocated_chunks

/-- `Heap::free_bytes()`. -/
def free_bytes (cfg : HeapConfig) (h : Heap) : Nat :=
  cfg.wrap (h.free_chunks cfg * cfg.CHUNK_SIZE)

/-- `Heap::allocate(size)`. The outer `none` is a failed `VERIFY` (or the fault of the scrub
`memset` when its length wraps); the returned pointer is `0` for `nullptr`. -/
def allocate (cfg : HeapConfig) (search : BitmapSearch) (h : Heap) (size : Nat) :
    Option (Nat × Heap) :=
  if h.free_chunks cfg < chunks_needed cfg size then some (0, h)
  else
    match (if chunks_needed cfg size < 128 then
        search.find_first_fit h.m_bitmap (chunks_needed cfg size)
      else search.find_best_fit h.m_bitmap (chunks_needed cfg size)) with
    | none => some (0, h)
    | some first_chunk =>
      match bitmap_set_range_and_verify_that_all_bits_flip h.m_bitmap first_chunk
          (chunks_needed cfg size) true with
      | none => none
      | some bits =>
        if cfg.HEAP_SCRUB_BYTE_ALLOC ≠ 0 ∧
            cfg.wrap (chunks_needed cfg size * cfg.CHUNK_SIZE) < cfg.header_size then none
        else
          some (cfg.wrap (h.m_chunks + first_chunk * cfg.CHUNK_SIZE + cfg.header_size),
            { h with
              m_bitmap := bits
              m_allocated_chunks := cfg.wrap (h.m_allocated_chunks + chunks_needed cfg size)
              chunk_words :=
                if cfg.HEAP_SCRUB_BYTE_ALLOC ≠ 0 then
                  fill_words (h.chunk_words.set first_chunk (chunks_needed cfg size))
                    (first_chunk + 1) (chunks_needed cfg size - 1)
                    (cfg.scrub_word cfg.HEAP_SCRUB_BYTE_ALLOC)
                else h.chunk_words.set first_chunk (chunks_needed cfg size) })

/-- The pointer `m_chunks + m_total_chunks * CHUNK_SIZE` one past the arena. -/
def arena_end (cfg : HeapConfig) (h : Heap) : Nat :=
  cfg.wrap (h.m_chunks + cfg.wrap (h.m_total_chunks * cfg.CHUNK_SIZE))

/-- The chunk index `start` that `Heap::deallocate(ptr)` computes from the header address. -/
def chunk_of (cfg : HeapConfig) (h : Heap) (ptr : Nat) : Nat :=
  cfg.sub (cfg.sub ptr cfg.header_size) h.m_chunks / cfg.CHUNK_SIZE

/-- `Heap::deallocate(ptr)`; `none` is a failed `VERIFY`. The header is read from the word at
the start of the chunk that contains the header address (for a pointer returned by `allocate`
that is the header written by `allocate`). -/
def deallocate (cfg : HeapConfig) (h : Heap) (ptr : Nat) : Option Heap :=
  if ptr = 0 then some h
  else if ¬ (h.m_chunks ≤ cfg.sub ptr cfg.header_size ∧
      ptr < h.arena_end cfg) then none
  else if bitmap_get h.m_bitmap (chunk_of cfg h ptr) = false then none
  else if ¬ (cfg.wrap (cfg.sub ptr cfg.header_size
        + cfg.wrap (h.chunk_words.getD (chunk_of cfg h ptr) 0 * cfg.CHUNK_SIZE))
      ≤ h.arena_end cfg) then none
  else
    match bitmap_set_range_and_verify_that_all_bits_flip h.m_bitmap (chunk_of cfg h ptr)
        (h.chunk_words.getD (chunk_of cfg h ptr) 0) false with
    | none => none
    | some bits =>
      if h.m_allocated_chunks < h.chunk_words.getD (chunk_of cfg h ptr) 0 then none
      else
        some { h with
          m_bitmap := bits
          m_allocated_chunks :=
            h.m_allocated_chunks - h.chunk_words.getD (chunk_of cfg h ptr) 0
          chunk_words :=
            if cfg.HEAP_SCRUB_BYTE_FREE ≠ 0 then
              fill_words h.chunk_words (chunk_of cfg h ptr)
                (h.chunk_words.getD (chunk_of cfg h ptr) 0)
                (cfg.scrub_word cfg.HEAP_SCRUB_BYTE_FREE)
            else h.chunk_words }

/-- `Heap::contains(ptr)`. -/
def contains (cfg : HeapConfig) (h : Heap) (ptr : Nat) : Bool :=
  if cfg.sub ptr cfg.header_size < h.m_chunks then false
  else if h.arena_end cfg ≤ ptr then false
  else true

/-- The header address of the allocation whose first chunk is `s`, plus the header: the
pointer that `allocate` returns for it. -/
def pointer_of (cfg : HeapConfig) (h : Heap) (s : Nat) : Nat :=
  h.m_chunks + s * cfg.CHUNK_SIZE + cfg.header_size

end Heap

/-- The parameters are sane: the `static_assert` of the source holds strictly (a chunk has room
for the header and at least one byte), the header is not empty and a chunk size fits in
`size_t`. -/
def heap_config_ok (cfg : HeapConfig) : Prop :=
  0 < cfg.header_size ∧ cfg.header_size < cfg.CHUNK_SIZE ∧ cfg.CHUNK_SIZE < cfg.size_mod

instance (cfg : HeapConfig) : Decidable (heap_config_ok cfg) := by
  unfold heap_config_ok
  infer_instance

/-- The heap object is consistent with its arena: bitmap and arena have `m_total_chunks`
entries, the arena does not start at address 0 and ends inside the address space, and
`m_allocated_chunks` does not exceed `m_total_chunks`. -/
def heap_ok (cfg : HeapConfig) (h : Heap) : Prop :=
  h.m_bitmap.length = h.m_total_chunks ∧ h.chunk_words.length = h.m_total_chunks ∧
  h.m_allocated_chunks ≤ h.m_total_chunks ∧ 0 < h.m_chunks ∧
  h.m_chunks + h.m_total_chunks * cfg.CHUNK_SIZE < cfg.size_mod

instance (cfg : HeapConfig) (h : Heap) : Decidable (heap_ok cfg h) := by
  unfold heap_ok
  infer_instance

/-- The chunks `[s, s + n)` are a live allocation of `h`: at least one chunk, inside the arena,
all its bits set and the header at chunk `s` records `n`. -/
def live_allocation (h : Heap) (s n : Nat) : Prop :=
  1 ≤ n ∧ s + n ≤ h.m_total_chunks ∧
  (∀ i, s ≤ i → i < s + n → bitmap_get h.m_bitmap i = true) ∧
  h.chunk_words.getD s 0 = n

instance (h : Heap) (s n : Nat) : Decidable (live_allocation h s n) :=
  decidable_of_iff
    (1 ≤ n ∧ s + n ≤ h.m_total_chunks ∧
      (∀ k, k < n → bitmap_get h.m_bitmap (s + k) = true) ∧ h.chunk_words.getD s 0 = n)
    (by
      unfold live_allocation
      constructor
      · rintro ⟨h1, h2, h3, h4⟩
        refine ⟨h1, h2, ?_, h4⟩
        intro i hi1 hi2
        have := h3 (i - s) (by omega)
        rwa [show s + (i - s) = i by omega] at this
      · rintro ⟨h1, h2, h3, h4⟩
        exact ⟨h1, h2, fun k hk => h3 (s + k) (by omega) (by omega), h4⟩)

/-- Two chunk ranges (start, length) do not overlap. -/
def ranges_disjoint (a b : Nat × Nat) : Prop := a.1 + a.2 ≤ b.1 ∨ b.1 + b.2 ≤ a.1

instance (a b : Nat × Nat) : Decidable (ranges_disjoint a b) := by
  unfold ranges_disjoint
  infer_instance

/-- The heap `h` holds exactly the allocations `live` (pairs of first chunk and chunk count)
that `allocate` returned and that were not freed since: each is a live allocation, they are
pairwise disjoint and `m_allocated_chunks` is the sum of their sizes. -/
def heap_inv (cfg : HeapConfig) (h : Heap) (live : List (Nat × Nat)) : Prop :=
  heap_ok cfg h ∧ (∀ a ∈ live, live_allocation h a.1 a.2) ∧
  live.Pairwise ranges_disjoint ∧ h.m_allocated_chunks = (live.map Prod.snd).sum

instance (cfg : HeapConfig) (h : Heap) (live : List (Nat × Nat)) :
    Decidable (heap_inv cfg h live) := by
  unfold heap_inv
  infer_instance

/-- A sample heap of the i686 build: four chunks at address 4096, none in use. -/
def sample_heap : Heap :=
  { m_total_chunks := 4, m_allocated_chunks := 0, m_chunks := 4096,
    m_bitmap := [false, false, false, false], chunk_words := [0, 0, 0, 0] }

/-- The sample heap after `allocate(40)`: chunks 0 and 1 in use, the header records 2. -/
def sample_heap_used : Heap :=
  { m_total_chunks := 4, m_allocated_chunks := 2, m_chunks := 4096,
    m_bitmap := [true, true, false, false], chunk_words := [2, 0, 0, 0] }

end Kernel

namespace Kernel

/-- `ExpandableHeap::SubHeap`: the heap, `memory_size`, and the address of the `SubHeap` object
itself, which is the start of its memory block. The `next` link is the order of the list that
holds the sub-heap. -/
structure SubHeap where
  heap : Heap
  memory_size : Nat
  address : Nat
deriving DecidableEq, Repr

/-- The state of an `ExpandableHeap`: the primordial sub-heap `m_heaps`, the chain
`m_heaps.next, ...` of added sub-heaps and the flag `m_expanding`. The policy object
`m_expand` is represented by the answers of its `remove_memory`, passed to `deallocate`. -/
structure ExpandableHeap where
  m_heaps : SubHeap
  chain : List SubHeap
  m_expanding : Bool
deriving DecidableEq, Repr

/-- The search loop of `add_subheap`: the new sub-heap is linked in front of the first
sub-heap of the chain whose arena lies at a higher address. -/
def insert_subheap (new_heap : SubHeap) : List SubHeap → List SubHeap
  | [] => [new_heap]
  | next_heap :: rest =>
    if new_heap.heap.m_chunks < next_heap.heap.m_chunks then new_heap :: next_heap :: rest
    else next_heap :: insert_subheap new_heap rest

namespace ExpandableHeap

/-- `ExpandableHeap::add_subheap(memory, memory_size)`; `none` is a failed `VERIFY` (the one of
`add_subheap` or the one of the `Heap` constructor). `memory_bits` and `memory_words` are what
the block holds where the bitmap and the chunks of the new heap lie. -/
def add_subheap (cfg : HeapConfig) (eh : ExpandableHeap) (memory memory_size : Nat)
    (memory_bits : Nat → Bool) (memory_words : Nat → Nat) : Option ExpandableHeap :=
  if ¬ (cfg.subheap_size < memory_size) then none
  else
    match Heap.create cfg (cfg.wrap (memory + cfg.subheap_size))
        (memory_size - cfg.subheap_size) memory_bits memory_words with
    | none => none
    | some heap =>
      some { eh with
        chain := insert_subheap ⟨heap, memory_size - cfg.subheap_size, memory⟩ eh.chain }

/-- The loop of `ExpandableHeap::deallocate` over the chain `m_heaps.next, ...`: the first
sub-heap that contains `ptr` frees it. The result is the chain with that sub-heap updated,
and the updated sub-heap itself; `none` when the `Heap::deallocate` panics or no sub-heap of
the chain contains `ptr`. -/
def deallocate_in_chain (cfg : HeapConfig) (ptr : Nat) :
    List SubHeap → Option (List SubHeap × SubHeap)
  | [] => none
  | subheap :: rest =>
    if subheap.heap.contains cfg ptr then
      match subheap.heap.deallocate cfg ptr with
      | none => none
      | some heap => some ({ subheap with heap := heap } :: rest, { subheap with heap := heap })
    else
      match deallocate_in_chain cfg ptr rest with
      | none => none
      | some (rest', freed) => some (subheap :: rest', freed)

/-- Unlinking of `subheap` from the chain (the `subheap_link` loop): the first sub-heap with
the address of `subheap` is dropped. -/
def unlink (subheap : SubHeap) : List SubHeap → List SubHeap
  | [] => []
  | x :: rest => if x.address = subheap.address then rest else x :: unlink subheap rest

/-- `ExpandableHeap::deallocate(ptr)`. `remove_memory` is the answer of the expansion policy
(`ExpandableHeapTraits<ExpandHeap>::remove_memory(m_expand, subheap)`) for the block at a
given address; `none` is a failed `VERIFY` or `VERIFY_NOT_REACHED()`. A sub-heap that the
policy declines to take back is rebuilt over its block as the block is: the chunks keep the
words that the freed heap left in them, and `memory_bits` are the bits that the block holds
where the bitmap of the rebuilt heap lies. -/
def deallocate (cfg : HeapConfig) (remove_memory : Nat → Bool) (memory_bits : Nat → Bool)
    (eh : ExpandableHeap) (ptr : Nat) : Option ExpandableHeap :=
  if ptr = 0 then some eh
  else if eh.m_heaps.heap.contains cfg ptr then
    match eh.m_heaps.heap.deallocate cfg ptr with
    | none => none
    | some heap => some { eh with m_heaps := { eh.m_heaps with heap := heap } }
  else
    match deallocate_in_chain cfg ptr eh.chain with
    | none => none
    | some (chain, freed) =>
      if freed.heap.m_allocated_chunks = 0 ∧ eh.m_expanding = false then
        if remove_memory freed.address then
          some { eh with chain := unlink freed chain }
        else
          add_subheap cfg { eh with chain := unlink freed chain } freed.address
            freed.memory_size memory_bits (fun i => freed.heap.chunk_words.getD i 0)
      else some { eh with chain := chain }

end ExpandableHeap

/-- The chain of added sub-heaps is ordered by ascending arena address. -/
def chain_sorted (chain : List SubHeap) : Prop :=
  chain.Pairwise (fun a b => a.heap.m_chunks ≤ b.heap.m_chunks)

instance (chain : List SubHeap) : Decidable (chain_sorted chain) := by
  unfold chain_sorted
  infer_instance

/-- A sample expandable heap of the i686 build: an empty primordial heap at 4096 and no added
sub-heap. -/
def sample_expandable : ExpandableHeap :=
  { m_heaps := ⟨sample_heap, 133, 4064⟩, chain := [], m_expanding := false }

/-- The sample expandable heap after the policy supplied the 131-byte block at 1 MiB
(`add_subheap(0x100000, 131)`) and a 10-byte allocation was served from the new sub-heap
(pointer 1048612): three chunks at 1048608, the first in use. -/
def sample_expandable_used : ExpandableHeap :=
  { m_heaps := ⟨sample_heap, 133, 4064⟩
    chain := [⟨{ m_total_chunks := 3, m_allocated_chunks := 1, m_chunks := 1048608,
                 m_bitmap := [true, false, false], chunk_words := [1, 0, 0] }, 99, 1048576⟩]
    m_expanding := false }

end Kernel

/-!
# Page tables of `MemoryManager` (`ensure_pte`, `release_pte`, `quickmap_page`)

Virtual and physical addresses are natural numbers. The page directory pages and the page
table frames are reached in the source through the quickmap windows (`quickmap_pd`,
`quickmap_pt`); the embedding addresses a directory entry by its two indices and a page table
by the physical address of its frame.
-/

namespace Kernel

/-- `PhysicalAddress::physical_page_base`: the address with the low 12 bits cleared. -/
def physical_page_base (paddr : Nat) : Nat := paddr / 4096 * 4096

/-- Modelled from the spec: `PageTableEntry` (the x86 paging structures of
kernel/arch/x86/PageDirectory.h are not among the sources): the frame and the flags of the data
model. `m_raw == 0` is the entry with every field zero. -/
structure PageTableEntry where
  physical_page_base : Nat
  present : Bool
  writable : Bool
  user_allowed : Bool
  cache_disabled : Bool
  global : Bool
  execute_disabled : Bool
deriving DecidableEq, Repr

namespace PageTableEntry

/-- The entry after `clear()`: `m_raw = 0`. -/
def cleared : PageTableEntry := ⟨0, false, false, false, false, false, false⟩

/-- `PageTableEntry::is_null()`: `m_raw == 0`. -/
def is_null (pte : PageTableEntry) : Bool := decide (pte = cleared)

end PageTableEntry

/-- Modelled from the spec: `PageDirectoryEntry` (not among the sources): the frame of the
page table and the flags that `ensure_pte` sets. -/
structure PageDirectoryEntry where
  page_table_base : Nat
  present : Bool
  writable : Bool
  user_allowed : Bool
  global : Bool
deriving DecidableEq, Repr

namespace PageDirectoryEntry

/-- The entry after `clear()`: `m_raw = 0`. -/
def cleared : PageDirectoryEntry := ⟨0, false, false, false, false⟩

end PageDirectoryEntry

/-- A `PageDirectory` together with the memory of the page-table frames:
`entries pdpt_index pd_index` is the directory entry in the directory page
`m_directory_pages[pdpt_index]`, `m_page_tables` the map from the aligned virtual range key to
the physical page that holds the table, `page_table_memory paddr i` entry `i` of the frame at
`paddr`, and `is_kernel` tells whether this is `m_kernel_page_directory`. -/
structure PageDirectory where
  entries : Nat → Nat → PageDirectoryEntry
  m_page_tables : Nat → Option Nat
  page_table_memory : Nat → Nat → PageTableEntry
  is_kernel : Bool

/-- `(vaddr >> 30) & 0x1ff`. -/
def page_directory_table_index (vaddr : Nat) : Nat := vaddr / 1073741824 % 512

/-- `(vaddr >> 21) & 0x1ff`. -/
def page_directory_index (vaddr : Nat) : Nat := vaddr / 2097152 % 512

/-- `(vaddr >> 12) & 0x1ff`. -/
def page_table_index (vaddr : Nat) : Nat := vaddr / 4096 % 512

/-- `vaddr & ~0x1fffff`, the key of `m_page_tables`. -/
def page_table_key (vaddr : Nat) : Nat := vaddr / 2097152 * 2097152

namespace PageDirectory

/-- The directory entry that serves `vaddr`. -/
def pde (dir : PageDirectory) (vaddr : Nat) : PageDirectoryEntry :=
  dir.entries (page_directory_table_index vaddr) (page_directory_index vaddr)

/-- Store `e` in the directory entry that serves `vaddr`. -/
def set_pde (dir : PageDirectory) (vaddr : Nat) (e : PageDirectoryEntry) : PageDirectory :=
  { dir with entries := fun i j =>
      if i = page_directory_table_index vaddr ∧ j = page_directory_index vaddr then e
      else dir.entries i j }

/-- Store `e` in entry `index` of the page-table frame at `paddr`. -/
def set_pte (dir : PageDirectory) (paddr index : Nat) (e : PageTableEntry) : PageDirectory :=
  { dir with page_table_memory := fun p i =>
      if p = paddr ∧ i = index then e else dir.page_table_memory p i }

/-- The empty page directory: no entry present, no page table recorded. -/
def empty (is_kernel : Bool) : PageDirectory :=
  { entries := fun _ _ => PageDirectoryEntry.cleared
    m_page_tables := fun _ => none
    page_table_memory := fun _ _ => PageTableEntry.cleared
    is_kernel := is_kernel }

end PageDirectory

/-- `MemoryManager::ensure_pte(page_directory, vaddr)`. `allocation` is what
`allocate_user_physical_page(ShouldZeroFill::Yes, &did_purge)` returns if it is called (the
physical address of a zero-filled page, or `none`). The result is the returned pointer, as the
pair of the page-table frame and the entry index (`none` = `nullptr`), and the directory
afterwards; the outer `none` is the failed
`VERIFY(result == HashSetResult::InsertedNewEntry)`. -/
def ensure_pte (dir : PageDirectory) (vaddr : Nat) (allocation : Option Nat) :
    Option (Option (Nat × Nat) × PageDirectory) :=
  if (dir.pde vaddr).present = false then
    match allocation with
    | none => some (none, dir)
    | some page_table =>
      if (dir.m_page_tables (page_table_key vaddr)).isSome then none
      else
        some (some (physical_page_base page_table, page_table_index vaddr),
          { entries := fun i j =>
              if i = page_directory_table_index vaddr ∧ j = page_directory_index vaddr then
                { page_table_base := physical_page_base page_table, present := true,
                  writable := true, user_allowed := true, global := dir.is_kernel }
              else dir.entries i j
            m_page_tables := fun k =>
              if k = page_table_key vaddr then some page_table else dir.m_page_tables k
            page_table_memory := fun p i =>
              if p = physical_page_base page_table then PageTableEntry.cleared
              else dir.page_table_memory p i
            is_kernel := dir.is_kernel })
  else some (some ((dir.pde vaddr).page_table_base, page_table_index vaddr), dir)

/-- The scan `for (u32 i = 0; i <= 0x1ff; i++) if (!page_table[i].is_null()) ...`. -/
def all_clear (table : Nat → PageTableEntry) : Bool :=
  (List.range 512).all (fun i => (table i).is_null)

/-- `MemoryManager::release_pte(page_directory, vaddr, is_last_release)`; `none` is the failed
`VERIFY(result)` after `m_page_tables.remove`. -/
def release_pte (dir : PageDirectory) (vaddr : Nat) (is_last_release : Bool) :
    Option PageDirectory :=
  if (dir.pde vaddr).present then
    if (is_last_release || decide (page_table_index vaddr = 511)) &&
        all_clear ((dir.set_pte (dir.pde vaddr).page_table_base (page_table_index vaddr)
          PageTableEntry.cleared).page_table_memory (dir.pde vaddr).page_table_base) then
      if (dir.m_page_tables (page_table_key vaddr)).isSome then
        some
          { ((dir.set_pte (dir.pde vaddr).page_table_base (page_table_index vaddr)
              PageTableEntry.cleared).set_pde vaddr PageDirectoryEntry.cleared) with
            m_page_tables := fun k =>
              if k = page_table_key vaddr then none else dir.m_page_tables k }
      else none
    else
      some (dir.set_pte (dir.pde vaddr).page_table_base (page_table_index vaddr)
        PageTableEntry.cleared)
  else some dir

/-- An operation on a page directory: `ensure_pte`, `ensure_pte` followed by the caller's
store through the returned pointer, and `release_pte`. -/
inductive PagingOp where
  | ensure (vaddr : Nat) (allocation : Option Nat)
  | write (vaddr : Nat) (allocation : Option Nat) (entry : PageTableEntry)
  | release (vaddr : Nat) (is_last_release : Bool)

/-- The virtual address an operation works on. -/
def PagingOp.vaddr : PagingOp → Nat
  | .ensure v _ => v
  | .write v _ _ => v
  | .release v _ => v

/-- One operation on a page directory; `none` is a failed `VERIFY`. -/
def paging_step (dir : PageDirectory) : PagingOp → Option PageDirectory
  | .ensure v a => (ensure_pte dir v a).map Prod.snd
  | .write v a e =>
    match ensure_pte dir v a with
    | some (some (table, index), d) => some (d.set_pte table index e)
    | some (none, d) => some d
    | none => none
  | .release v l => release_pte dir v l

/-- A sequence of operations on a page directory, from left to right. -/
def paging_run (dir : PageDirectory) : List PagingOp → Option PageDirectory
  | [] => some dir
  | op :: ops =>
    match paging_step dir op with
    | some d => paging_run d ops
    | none => none

/-- Directory entries and `m_page_tables` agree: for every address below 512 GiB (the range
that the three 9-bit indices cover) the directory entry is present exactly when the key is in
the map, and then the map holds the page whose frame the entry names. -/
def directory_inv (dir : PageDirectory) : Prop :=
  ∀ v, v < 549755813888 →
    ((dir.pde v).present = true ↔ (dir.m_page_tables (page_table_key v)).isSome = true) ∧
    (∀ p, dir.m_page_tables (page_table_key v) = some p →
      (dir.pde v).page_table_base = physical_page_base p)

/-- A sample page directory, as `ensure_pte` for 0x400000 (page-table frame 0x200000) and a
store of a present entry through the returned pointer leave the empty directory: the
directory entry 2 of directory page 0 is present, the table is recorded under the key
0x400000, and entry 0 of the table maps the frame 0x800000. -/
def sample_directory : PageDirectory :=
  { entries := fun i j =>
      if i = 0 ∧ j = 2 then ⟨2097152, true, true, true, false⟩
      else PageDirectoryEntry.cleared
    m_page_tables := fun k => if k = 4194304 then some 2097152 else none
    page_table_memory := fun p i =>
      if p = 2097152 ∧ i = 0 then ⟨8388608, true, true, false, false, false, false⟩
      else PageTableEntry.cleared
    is_kernel := false }

/-- The per-CPU quickmap state: the page table entry of the slot
`KERNEL_QUICKMAP_PER_CPU_BASE + Processor::id() * PAGE_SIZE` in `boot_pd_kernel_pt1023` and
the lock `m_quickmap_in_use` of the CPU's `MemoryManagerData`. -/
structure QuickmapSlot where
  pte : PageTableEntry
  m_quickmap_in_use : Bool
deriving DecidableEq, Repr

/-- `MemoryManager::quickmap_page(physical_address)` on one CPU. Taking `m_quickmap_in_use`
while it is held never returns (`none`). -/
def quickmap_page (slot : QuickmapSlot) (physical_address : Nat) : Option QuickmapSlot :=
  if slot.m_quickmap_in_use then none
  else if slot.pte.physical_page_base ≠ physical_address then
    some
      { pte := { slot.pte with
          physical_page_base := physical_page_base physical_address
          present := true, writable := true, user_allowed := false }
        m_quickmap_in_use := true }
  else some { slot with m_quickmap_in_use := true }

/-- `MemoryManager::unquickmap_page()` on one CPU; `none` is the failed
`VERIFY(mm_data.m_quickmap_in_use.is_locked())`. -/
def unquickmap_page (slot : QuickmapSlot) : Option QuickmapSlot :=
  if slot.m_quickmap_in_use then
    some { pte := PageTableEntry.cleared, m_quickmap_in_use := false }
  else none

end Kernel

/-!
# Boot memory map, reserved ranges and page-fault dispatch of `MemoryManager`

Physical addresses and lengths are 64-bit (`PhysicalPtr`, `PhysicalSize`, `u64`); their
arithmetic wraps through `size_add` and `size_sub`. The null `PhysicalAddress` is address 0.
-/

namespace Kernel

/-- `PhysicalMemoryRangeType`. -/
inductive PhysicalMemoryRangeType where
  | Usable
  | Reserved
  | ACPI_Reclaimable
  | ACPI_NVS
  | BadMemory
  | Unknown
deriving DecidableEq, Repr

/-- `PhysicalMemoryRange`. -/
structure PhysicalMemoryRange where
  type : PhysicalMemoryRangeType
  start : Nat
  length : Nat
deriving DecidableEq, Repr

/-- `ContiguousReservedMemoryRange`. -/
structure ContiguousReservedMemoryRange where
  start : Nat
  length : Nat
deriving DecidableEq, Repr

/-- The body of the loop of `register_reserved_ranges`: `start` is `range.start` (0 is the
null address) and `reserved` the list `m_reserved_memory_ranges`. -/
def register_reserved_loop :
    List PhysicalMemoryRange → Nat → List ContiguousReservedMemoryRange →
      Nat × List ContiguousReservedMemoryRange
  | [], start, reserved => (start, reserved)
  | current_range :: rest, start, reserved =>
    if current_range.type ≠ PhysicalMemoryRangeType.Reserved then
      if start = 0 then register_reserved_loop rest start reserved
      else
        register_reserved_loop rest 0
          (reserved ++ [⟨start, size_sub current_range.start start⟩])
    else if start ≠ 0 then register_reserved_loop rest start reserved
    else register_reserved_loop rest current_range.start reserved

/-- `MemoryManager::register_reserved_ranges()`: from `m_physical_memory_ranges` and the
current `m_reserved_memory_ranges` to the new `m_reserved_memory_ranges`; `none` is the failed
`VERIFY(!m_physical_memory_ranges.is_empty())`. -/
def register_reserved_ranges (m_physical_memory_ranges : List PhysicalMemoryRange)
    (m_reserved_memory_ranges : List ContiguousReservedMemoryRange) :
    Option (List ContiguousReservedMemoryRange) :=
  match m_physical_memory_ranges.getLast? with
  | none => none
  | some last =>
    if last.type ≠ PhysicalMemoryRangeType.Reserved then
      some (register_reserved_loop m_physical_memory_ranges 0 m_reserved_memory_ranges).2
    else if (register_reserved_loop m_physical_memory_ranges 0 m_reserved_memory_ranges).1 = 0 then
      some (register_reserved_loop m_physical_memory_ranges 0 m_reserved_memory_ranges).2
    else
      some ((register_reserved_loop m_physical_memory_ranges 0 m_reserved_memory_ranges).2 ++
        [⟨(register_reserved_loop m_physical_memory_ranges 0 m_reserved_memory_ranges).1,
          size_sub (size_add last.start last.length)
            (register_reserved_loop m_physical_memory_ranges 0 m_reserved_memory_ranges).1⟩])

/-- `MemoryManager::is_allowed_to_mmap_to_userspace(start_address, range)`, with `size` the
value of `range.size()`; `none` is the failed `VERIFY(!m_reserved_memory_ranges.is_empty())`. -/
def is_allowed_to_mmap_to_userspace
    (m_reserved_memory_ranges : List ContiguousReservedMemoryRange) (start_address size : Nat) :
    Option Bool :=
  if m_reserved_memory_ranges.isEmpty then none
  else
    some
      (match m_reserved_memory_ranges.find? (fun current_range =>
          decide (current_range.start ≤ start_address) &&
          decide (start_address < size_add current_range.start current_range.length)) with
        | none => false
        | some current_range => !(decide (current_range.length < size)))

/-- A `multiboot_memory_map_t` entry. -/
structure MultibootMemoryMapEntry where
  addr : Nat
  len : Nat
  type : Nat
deriving DecidableEq, Repr

/-- `MULTIBOOT_MEMORY_AVAILABLE`. -/
def MULTIBOOT_MEMORY_AVAILABLE : Nat := 1

/-- `MULTIBOOT_MEMORY_RESERVED`. -/
def MULTIBOOT_MEMORY_RESERVED : Nat := 2

/-- `UsedMemoryRange`: the fields `start` and `end` (here `end_address`); the type tag plays no
role in the scan. -/
structure UsedMemoryRange where
  start : Nat
  end_address : Nat
deriving DecidableEq, Repr

/-- The local `ContiguousPhysicalRange` of `parse_memory_map`. -/
structure ContiguousPhysicalRange where
  lower : Nat
  upper : Nat
deriving DecidableEq, Repr

/-- The alignment correction of `parse_memory_map`: the entry's `addr` and `len` after the
two `if` blocks. -/
def corrected_entry (mmap : MultibootMemoryMapEntry) : Nat × Nat :=
  let addr := if mmap.addr % PAGE_SIZE ≠ 0 then
      size_add mmap.addr (PAGE_SIZE - mmap.addr % PAGE_SIZE) else mmap.addr
  let len := if mmap.addr % PAGE_SIZE ≠ 0 then
      size_sub mmap.len (PAGE_SIZE - mmap.addr % PAGE_SIZE) else mmap.len
  (addr, if len % PAGE_SIZE ≠ 0 then len - len % PAGE_SIZE else len)

/-- One iteration of the page loop: the page at `addr` is skipped if a used range contains
it, else it extends the last contiguous range or starts a new one. -/
def record_page (used : List UsedMemoryRange) (ranges : List ContiguousPhysicalRange)
    (addr : Nat) : List ContiguousPhysicalRange :=
  if used.any (fun used_range => decide (used_range.start ≤ addr) &&
      decide (addr ≤ used_range.end_address)) then ranges
  else
    match ranges.getLast? with
    | none => ranges ++ [⟨addr, addr⟩]
    | some last =>
      if size_add last.upper PAGE_SIZE ≠ addr then ranges ++ [⟨addr, addr⟩]
      else ranges.dropLast ++ [{ last with upper := addr }]

/-- The page addresses that the loop
`for (page_base = mmap->addr; page_base <= (mmap->addr + mmap->len); page_base += PAGE_SIZE)`
visits, for a corrected entry that ends more than a page below `2^64` (beyond that
`page_base` wraps around and the loop does not end). -/
def entry_pages (addr len : Nat) : List Nat :=
  if size_add addr len < addr then []
  else (List.range ((size_add addr len - addr) / PAGE_SIZE + 1)).map
    (fun i => addr + i * PAGE_SIZE)

/-- The part of `MemoryManager::parse_memory_map()` that builds
`contiguous_physical_ranges` from the multiboot memory map and `m_used_memory_ranges`. -/
def parse_memory_map_ranges (used : List UsedMemoryRange) :
    List MultibootMemoryMapEntry → List ContiguousPhysicalRange → List ContiguousPhysicalRange
  | [], ranges => ranges
  | mmap :: rest, ranges =>
    if mmap.type ≠ MULTIBOOT_MEMORY_AVAILABLE then parse_memory_map_ranges used rest ranges
    else if (corrected_entry mmap).2 < PAGE_SIZE then parse_memory_map_ranges used rest ranges
    else
      parse_memory_map_ranges used rest
        ((entry_pages (corrected_entry mmap).1 (corrected_entry mmap).2).foldl
          (record_page used) ranges)

/-- `PageFaultResponse`. -/
inductive PageFaultResponse where
  | ShouldCrash
  | OutOfMemory
  | Continue
deriving DecidableEq, Repr

/-- Modelled from the spec: a `Region` as far as the page-fault dispatch looks at it (Region.h
is not among the sources): an identity and the virtual range it covers. -/
structure Region where
  id : Nat
  base : Nat
  size : Nat
deriving DecidableEq, Repr

/-- Modelled from the spec: `Region::contains(vaddr)`. -/
def Region.contains (r : Region) (vaddr : Nat) : Bool :=
  decide (r.base ≤ vaddr) && decide (vaddr < r.base + r.size)

/-- What `handle_page_fault` reads: the `in_irq` count of the current processor, the kernel
regions, and the lookup `PageDirectory::find_by_cr3(read_cr3())`: no directory, a directory
without a space (`some none`), or the regions of its space. -/
structure FaultContext where
  in_irq : Nat
  m_kernel_regions : List Region
  current_space : Option (Option (List Region))
deriving DecidableEq, Repr

/-- `MemoryManager::find_region_from_vaddr(vaddr)`; the outer `none` is the failed
`VERIFY(page_directory->space())`. -/
def find_region_from_vaddr (ctx : FaultContext) (vaddr : Nat) : Option (Option Region) :=
  match ctx.m_kernel_regions.find? (fun r => r.contains vaddr) with
  | some region => some (some region)
  | none =>
    match ctx.current_space with
    | none => some none
    | some none => none
    | some (some regions) => some (regions.find? (fun r => r.contains vaddr))

/-- `MemoryManager::handle_page_fault(fault)`, with the faulting address `vaddr` and the rest
of the fault in `fault`; `handle_fault` is `Region::handle_fault`. -/
def handle_page_fault {Fault : Type} (handle_fault : Region → Fault → PageFaultResponse)
    (ctx : FaultContext) (vaddr : Nat) (fault : Fault) : Option PageFaultResponse :=
  if ctx.in_irq ≠ 0 then some PageFaultResponse.ShouldCrash
  else
    match find_region_from_vaddr ctx vaddr with
    | none => none
    | some none => some PageFaultResponse.ShouldCrash
    | some (some region) => some (handle_fault region fault)

end Kernel

/-!
# Virtual memory manager of the i386 kernel (`kernel/kernel/mem/vmm/vmm.c`)

The platform headers with the descriptor macros (`table_desc_*`, `page_desc_*`,
`VMM_OFFSET_IN_DIRECTORY`, the `PAGE_*` settings) are not among the sources; they are modelled
after their names and after the descriptor layout of `boot/x86/stage2/mem/pte.h`. On i386 a
page table fills one page (`PTABLE_SIZE = VMM_PAGE_SIZE`), so one page covers one table.

Page tables are reached in the source through the window `pspace_zone`, whose page `n` shows
the table of directory entry `n`: the address of the table of `vaddr` depends on `vaddr` only.
The embedding keeps the page tables by the physical frame that holds them and keeps the
window as the map `window` from the page number `n` to the frame that the page shows (the
entries of the window's own page table); a page of the window that was never mapped shows
nothing, and touching it is a page fault in the kernel (`none`). What the hardware reads
(`translate`) goes by the frames that the table descriptors name. Addresses inside the window
itself are outside the model.
-/

namespace Kernel

/-- `VMM_PAGE_SIZE`. -/
def VMM_PAGE_SIZE : Nat := 4096

/-- `VMM_OFFSET_IN_DIRECTORY(vaddr)`: bits 22..31. -/
def VMM_OFFSET_IN_DIRECTORY (vaddr : Nat) : Nat := vaddr / 4194304 % 1024

/-- `VMM_OFFSET_IN_TABLE(vaddr)`: bits 12..21. -/
def VMM_OFFSET_IN_TABLE (vaddr : Nat) : Nat := vaddr / 4096 % 1024

/-- `PAGE_WRITABLE`. -/
def PAGE_WRITABLE : Nat := 1

/-- `PAGE_READABLE`. -/
def PAGE_READABLE : Nat := 2

/-- `PAGE_EXECUTABLE`. -/
def PAGE_EXECUTABLE : Nat := 4

/-- `PAGE_NOT_CACHEABLE`. -/
def PAGE_NOT_CACHEABLE : Nat := 8

/-- `PAGE_COW`. -/
def PAGE_COW : Nat := 16

/-- `PAGE_USER`. -/
def PAGE_USER : Nat := 32

/-- `(settings & flag) > 0`. -/
def has_setting (settings flag : Nat) : Bool := decide (0 < settings &&& flag)

/-- Modelled from the spec: a page descriptor (`page_desc_t`), the frame and the attributes
`PAGE_DESC_PRESENT`, `PAGE_DESC_WRITABLE`, `PAGE_DESC_USER`, `PAGE_DESC_NOT_CACHEABLE`. -/
structure PageDesc where
  frame : Nat
  present : Bool
  writable : Bool
  user : Bool
  not_cacheable : Bool
deriving DecidableEq, Repr

/-- The descriptor after `page_desc_init`: all zero. -/
def PageDesc.zero : PageDesc := ⟨0, false, false, false, false⟩

/-- Modelled from the spec: a table descriptor (`table_desc_t`), the frame and the attributes
`TABLE_DESC_PRESENT`, `TABLE_DESC_WRITABLE`, `TABLE_DESC_USER`, `TABLE_DESC_COPY_ON_WRITE`
and the allocated state. -/
structure TableDesc where
  frame : Nat
  present : Bool
  writable : Bool
  user : Bool
  copy_on_write : Bool
  allocated : Bool
deriving DecidableEq, Repr

/-- The descriptor after `table_desc_init` or `table_desc_clear`: all zero. -/
def TableDesc.zero : TableDesc := ⟨0, false, false, false, false, false⟩

/-- `_vmm_table_desc_init_from_allocated_state`: the frame is kept, the attributes become
`TABLE_DESC_PRESENT | TABLE_DESC_WRITABLE | TABLE_DESC_USER`. -/
def table_desc_init_from_allocated_state (desc : TableDesc) : TableDesc :=
  ⟨desc.frame, true, true, true, false, false⟩

/-- `_vmm_tables_set_cow(table_index, cur, new)` for `__i386__`: the two descriptors after
the call. -/
def vmm_tables_set_cow (cur new : TableDesc) : TableDesc × TableDesc :=
  ({ cur with writable := false, copy_on_write := true },
   { new with writable := false, copy_on_write := true })

/-- The state of the virtual memory manager on one CPU: whether `THIS_CPU->pdir` is set, the
table descriptors of the active page directory, the frame that each page of the window
`pspace_zone` shows, the page tables by the frame that holds them, the contents of the frames
read as data (one value per byte offset), the free frames of the physical allocator and the
free kernel pages of the zoner. A frame has both readings, as page table and as data; a copy
or a fill of a frame acts on both. -/
structure VmmState where
  pdir_active : Bool
  pdir : Nat → TableDesc
  window : Nat → Option Nat
  tables : Nat → Nat → PageDesc
  memory : Nat → Nat → Nat
  free_frames : List Nat
  free_zones : List Nat

namespace VmmState

/-- The table descriptor that `_vmm_pdirectory_lookup(THIS_CPU->pdir, vaddr)` points to. -/
def table_desc (st : VmmState) (vaddr : Nat) : TableDesc :=
  st.pdir (VMM_OFFSET_IN_DIRECTORY vaddr)

/-- The page `_vmm_pspace_get_vaddr_of_active_ptable(vaddr)` of the window shows a frame. -/
def window_mapped (st : VmmState) (vaddr : Nat) : Bool :=
  (st.window (VMM_OFFSET_IN_DIRECTORY vaddr)).isSome

/-- The frame that the page `_vmm_pspace_get_vaddr_of_active_ptable(vaddr)` of the window
shows (0 when it shows none; the callers check `window_mapped` first). -/
def ptable_frame (st : VmmState) (vaddr : Nat) : Nat :=
  (st.window (VMM_OFFSET_IN_DIRECTORY vaddr)).getD 0

/-- The page descriptor of `vaddr` in the active page table, as
`_vmm_ptable_lookup(_vmm_pspace_get_vaddr_of_active_ptable(vaddr), vaddr)` reads it. -/
def page_desc (st : VmmState) (vaddr : Nat) : PageDesc :=
  st.tables (st.ptable_frame vaddr) (VMM_OFFSET_IN_TABLE vaddr)

/-- Store a table descriptor in the active page directory. -/
def set_table_desc (st : VmmState) (vaddr : Nat) (desc : TableDesc) : VmmState :=
  { st with pdir := fun n => if n = VMM_OFFSET_IN_DIRECTORY vaddr then desc else st.pdir n }

/-- Map the frame `frame` into the page of the window that belongs to `vaddr`. -/
def set_window (st : VmmState) (vaddr frame : Nat) : VmmState :=
  { st with window := fun n =>
      if n = VMM_OFFSET_IN_DIRECTORY vaddr then some frame else st.window n }

/-- Store a page descriptor, through the window, in the active page table of `vaddr`. -/
def set_page_desc (st : VmmState) (vaddr : Nat) (desc : PageDesc) : VmmState :=
  { st with tables := fun f i =>
      if f = st.ptable_frame vaddr ∧ i = VMM_OFFSET_IN_TABLE vaddr then desc
      else st.tables f i }

/-- The page descriptor of `vaddr` that the hardware reads: the entry of the table in the
frame that the table descriptor names. -/
def hardware_page_desc (st : VmmState) (vaddr : Nat) : PageDesc :=
  st.tables (st.table_desc vaddr).frame (VMM_OFFSET_IN_TABLE vaddr)

/-- The frame behind `vaddr` for an access to the page itself: the table and the page are
present, otherwise the access is a page fault. -/
def translate (st : VmmState) (vaddr : Nat) : Option Nat :=
  if (st.table_desc vaddr).present && (st.hardware_page_desc vaddr).present then
    some (st.hardware_page_desc vaddr).frame
  else none

/-- The effect of `memcpy(dst, src, VMM_PAGE_SIZE)` on the frames behind the two pages. -/
def copy_frame (st : VmmState) (dst src : Nat) : VmmState :=
  { st with
    tables := fun f i => if f = dst then st.tables src i else st.tables f i
    memory := fun f i => if f = dst then st.memory src i else st.memory f i }

/-- The effect of `memset(page, 0, VMM_PAGE_SIZE)` on the frame behind the page. -/
def zero_frame (st : VmmState) (dst : Nat) : VmmState :=
  { st with
    tables := fun f i => if f = dst then PageDesc.zero else st.tables f i
    memory := fun f i => if f = dst then 0 else st.memory f i }

end VmmState

/-- Modelled from the spec: `pmm_alloc_aligned(VMM_PAGE_SIZE, VMM_PAGE_SIZE)`, the physical
allocator hands out the first free frame, or 0 when none is left. -/
def pmm_alloc_page (st : VmmState) : Nat × VmmState :=
  match st.free_frames with
  | [] => (0, st)
  | f :: rest => (f, { st with free_frames := rest })

/-- Modelled from the spec: `pmm_free(frame, VMM_PAGE_SIZE)`, the frame is free again. -/
def pmm_free (st : VmmState) (frame : Nat) : VmmState :=
  { st with free_frames := frame :: st.free_frames }

/-- Modelled from the spec: `zoner_new_zone(VMM_PAGE_SIZE)`, the zoner hands out the first
free kernel page; `none` when the kernel address space is used up. -/
def zoner_new_zone (st : VmmState) : Option (Nat × VmmState) :=
  match st.free_zones with
  | [] => none
  | z :: rest => some (z, { st with free_zones := rest })

/-- Modelled from the spec: `zoner_free_zone(zone)` for a zone of one page. -/
def zoner_free_zone (st : VmmState) (zone : Nat) : VmmState :=
  { st with free_zones := zone :: st.free_zones }

/-- The error codes of `VMM_ERR_CODES` (`VMM_ERR_PDIR = 0`, `VMM_ERR_NO_SPACE`,
`VMM_ERR_BAD_ADDR`, `VMM_ERR_PTABLE`), as returned negated. -/
def VMM_ERR_PDIR : Int := 0

/-- `VMM_ERR_NO_SPACE`. -/
def VMM_ERR_NO_SPACE : Int := 1

/-- `VMM_ERR_BAD_ADDR`. -/
def VMM_ERR_BAD_ADDR : Int := 2

/-- `VMM_ERR_PTABLE`. -/
def VMM_ERR_PTABLE : Int := 3

/-- `vmm_allocate_ptable_lockless(vaddr)`: the return value and the state. Its call of
`vmm_map_page_lockless` on the window address of the table, which returns 0 under an active
directory, appears as the new frame behind the window page; the `memset` of the window page
as the zeroed frame. -/
def vmm_allocate_ptable_lockless (st : VmmState) (vaddr : Nat) : Int × VmmState :=
  if st.pdir_active = false then (-VMM_ERR_PDIR, st)
  else if (st.table_desc vaddr).allocated then
    (0, st.set_table_desc vaddr (table_desc_init_from_allocated_state (st.table_desc vaddr)))
  else
    if (pmm_alloc_page st).1 = 0 then (-VMM_ERR_NO_SPACE, (pmm_alloc_page st).2)
    else
      (0, ((((pmm_alloc_page st).2.set_table_desc vaddr
              { TableDesc.zero with allocated := true, frame := (pmm_alloc_page st).1 }).set_window
            vaddr (pmm_alloc_page st).1).zero_frame
            (pmm_alloc_page st).1).set_table_desc vaddr
          (table_desc_init_from_allocated_state
            { TableDesc.zero with allocated := true, frame := (pmm_alloc_page st).1 }))

/-- `vmm_force_allocate_ptable_lockless(vaddr)`: the descriptor is cleared first. -/
def vmm_force_allocate_ptable_lockless (st : VmmState) (vaddr : Nat) : Int × VmmState :=
  vmm_allocate_ptable_lockless (st.set_table_desc vaddr TableDesc.zero) vaddr

/-- The page descriptor that `vmm_map_page_lockless` builds for `paddr` and `settings` under
the table descriptor `table_desc`. -/
def mapped_page_desc (table_desc : TableDesc) (paddr settings : Nat) : PageDesc :=
  { frame := paddr / 4096 * 4096
    present := true
    writable := has_setting settings PAGE_WRITABLE && !table_desc.copy_on_write
    user := has_setting settings PAGE_USER
    not_cacheable := has_setting settings PAGE_NOT_CACHEABLE }

/-- `vmm_map_page_lockless(vaddr, paddr, settings)`: the return value and the state. The
result of `vmm_allocate_ptable_lockless` is not checked: the descriptor is stored through the
window whether or not the table descriptor is present by then. `none` is the page fault of the
store through a window page that shows no frame. -/
def vmm_map_page_lockless (st : VmmState) (vaddr paddr settings : Nat) :
    Option (Int × VmmState) :=
  if st.pdir_active = false then some (-VMM_ERR_PDIR, st)
  else if (st.table_desc vaddr).present = false then
    if ((vmm_allocate_ptable_lockless st vaddr).2.window_mapped vaddr) = false then none
    else
      some (0, (vmm_allocate_ptable_lockless st vaddr).2.set_page_desc vaddr
        (mapped_page_desc ((vmm_allocate_ptable_lockless st vaddr).2.table_desc vaddr)
          paddr settings))
  else if st.window_mapped vaddr = false then none
  else
    some (0, st.set_page_desc vaddr (mapped_page_desc (st.table_desc vaddr) paddr settings))

/-- `vmm_unmap_page_lockless(vaddr)`: the return value and the state; `none` is the page
fault of the store through a window page that shows no frame. -/
def vmm_unmap_page_lockless (st : VmmState) (vaddr : Nat) : Option (Int × VmmState) :=
  if st.pdir_active = false then some (-VMM_ERR_PDIR, st)
  else if (st.table_desc vaddr).present = false then some (-VMM_ERR_PTABLE, st)
  else if st.window_mapped vaddr = false then none
  else
    some (0, st.set_page_desc vaddr
      { st.page_desc vaddr with present := false, writable := false, frame := 0 })

/-- The loop of `vmm_map_pages_lockless`. It stores `vmm_map_page_lockless(...) < 0` in
`status`, so it leaves with 1 after a negative result. -/
def vmm_map_pages_loop (settings : Nat) : Nat → VmmState → Nat → Nat → Option (Int × VmmState)
  | 0, st, _, _ => some (0, st)
  | n_pages + 1, st, vaddr, paddr =>
    match vmm_map_page_lockless st vaddr paddr settings with
    | none => none
    | some (res, st') =>
      if res < 0 then some (1, st')
      else
        vmm_map_pages_loop settings n_pages st' ((vaddr + VMM_PAGE_SIZE) % 4294967296)
          ((paddr + VMM_PAGE_SIZE) % 4294967296)

/-- `vmm_map_pages_lockless(vaddr, paddr, n_pages, settings)`. -/
def vmm_map_pages_lockless (st : VmmState) (vaddr paddr n_pages settings : Nat) :
    Option (Int × VmmState) :=
  if paddr % 4096 ≠ 0 ∨ vaddr % 4096 ≠ 0 then some (-VMM_ERR_BAD_ADDR, st)
  else vmm_map_pages_loop settings n_pages st vaddr paddr

/-- `vmm_map_pages(vaddr, paddr, n_pages, settings)`: the lockless function under
`_vmm_lock`. -/
def vmm_map_pages (st : VmmState) (vaddr paddr n_pages settings : Nat) :
    Option (Int × VmmState) :=
  vmm_map_pages_lockless st vaddr paddr n_pages settings

/-- `_vmm_convert_vaddr2paddr(vaddr)`; `none` is the page fault of the read from a window
without a table. -/
def vmm_convert_vaddr2paddr (st : VmmState) (vaddr : Nat) : Option Nat :=
  if st.window_mapped vaddr then some ((st.page_desc vaddr).frame ||| (vaddr % 4096))
  else none

/-- Modelled from the spec: a zone of a process (`proc_zone_t`), with its start, its length,
whether `type` has `ZONE_TYPE_MAPPED_FILE_SHAREDLY`, and its page flags. -/
structure ProcZone where
  start : Nat
  len : Nat
  mapped_file_sharedly : Bool
  flags : Nat
deriving DecidableEq, Repr

/-- Modelled from the spec: `proc_find_zone(p, vaddr)`, the first zone of the process that
holds the address. -/
def proc_find_zone (p : List ProcZone) (vaddr : Nat) : Option ProcZone :=
  p.find? (fun zone => decide (zone.start ≤ vaddr ∧ vaddr < zone.start + zone.len))

/-- `SHOULD_CRASH` of `pf_types.h` (the header is not among the sources; no caller below looks
at the value). -/
def SHOULD_CRASH : Int := -1

/-- The loop of `vmm_unmap_pages_lockless`. As in the mapping loop, `status` holds the
comparison. -/
def vmm_unmap_pages_loop : Nat → VmmState → Nat → Option (Int × VmmState)
  | 0, st, _ => some (0, st)
  | n_pages + 1, st, vaddr =>
    match vmm_unmap_page_lockless st vaddr with
    | none => none
    | some (res, st') =>
      if res < 0 then some (1, st')
      else vmm_unmap_pages_loop n_pages st' ((vaddr + VMM_PAGE_SIZE) % 4294967296)

/-- `vmm_unmap_pages_lockless(vaddr, n_pages)`. -/
def vmm_unmap_pages_lockless (st : VmmState) (vaddr n_pages : Nat) :
    Option (Int × VmmState) :=
  if vaddr % 4096 ≠ 0 then some (-VMM_ERR_BAD_ADDR, st)
  else vmm_unmap_pages_loop n_pages st vaddr

/-- `_vmm_alloc_mapped_zone(VMM_PAGE_SIZE, VMM_PAGE_SIZE)`: the start of the zone and the
state. -/
def vmm_alloc_mapped_zone (st : VmmState) : Option (Nat × VmmState) :=
  match zoner_new_zone st with
  | none => none
  | some (zone, st1) =>
    match vmm_map_pages_lockless (pmm_alloc_page st1).2 zone (pmm_alloc_page st1).1 1
        (PAGE_READABLE ||| PAGE_WRITABLE) with
    | none => none
    | some (_, st2) => some (zone, st2)

/-- `_vmm_free_mapped_zone(zone)` for a zone of one page; the result of
`vmm_unmap_pages_lockless` is dropped. -/
def vmm_free_mapped_zone (st : VmmState) (zone : Nat) : Option (Int × VmmState) :=
  if st.window_mapped zone = false then none
  else
    match vmm_unmap_pages_lockless (pmm_free st (st.page_desc zone).frame) zone 1 with
    | none => none
    | some (_, st1) => some (0, zoner_free_zone st1 zone)

/-- Modelled from the spec: `vmm_load_page_lockless(vaddr, settings)`, a fresh frame is
allocated, mapped at `vaddr` with the settings and filled with zeroes. -/
def vmm_load_page_lockless (st : VmmState) (vaddr settings : Nat) : Option (Int × VmmState) :=
  if (pmm_alloc_page st).1 = 0 then some (-VMM_ERR_NO_SPACE, (pmm_alloc_page st).2)
  else
    match vmm_map_page_lockless (pmm_alloc_page st).2 vaddr (pmm_alloc_page st).1 settings with
    | none => none
    | some (res, st1) =>
      match st1.translate vaddr with
      | none => none
      | some frame => some (res, st1.zero_frame frame)

/-- `_vmm_copy_page_to_resolve_cow(p, vaddr, src_ptable, page_index)`; `src_ptable` is the
address of the copy of the old table. -/
def vmm_copy_page_to_resolve_cow (st : VmmState) (p : List ProcZone)
    (vaddr src_ptable page_index : Nat) : Option (Int × VmmState) :=
  match proc_find_zone p vaddr with
  | none => some (SHOULD_CRASH, st)
  | some zone =>
    if zone.mapped_file_sharedly then
      match st.translate src_ptable with
      | none => none
      | some src_frame =>
        vmm_map_page_lockless st vaddr (st.tables src_frame page_index).frame zone.flags
    else
      match vmm_load_page_lockless st vaddr zone.flags with
      | none => none
      | some (_, st1) =>
        match zoner_new_zone st1 with
        | none => none
        | some (old_page_vaddr, st2) =>
          match st2.translate src_ptable with
          | none => none
          | some src_frame =>
            match vmm_map_page_lockless st2 old_page_vaddr
                (st2.tables src_frame page_index).frame PAGE_READABLE with
            | none => none
            | some (_, st3) =>
              match st3.translate vaddr, st3.translate old_page_vaddr with
              | some dst, some src =>
                match vmm_unmap_page_lockless (st3.copy_frame dst src) old_page_vaddr with
                | none => none
                | some (_, st4) => some (0, zoner_free_zone st4 old_page_vaddr)
              | _, _ => none

/-- The loop over the pages of the old table in `_vmm_resolve_copy_on_write`: every present
entry of the copy is handed to `_vmm_copy_page_to_resolve_cow`, whose result is dropped. -/
def resolve_pages (p : List ProcZone) (src_ptable table_start : Nat) :
    List Nat → VmmState → Option VmmState
  | [], st => some st
  | page_idx :: rest, st =>
    match st.translate src_ptable with
    | none => none
    | some src_frame =>
      if (st.tables src_frame page_idx).present then
        match vmm_copy_page_to_resolve_cow st p (table_start + page_idx * VMM_PAGE_SIZE)
            src_ptable page_idx with
        | none => none
        | some (_, st1) => resolve_pages p src_ptable table_start rest st1
      else resolve_pages p src_ptable table_start rest st

/-- `_vmm_resolve_copy_on_write(p, vaddr)`: the return value and the state. The old table is
read through its window page and copied to the page `src_ptable`. -/
def vmm_resolve_copy_on_write (st : VmmState) (p : List ProcZone) (vaddr : Nat) :
    Option (Int × VmmState) :=
  match vmm_alloc_mapped_zone st with
  | none => none
  | some (src_ptable, st1) =>
    if st1.window_mapped (vaddr / 4194304 * 4194304) = false then none
    else
      match st1.translate src_ptable with
      | none => none
      | some src_frame =>
        if (vmm_force_allocate_ptable_lockless
            (st1.copy_frame src_frame (st1.ptable_frame (vaddr / 4194304 * 4194304)))
            vaddr).1 ≠ 0 then
          some (vmm_force_allocate_ptable_lockless
            (st1.copy_frame src_frame (st1.ptable_frame (vaddr / 4194304 * 4194304)))
            vaddr)
        else if (st1.table_desc (vaddr / 4194304 * 4194304)).present then
          match resolve_pages p src_ptable (vaddr / 4194304 * 4194304) (List.range 1024)
              ((vmm_force_allocate_ptable_lockless
                (st1.copy_frame src_frame (st1.ptable_frame (vaddr / 4194304 * 4194304)))
                vaddr).2.set_table_desc (vaddr / 4194304 * 4194304)
                (table_desc_init_from_allocated_state
                  ((vmm_force_allocate_ptable_lockless
                    (st1.copy_frame src_frame
                      (st1.ptable_frame (vaddr / 4194304 * 4194304)))
                    vaddr).2.table_desc (vaddr / 4194304 * 4194304)))) with
          | none => none
          | some st3 => vmm_free_mapped_zone st3 src_ptable
        else
          vmm_free_mapped_zone
            (vmm_force_allocate_ptable_lockless
              (st1.copy_frame src_frame (st1.ptable_frame (vaddr / 4194304 * 4194304)))
              vaddr).2 src_ptable

/-- The state in which a copy-on-write fault on `vaddr` is resolved is well formed: a page
directory is active, the table of `vaddr` is present and the frames of its present entries
are frame addresses; the free frames of the physical allocator are frame addresses, all
different, and none of them is in use as the table of `vaddr`, as a page of that table or as
the table of a free kernel page; the free kernel pages of the zoner are page addresses with
different page-table slots, in tables that are present and are not the table of `vaddr`; and
the window shows the table of `vaddr` and the tables of the free kernel pages in the frames
that their descriptors name. -/
def cow_resolvable (st : VmmState) (vaddr : Nat) : Prop :=
  st.pdir_active = true ∧ vaddr < 4294967296 ∧
  (st.table_desc vaddr).present = true ∧
  st.window (VMM_OFFSET_IN_DIRECTORY vaddr) = some (st.table_desc vaddr).frame ∧
  (∀ z ∈ st.free_zones,
    st.window (VMM_OFFSET_IN_DIRECTORY z) = some (st.table_desc z).frame) ∧
  (∀ i, i < 1024 → (st.tables (st.table_desc vaddr).frame i).present = true →
    (st.tables (st.table_desc vaddr).frame i).frame % 4096 = 0) ∧
  st.free_frames.Nodup ∧
  (∀ f ∈ st.free_frames, f % 4096 = 0 ∧ f ≠ (st.table_desc vaddr).frame ∧
    (∀ i, i < 1024 → (st.tables (st.table_desc vaddr).frame i).present = true →
      f ≠ (st.tables (st.table_desc vaddr).frame i).frame) ∧
    (∀ z ∈ st.free_zones, f ≠ (st.table_desc z).frame)) ∧
  (st.free_zones.map (fun z => ((st.table_desc z).frame, VMM_OFFSET_IN_TABLE z))).Nodup ∧
  (∀ z ∈ st.free_zones, z % 4096 = 0 ∧
    VMM_OFFSET_IN_DIRECTORY z ≠ VMM_OFFSET_IN_DIRECTORY vaddr ∧
    (st.table_desc z).present = true ∧
    (st.table_desc z).frame ≠ (st.table_desc vaddr).frame)

instance (st : VmmState) (vaddr : Nat) : Decidable (cow_resolvable st vaddr) := by
  unfold cow_resolvable
  infer_instance

/-- The facts that hold between two pages of the loop of `_vmm_resolve_copy_on_write`, for the
state `st` before the call, the frame `fs` of the copy of the old table, the frame `fn` of
the new table, the kernel page `z1` of the copy, the free kernel pages `Z` and the frames `R`
that were free when the loop began: the directory and the window are those of `st` with the
new table in place, the copy and the old table hold the old entries, the copy is mapped at `z1`, and the
frames that were not free before the call hold their old contents. -/
structure resolve_inv (st : VmmState) (vaddr fs fn z1 : Nat) (Z R : List Nat) (s : VmmState) :
    Prop where
  active : s.pdir_active = true
  pdir_eq : s.pdir = fun n =>
    if n = VMM_OFFSET_IN_DIRECTORY vaddr then ⟨fn, true, true, true, false, false⟩
    else st.pdir n
  window_eq : s.window = fun n =>
    if n = VMM_OFFSET_IN_DIRECTORY vaddr then some fn else st.window n
  zones : s.free_zones = Z
  frames : s.free_frames <:+ R
  snapshot : ∀ i, s.tables fs i = st.tables (st.table_desc vaddr).frame i
  shared_table : ∀ i,
    s.tables (st.table_desc vaddr).frame i = st.tables (st.table_desc vaddr).frame i
  src_present : (s.tables (st.table_desc z1).frame (VMM_OFFSET_IN_TABLE z1)).present = true
  src_frame : (s.tables (st.table_desc z1).frame (VMM_OFFSET_IN_TABLE z1)).frame = fs
  memory_kept : ∀ f, f ∉ st.free_frames → ∀ off, s.memory f off = st.memory f off

/-- The entry `i` of the new table `fn` is as the resolution of a page in a zone leaves it:
present; for a sharedly mapped file with the old frame; otherwise with a frame that was free
before and is no longer, and that holds the contents the old frame had in `st`. -/
def resolved_entry (st : VmmState) (vaddr fn : Nat) (R : List Nat) (s : VmmState) (i : Nat)
    (sharedly : Bool) : Prop :=
  (s.tables fn i).present = true ∧
  (sharedly = true → (s.tables fn i).frame = (st.tables (st.table_desc vaddr).frame i).frame) ∧
  (sharedly = false →
    (s.tables fn i).frame ∈ R ∧ (s.tables fn i).frame ∉ s.free_frames ∧
    ∀ off, s.memory (s.tables fn i).frame off
      = st.memory (st.tables (st.table_desc vaddr).frame i).frame off)

/-- A state as `_vmm_self_test` finds it: the kernel tables (descriptors 768 and up, frames
from 0x400000 on) are present, the first of them maps `KERNEL_BASE` to `KERNEL_PM_BASE`, the
table of descriptor 0 (frame 0x7ff000) maps the first four megabytes to themselves, no
other table is present, and the window shows each present table. -/
def self_test_vmm : VmmState :=
  { pdir_active := true
    pdir := fun n =>
      if 768 ≤ n ∧ n < 1024 then ⟨4194304 + (n - 768) * 4096, true, true, false, false, false⟩
      else if n = 0 then ⟨8384512, true, true, false, false, false⟩
      else TableDesc.zero
    window := fun n =>
      if 768 ≤ n ∧ n < 1024 then some (4194304 + (n - 768) * 4096)
      else if n = 0 then some 8384512
      else none
    tables := fun f i =>
      if f = 4194304 then ⟨1048576 + i * 4096, true, true, false, false⟩
      else if f = 8384512 then ⟨i * 4096, true, true, false, false⟩
      else PageDesc.zero
    memory := fun _ _ => 0
    free_frames := [8388608, 8392704, 8396800, 8400896]
    free_zones := [3225419776, 3225423872] }

/-- A process in the middle of a fork: the table of descriptor 1 (frame 0x7fe000, shared with
the parent and marked copy-on-write) holds three pages, at 0x400000 (frame 0x900000, inside
a private zone), at 0x401000 (frame 0x901000, inside a zone that maps a file sharedly) and
at 0x402000 (frame 0x902000, inside no zone of the process). The byte at offset `i` of frame
0x900000 is `i % 256`. -/
def forked_vmm : VmmState :=
  { pdir_active := true
    pdir := fun n =>
      if 768 ≤ n ∧ n < 1024 then ⟨4194304 + (n - 768) * 4096, true, true, false, false, false⟩
      else if n = 1 then ⟨8380416, true, false, true, true, false⟩
      else TableDesc.zero
    window := fun n =>
      if 768 ≤ n ∧ n < 1024 then some (4194304 + (n - 768) * 4096)
      else if n = 1 then some 8380416
      else none
    tables := fun f i =>
      if f = 8380416 then
        (if i = 0 then ⟨9437184, true, false, true, false⟩
         else if i = 1 then ⟨9441280, true, false, true, false⟩
         else if i = 2 then ⟨9445376, true, false, true, false⟩
         else PageDesc.zero)
      else PageDesc.zero
    memory := fun f i => if f = 9437184 then i % 256 else 0
    free_frames := [8388608, 8392704, 8396800, 8400896]
    free_zones := [3225419776, 3225423872] }

/-- The forked process when the physical allocator has a single free frame left. -/
def forked_vmm_low : VmmState := { forked_vmm with free_frames := [8388608] }

/-- The zones of the forked process: a private zone of one page at 0x400000 and a sharedly
mapped file of one page at 0x401000, both readable and writable for the user. -/
def forked_zones : List ProcZone :=
  [⟨4194304, 4096, false, 35⟩, ⟨4198400, 4096, true, 35⟩]

end Kernel

namespace Kernel

/-! ## Physical frame allocator: auxiliary lemmas -/

theorem take_first_free_none (fs : List Bool) :
    take_first_free fs = none ↔ fs.count true = 0 := by
  induction fs with
  | nil => simp [take_first_free]
  | cons b fs ih =>
    cases b
    · simp only [take_first_free]
      cases h : take_first_free fs with
      | none => simpa using ih.mp h
      | some q =>
        obtain ⟨i, fs'⟩ := q
        simp only [false_iff, reduceCtorEq]
        intro hc
        have : fs.count true = 0 := by simpa using hc
        rw [ih.mpr this] at h
        cases h
    · simp [take_first_free]

theorem take_first_free_some (fs fs' : List Bool) (i : Nat)
    (h : take_first_free fs = some (i, fs')) :
    fs'.length = fs.length ∧ fs'.count true + 1 = fs.count true ∧ i < fs.length ∧
      fs' = fs.set i false ∧ fs.getD i false = true := by
  induction fs generalizing fs' i with
  | nil => simp [take_first_free] at h
  | cons b fs ih =>
    cases b
    · simp only [take_first_free] at h
      cases h2 : take_first_free fs with
      | none => rw [h2] at h; cases h
      | some q =>
        obtain ⟨j, gs⟩ := q
        rw [h2] at h
        simp only [Option.some.injEq, Prod.mk.injEq] at h
        obtain ⟨rfl, rfl⟩ := h
        obtain ⟨h1, h3, h4, h5, h6⟩ := ih gs j h2
        refine ⟨by simp [h1], ?_, by simp; omega, by simp [h5], by simpa using h6⟩
        simpa using h3
    · simp only [take_first_free, Option.some.injEq, Prod.mk.injEq] at h
      obtain ⟨rfl, rfl⟩ := h
      simp


theorem take_from_regions_none (rs : List PhysicalRegion) :
    take_from_regions rs = none ↔ free_frames rs = 0 := by
  induction rs with
  | nil => simp [take_from_regions, free_frames]
  | cons r rs ih =>
    simp only [take_from_regions, PhysicalRegion.take_free_page, free_frames,
      PhysicalRegion.free_count]
    cases h : take_first_free r.frames with
    | none =>
      have h0 := (take_first_free_none r.frames).mp h
      cases h2 : take_from_regions rs with
      | none => simp [h0, ih.mp h2]
      | some q =>
        simp only [reduceCtorEq, false_iff]
        intro hc
        have : free_frames rs = 0 := by omega
        rw [ih.mpr this] at h2
        cases h2
    | some q =>
      obtain ⟨i, fs⟩ := q
      have := take_first_free_some _ _ _ h
      simp only [reduceCtorEq, false_iff]
      omega

theorem take_from_regions_some (rs rs' : List PhysicalRegion) (p : Nat)
    (h : take_from_regions rs = some (p, rs')) :
    total_frames rs' = total_frames rs ∧ free_frames rs' + 1 = free_frames rs := by
  induction rs generalizing rs' with
  | nil => simp [take_from_regions] at h
  | cons r rs ih =>
    simp only [take_from_regions, PhysicalRegion.take_free_page] at h
    cases h1 : take_first_free r.frames with
    | none =>
      rw [h1] at h
      cases h2 : take_from_regions rs with
      | none => rw [h2] at h; cases h
      | some q =>
        obtain ⟨p2, rs2⟩ := q
        rw [h2] at h
        simp only [Option.some.injEq, Prod.mk.injEq] at h
        obtain ⟨rfl, rfl⟩ := h
        have := ih rs2 h2
        simp only [total_frames, free_frames]
        omega
    | some q =>
      obtain ⟨i, fs⟩ := q
      rw [h1] at h
      simp only [Option.some.injEq, Prod.mk.injEq] at h
      obtain ⟨rfl, rfl⟩ := h
      have := take_first_free_some _ _ _ h1
      simp only [total_frames, free_frames, PhysicalRegion.size, PhysicalRegion.free_count]
      omega

theorem frame_index_lt (r : PhysicalRegion) (paddr : Nat) (h : r.contains paddr = true) :
    r.frame_index paddr < r.frames.length := by
  simp only [PhysicalRegion.contains, PhysicalRegion.upper, decide_eq_true_eq] at h
  simp only [PhysicalRegion.frame_index, PAGE_SIZE] at *
  omega

theorem count_set_true (fs : List Bool) (i : Nat) (hi : i < fs.length)
    (h : fs.getD i false = false) : (fs.set i true).count true = fs.count true + 1 := by
  induction fs generalizing i with
  | nil => simp at hi
  | cons b fs ih =>
    cases i with
    | zero =>
      simp only [List.getD_cons_zero] at h
      subst h
      simp
    | succ j =>
      simp only [List.getD_cons_succ] at h
      simp only [List.length_cons, Nat.add_lt_add_iff_right] at hi
      have := ih j hi h
      cases b <;> simp [List.count_cons, this]

theorem return_to_regions_allocated (paddr : Nat) (rs : List PhysicalRegion)
    (h : is_allocated_frame paddr rs = true) :
    ∃ rs', return_to_regions paddr rs = some rs' ∧
      total_frames rs' = total_frames rs ∧ free_frames rs' = free_frames rs + 1 := by
  induction rs with
  | nil => simp [is_allocated_frame] at h
  | cons r rs ih =>
    simp only [is_allocated_frame] at h
    simp only [return_to_regions]
    by_cases hc : r.contains paddr = true
    · rw [if_pos hc] at h
      rw [if_pos hc]
      refine ⟨_, rfl, ?_, ?_⟩
      · simp [total_frames, PhysicalRegion.size, PhysicalRegion.return_page]
      · simp only [free_frames, PhysicalRegion.free_count, PhysicalRegion.return_page]
        have hf : r.frames.getD (r.frame_index paddr) false = false := by
          simpa [PhysicalRegion.is_free] using h
        rw [count_set_true _ _ (frame_index_lt r paddr hc) hf]
        omega
    · rw [if_neg hc] at h
      rw [if_neg hc]
      obtain ⟨rs', h1, h2, h3⟩ := ih h
      refine ⟨r :: rs', by rw [h1], ?_, ?_⟩
      · simp [total_frames, h2]
      · simp only [free_frames, h3]; omega

theorem free_le_total (rs : List PhysicalRegion) : free_frames rs ≤ total_frames rs := by
  induction rs with
  | nil => simp [free_frames, total_frames]
  | cons r rs ih =>
    simp only [free_frames, total_frames, PhysicalRegion.free_count, PhysicalRegion.size]
    have := List.count_le_length (a := true) (l := r.frames)
    omega


theorem size_add_small (a b : Nat) (h : a + b < SIZE_MOD) : size_add a b = a + b := by
  simp only [size_add, SIZE_MOD] at *
  omega

theorem size_sub_small (a b : Nat) (hb : b ≤ a) (ha : a < SIZE_MOD) : size_sub a b = a - b := by
  simp only [size_sub, SIZE_MOD] at *
  omega

theorem find_free_scan_cases (m m' : MemoryManager) (c : Bool) (p : Option Nat)
    (h : m.find_free_scan c = some (p, m')) :
    (c = false ∧ p = none ∧ m' = m ∧ free_frames m.m_user_physical_regions = 0) ∨
    (∃ q rs', p = some q ∧ take_from_regions m.m_user_physical_regions = some (q, rs') ∧
      m'.m_user_physical_regions = rs' ∧
      m'.m_super_physical_regions = m.m_super_physical_regions ∧
      m'.m_system_memory_info = { m.m_system_memory_info with
        user_physical_pages_used := size_add m.m_system_memory_info.user_physical_pages_used 1 }) := by
  unfold MemoryManager.find_free_scan at h
  cases ht : take_from_regions m.m_user_physical_regions with
  | none =>
    rw [ht] at h
    left
    cases c
    · simp only [Bool.false_eq_true, if_false, Option.some.injEq, Prod.mk.injEq] at h
      exact ⟨rfl, h.1.symm, h.2.symm, (take_from_regions_none _).mp ht⟩
    · simp at h
  | some q =>
    obtain ⟨q, rs'⟩ := q
    rw [ht] at h
    simp only [Option.some.injEq, Prod.mk.injEq] at h
    obtain ⟨rfl, rfl⟩ := h
    right
    exact ⟨q, rs', rfl, rfl, rfl, rfl, rfl⟩



theorem pool_inv_commit (s s' : MemoryManager) (n : Nat) (b : Bool)
    (hinv : pool_inv s) (h : s.commit_user_physical_pages n = some (b, s')) : pool_inv s' := by
  have hle := free_le_total s.m_user_physical_regions
  obtain ⟨i1, i2, i3, i4⟩ := hinv
  unfold MemoryManager.commit_user_physical_pages at h
  by_cases hn : n = 0
  · rw [if_pos hn] at h; cases h
  · rw [if_neg hn] at h
    by_cases hu : s.m_system_memory_info.user_physical_pages_uncommitted < n
    · rw [if_pos hu] at h
      simp only [Option.some.injEq, Prod.mk.injEq] at h
      obtain ⟨-, rfl⟩ := h
      exact ⟨i1, i2, i3, i4⟩
    · rw [if_neg hu] at h
      simp only [Option.some.injEq, Prod.mk.injEq] at h
      obtain ⟨-, rfl⟩ := h
      have a1 : size_sub s.m_system_memory_info.user_physical_pages_uncommitted n
          = s.m_system_memory_info.user_physical_pages_uncommitted - n :=
        size_sub_small _ _ (by omega) (by omega)
      have a2 : size_add s.m_system_memory_info.user_physical_pages_committed n
          = s.m_system_memory_info.user_physical_pages_committed + n :=
        size_add_small _ _ (by omega)
      simp only [pool_inv]
      rw [a1, a2]
      refine ⟨i1, ?_, i3, i4⟩
      omega

theorem pool_inv_uncommit (s s' : MemoryManager) (n : Nat)
    (hinv : pool_inv s) (h : s.uncommit_user_physical_pages n = some s') : pool_inv s' := by
  have hle := free_le_total s.m_user_physical_regions
  obtain ⟨i1, i2, i3, i4⟩ := hinv
  unfold MemoryManager.uncommit_user_physical_pages at h
  by_cases hn : n = 0
  · rw [if_pos hn] at h; cases h
  · rw [if_neg hn] at h
    by_cases hu : s.m_system_memory_info.user_physical_pages_committed < n
    · rw [if_pos hu] at h; cases h
    · rw [if_neg hu] at h
      simp only [Option.some.injEq] at h
      subst h
      have a1 : size_sub s.m_system_memory_info.user_physical_pages_committed n
          = s.m_system_memory_info.user_physical_pages_committed - n :=
        size_sub_small _ _ (by omega) (by omega)
      have a2 : size_add s.m_system_memory_info.user_physical_pages_uncommitted n
          = s.m_system_memory_info.user_physical_pages_uncommitted + n :=
        size_add_small _ _ (by omega)
      simp only [pool_inv]
      rw [a1, a2]
      refine ⟨i1, ?_, i3, i4⟩
      omega

theorem pool_inv_allocate (s s' : MemoryManager) (c : Bool) (p : Option Nat)
    (hinv : pool_inv s) (h : s.find_free_user_physical_page c = some (p, s')) :
    pool_inv s' := by
  have hle := free_le_total s.m_user_physical_regions
  obtain ⟨i1, i2, i3, i4⟩ := hinv
  unfold MemoryManager.find_free_user_physical_page at h
  cases c
  · simp only [Bool.false_eq_true, if_false] at h
    by_cases hu : s.m_system_memory_info.user_physical_pages_uncommitted = 0
    · rw [if_pos hu] at h
      simp only [Option.some.injEq, Prod.mk.injEq] at h
      obtain ⟨-, rfl⟩ := h
      exact ⟨i1, i2, i3, i4⟩
    · rw [if_neg hu] at h
      rcases find_free_scan_cases _ _ _ _ h with ⟨-, -, rfl, h0⟩ | ⟨q, rs', -, ht, e1, -, e3⟩
      · exfalso
        have h0' : free_frames s.m_user_physical_regions = 0 := h0
        omega
      · have ht' : take_from_regions s.m_user_physical_regions = some (q, rs') := ht
        obtain ⟨h2, h3⟩ := take_from_regions_some _ _ _ ht'
        simp only [pool_inv, e1, e3]
        have a1 : size_sub s.m_system_memory_info.user_physical_pages_uncommitted 1
            = s.m_system_memory_info.user_physical_pages_uncommitted - 1 :=
          size_sub_small _ _ (by omega) (by omega)
        have a2 : size_add s.m_system_memory_info.user_physical_pages_used 1
            = s.m_system_memory_info.user_physical_pages_used + 1 :=
          size_add_small _ _ (by omega)
        rw [a1, a2, h2]
        refine ⟨i1, ?_, ?_, i4⟩ <;> omega
  · simp only [if_true] at h
    by_cases hu : s.m_system_memory_info.user_physical_pages_committed = 0
    · rw [if_pos hu] at h
      cases h
    · rw [if_neg hu] at h
      rcases find_free_scan_cases _ _ _ _ h with ⟨hc, -⟩ | ⟨q, rs', -, ht, e1, -, e3⟩
      · cases hc
      · have ht' : take_from_regions s.m_user_physical_regions = some (q, rs') := ht
        obtain ⟨h2, h3⟩ := take_from_regions_some _ _ _ ht'
        simp only [pool_inv, e1, e3]
        have a1 : size_sub s.m_system_memory_info.user_physical_pages_committed 1
            = s.m_system_memory_info.user_physical_pages_committed - 1 :=
          size_sub_small _ _ (by omega) (by omega)
        have a2 : size_add s.m_system_memory_info.user_physical_pages_used 1
            = s.m_system_memory_info.user_physical_pages_used + 1 :=
          size_add_small _ _ (by omega)
        rw [a1, a2, h2]
        refine ⟨i1, ?_, ?_, i4⟩ <;> omega

theorem pool_inv_deallocate (s s' : MemoryManager) (paddr : Nat)
    (hinv : pool_inv s) (ha : is_allocated_frame paddr s.m_user_physical_regions = true)
    (h : s.deallocate_physical_page paddr = some s') : pool_inv s' := by
  obtain ⟨rs', h1, h2, h3⟩ := return_to_regions_allocated paddr _ ha
  have hle := free_le_total rs'
  obtain ⟨i1, i2, i3, i4⟩ := hinv
  unfold MemoryManager.deallocate_physical_page at h
  rw [h1] at h
  simp only [Option.some.injEq] at h
  subst h
  have a1 : size_sub s.m_system_memory_info.user_physical_pages_used 1
      = s.m_system_memory_info.user_physical_pages_used - 1 :=
    size_sub_small _ _ (by omega) (by omega)
  have a2 : size_add s.m_system_memory_info.user_physical_pages_uncommitted 1
      = s.m_system_memory_info.user_physical_pages_uncommitted + 1 :=
    size_add_small _ _ (by omega)
  simp only [pool_inv]
  rw [a1, a2, h2, h3]
  refine ⟨i1, ?_, ?_, i4⟩ <;> omega

theorem pool_inv_step (s s' : MemoryManager) (op : PoolOp)
    (hinv : pool_inv s) (h : pool_step s op = some s') : pool_inv s' := by
  cases op with
  | commit n =>
    simp only [pool_step, Option.map_eq_some'] at h
    obtain ⟨⟨b, t⟩, h1, rfl⟩ := h
    exact pool_inv_commit s t n b hinv h1
  | uncommit n => exact pool_inv_uncommit s s' n hinv h
  | allocate c =>
    simp only [pool_step, Option.map_eq_some'] at h
    obtain ⟨⟨p, t⟩, h1, rfl⟩ := h
    exact pool_inv_allocate s t c p hinv h1
  | deallocate paddr =>
    simp only [pool_step] at h
    split at h
    · rename_i ha
      exact pool_inv_deallocate s s' paddr hinv ha h
    · cases h

theorem pool_inv_run (ops : List PoolOp) (s s' : MemoryManager)
    (hinv : pool_inv s) (h : pool_run s ops = some s') : pool_inv s' := by
  induction ops generalizing s with
  | nil =>
    simp only [pool_run, Option.some.injEq] at h
    subst h
    exact hinv
  | cons op ops ih =>
    simp only [pool_run] at h
    cases hs : pool_step s op with
    | none => rw [hs] at h; cases h
    | some t =>
      rw [hs] at h
      exact ih t (pool_inv_step s t op hinv hs) h

theorem pool_inv_of_post_boot (mm : MemoryManager) (h : post_boot mm) : pool_inv mm := by
  unfold post_boot at h
  unfold pool_inv
  omega

end Kernel

namespace Kernel

theorem commit_fail_eq (s : MemoryManager) (n : Nat) (hn : n ≠ 0)
    (hu : s.m_system_memory_info.user_physical_pages_uncommitted < n) :
    s.commit_user_physical_pages n = some (false, s) := by
  unfold MemoryManager.commit_user_physical_pages
  rw [if_neg hn, if_pos hu]

theorem commit_ok_eq (s : MemoryManager) (n : Nat) (hn : n ≠ 0)
    (hu : ¬ s.m_system_memory_info.user_physical_pages_uncommitted < n) :
    s.commit_user_physical_pages n = some (true,
      { m_system_memory_info :=
          { user_physical_pages := s.m_system_memory_info.user_physical_pages
            user_physical_pages_used := s.m_system_memory_info.user_physical_pages_used
            user_physical_pages_committed :=
              size_add s.m_system_memory_info.user_physical_pages_committed n
            user_physical_pages_uncommitted :=
              size_sub s.m_system_memory_info.user_physical_pages_uncommitted n
            super_physical_pages := s.m_system_memory_info.super_physical_pages
            super_physical_pages_used := s.m_system_memory_info.super_physical_pages_used }
        m_user_physical_regions := s.m_user_physical_regions
        m_super_physical_regions := s.m_super_physical_regions }) := by
  unfold MemoryManager.commit_user_physical_pages
  rw [if_neg hn, if_neg hu]

theorem find_free_committed_eq (s : MemoryManager) (p : Nat) (rs : List PhysicalRegion)
    (hc : s.m_system_memory_info.user_physical_pages_committed ≠ 0)
    (ht : take_from_regions s.m_user_physical_regions = some (p, rs)) :
    s.find_free_user_physical_page true = some (some p,
      { m_system_memory_info :=
          { user_physical_pages := s.m_system_memory_info.user_physical_pages
            user_physical_pages_used :=
              size_add s.m_system_memory_info.user_physical_pages_used 1
            user_physical_pages_committed :=
              size_sub s.m_system_memory_info.user_physical_pages_committed 1
            user_physical_pages_uncommitted :=
              s.m_system_memory_info.user_physical_pages_uncommitted
            super_physical_pages := s.m_system_memory_info.super_physical_pages
            super_physical_pages_used := s.m_system_memory_info.super_physical_pages_used }
        m_user_physical_regions := rs
        m_super_physical_regions := s.m_super_physical_regions }) := by
  unfold MemoryManager.find_free_user_physical_page MemoryManager.find_free_scan
  rw [if_pos rfl, if_neg hc]
  simp only [ht]

theorem find_free_uncommitted_eq (s : MemoryManager) (p : Nat) (rs : List PhysicalRegion)
    (hc : s.m_system_memory_info.user_physical_pages_uncommitted ≠ 0)
    (ht : take_from_regions s.m_user_physical_regions = some (p, rs)) :
    s.find_free_user_physical_page false = some (some p,
      { m_system_memory_info :=
          { user_physical_pages := s.m_system_memory_info.user_physical_pages
            user_physical_pages_used :=
              size_add s.m_system_memory_info.user_physical_pages_used 1
            user_physical_pages_committed :=
              s.m_system_memory_info.user_physical_pages_committed
            user_physical_pages_uncommitted :=
              size_sub s.m_system_memory_info.user_physical_pages_uncommitted 1
            super_physical_pages := s.m_system_memory_info.super_physical_pages
            super_physical_pages_used := s.m_system_memory_info.super_physical_pages_used }
        m_user_physical_regions := rs
        m_super_physical_regions := s.m_super_physical_regions }) := by
  unfold MemoryManager.find_free_user_physical_page MemoryManager.find_free_scan
  rw [if_neg (by simp), if_neg hc]
  simp only [ht]

theorem find_free_page_some (s s' : MemoryManager) (c : Bool) (p : Nat)
    (h : s.find_free_user_physical_page c = some (some p, s')) :
    ∃ rs, take_from_regions s.m_user_physical_regions = some (p, rs) ∧
      (c = true → s.m_system_memory_info.user_physical_pages_committed ≠ 0) ∧
      (c = false → s.m_system_memory_info.user_physical_pages_uncommitted ≠ 0) := by
  unfold MemoryManager.find_free_user_physical_page at h
  cases c
  · simp only [Bool.false_eq_true, if_false] at h
    by_cases hu : s.m_system_memory_info.user_physical_pages_uncommitted = 0
    · rw [if_pos hu] at h
      simp at h
    · rw [if_neg hu] at h
      rcases find_free_scan_cases _ _ _ _ h with ⟨-, hp, -, -⟩ | ⟨q, rs', hq, ht, -, -, -⟩
      · cases hp
      · cases hq
        exact ⟨rs', ht, by simp, fun _ => hu⟩
  · simp only [if_true] at h
    by_cases hu : s.m_system_memory_info.user_physical_pages_committed = 0
    · rw [if_pos hu] at h
      cases h
    · rw [if_neg hu] at h
      rcases find_free_scan_cases _ _ _ _ h with ⟨hc, -⟩ | ⟨q, rs', hq, ht, -, -, -⟩
      · cases hc
      · cases hq
        exact ⟨rs', ht, fun _ => hu, by simp⟩

theorem find_free_false_total (s : MemoryManager) :
    ∃ p s', s.find_free_user_physical_page false = some (p, s') ∧
      s'.m_system_memory_info.user_physical_pages_committed
        = s.m_system_memory_info.user_physical_pages_committed := by
  unfold MemoryManager.find_free_user_physical_page MemoryManager.find_free_scan
  rw [if_neg (by simp)]
  by_cases hu : s.m_system_memory_info.user_physical_pages_uncommitted = 0
  · rw [if_pos hu]
    exact ⟨none, s, rfl, rfl⟩
  · rw [if_neg hu]
    cases ht : take_from_regions s.m_user_physical_regions with
    | none =>
      simp only [ht]
      exact ⟨none, _, rfl, rfl⟩
    | some q =>
      simp only [ht]
      exact ⟨some q.1, _, rfl, rfl⟩

theorem take_from_regions_of_free (rs : List PhysicalRegion) (h : free_frames rs ≠ 0) :
    ∃ p rs', take_from_regions rs = some (p, rs') := by
  cases ht : take_from_regions rs with
  | none => exact absurd ((take_from_regions_none rs).mp ht) h
  | some q => exact ⟨q.1, q.2, rfl⟩

theorem getD_of_count_zero (fs : List Bool) (i : Nat) (h : fs.count true = 0) :
    fs.getD i false = false := by
  induction fs generalizing i with
  | nil => simp
  | cons b fs ih =>
    cases b
    · cases i with
      | zero => simp
      | succ j =>
        simp only [List.getD_cons_succ]
        exact ih j (by simpa using h)
    · simp at h

theorem getD_set_self (fs : List Bool) (i : Nat) (b : Bool) (hi : i < fs.length) :
    (fs.set i b).getD i false = b := by
  induction fs generalizing i with
  | nil => simp at hi
  | cons a fs ih =>
    cases i with
    | zero => simp
    | succ j =>
      simp only [List.set_cons_succ, List.getD_cons_succ]
      exact ih j (by simpa using hi)

theorem take_free_page_allocated (r r' : PhysicalRegion) (p : Nat)
    (h : r.take_free_page = some (p, r')) :
    r'.contains p = true ∧ r'.is_free p = false := by
  unfold PhysicalRegion.take_free_page at h
  cases h1 : take_first_free r.frames with
  | none => rw [h1] at h; cases h
  | some q =>
    obtain ⟨i, fs⟩ := q
    rw [h1] at h
    simp only [Option.some.injEq, Prod.mk.injEq] at h
    obtain ⟨rfl, rfl⟩ := h
    obtain ⟨hl, -, hi, hset, -⟩ := take_first_free_some _ _ _ h1
    have hidx : (r.lower + i * PAGE_SIZE - r.lower) / PAGE_SIZE = i := by
      simp only [PAGE_SIZE]
      omega
    constructor
    · simp only [PhysicalRegion.contains, PhysicalRegion.upper, decide_eq_true_eq, hl,
        PAGE_SIZE]
      omega
    · simp only [PhysicalRegion.is_free, PhysicalRegion.frame_index, hidx]
      rw [hset]
      exact getD_set_self _ _ _ hi

theorem take_from_regions_allocated (rs rs' : List PhysicalRegion) (p : Nat)
    (h : take_from_regions rs = some (p, rs')) : is_allocated_frame p rs' = true := by
  induction rs generalizing rs' with
  | nil => simp [take_from_regions] at h
  | cons r rs ih =>
    simp only [take_from_regions] at h
    cases h1 : r.take_free_page with
    | some q =>
      obtain ⟨p1, r1⟩ := q
      rw [h1] at h
      simp only [Option.some.injEq, Prod.mk.injEq] at h
      obtain ⟨rfl, rfl⟩ := h
      obtain ⟨hc, hf⟩ := take_free_page_allocated _ _ _ h1
      simp [is_allocated_frame, hc, hf]
    | none =>
      rw [h1] at h
      cases h2 : take_from_regions rs with
      | none => rw [h2] at h; cases h
      | some q =>
        obtain ⟨p2, rs2⟩ := q
        rw [h2] at h
        simp only [Option.some.injEq, Prod.mk.injEq] at h
        obtain ⟨rfl, rfl⟩ := h
        simp only [is_allocated_frame]
        by_cases hc : r.contains p2 = true
        · rw [if_pos hc]
          have hnone : take_first_free r.frames = none := by
            unfold PhysicalRegion.take_free_page at h1
            cases h3 : take_first_free r.frames with
            | none => rfl
            | some q => rw [h3] at h1; cases h1
          have := getD_of_count_zero r.frames (r.frame_index p2)
            ((take_first_free_none _).mp hnone)
          simpa [PhysicalRegion.is_free] using this
        · rw [if_neg hc]
          exact ih rs2 h2

theorem return_to_regions_free (paddr : Nat) (rs : List PhysicalRegion)
    (h : is_allocated_frame paddr rs = true) :
    ∃ rs', return_to_regions paddr rs = some rs' ∧ is_free_frame paddr rs' = true := by
  induction rs with
  | nil => simp [is_allocated_frame] at h
  | cons r rs ih =>
    simp only [is_allocated_frame] at h
    simp only [return_to_regions]
    by_cases hc : r.contains paddr = true
    · rw [if_pos hc]
      refine ⟨_, rfl, ?_⟩
      have hc' : (r.return_page paddr).contains paddr = true := by
        simpa [PhysicalRegion.contains, PhysicalRegion.upper, PhysicalRegion.return_page]
          using hc
      simp only [is_free_frame, hc', if_true]
      simp only [PhysicalRegion.is_free, PhysicalRegion.return_page,
        PhysicalRegion.frame_index]
      exact getD_set_self _ _ _ (frame_index_lt r paddr hc)
    · rw [if_neg hc] at h
      rw [if_neg hc]
      obtain ⟨rs', h1, h2⟩ := ih h
      refine ⟨r :: rs', by rw [h1], ?_⟩
      simp only [is_free_frame, if_neg hc]
      exact h2

theorem return_to_regions_none (paddr : Nat) (rs : List PhysicalRegion) :
    return_to_regions paddr rs = none ↔ ∀ r ∈ rs, r.contains paddr = false := by
  induction rs with
  | nil => simp [return_to_regions]
  | cons r rs ih =>
    simp only [return_to_regions, List.mem_cons, forall_eq_or_imp]
    by_cases hc : r.contains paddr = true
    · rw [if_pos hc]
      simp [hc]
    · rw [if_neg hc]
      have hc' : r.contains paddr = false := by simpa using hc
      cases h2 : return_to_regions paddr rs with
      | none => simpa [hc'] using ih.mp h2
      | some q =>
        simp only [hc', true_and, reduceCtorEq, false_iff]
        intro hall
        rw [ih.mpr hall] at h2
        cases h2

theorem return_to_regions_split (paddr : Nat) (rs rs' : List PhysicalRegion)
    (h : return_to_regions paddr rs = some rs') :
    ∃ pre r post, rs = pre ++ r :: post ∧ (∀ x ∈ pre, x.contains paddr = false) ∧
      r.contains paddr = true ∧ rs' = pre ++ r.return_page paddr :: post := by
  induction rs generalizing rs' with
  | nil => simp [return_to_regions] at h
  | cons r rs ih =>
    simp only [return_to_regions] at h
    by_cases hc : r.contains paddr = true
    · rw [if_pos hc] at h
      simp only [Option.some.injEq] at h
      subst h
      exact ⟨[], r, rs, rfl, by simp, hc, rfl⟩
    · rw [if_neg hc] at h
      cases h2 : return_to_regions paddr rs with
      | none => rw [h2] at h; cases h
      | some q =>
        rw [h2] at h
        simp only [Option.some.injEq] at h
        subst h
        obtain ⟨pre, x, post, e1, e2, e3, e4⟩ := ih q h2
        refine ⟨r :: pre, x, post, by rw [e1]; rfl, ?_, e3, by rw [e4]; rfl⟩
        intro y hy
        rcases List.mem_cons.mp hy with rfl | hy
        · simpa using hc
        · exact e2 y hy

end Kernel

namespace Kernel

/-! ## Physical frame allocator: the user pool -/

theorem pool_step_total (s s' : MemoryManager) (op : PoolOp) (h : pool_step s op = some s') :
    s'.m_system_memory_info.user_physical_pages = s.m_system_memory_info.user_physical_pages := by
  cases op with
  | commit n =>
    simp only [pool_step, Option.map_eq_some'] at h
    obtain ⟨⟨b, t⟩, h1, rfl⟩ := h
    unfold MemoryManager.commit_user_physical_pages at h1
    split at h1
    · cases h1
    · split at h1 <;>
      · simp only [Option.some.injEq, Prod.mk.injEq] at h1
        obtain ⟨-, rfl⟩ := h1
        rfl
  | uncommit n =>
    simp only [pool_step] at h
    unfold MemoryManager.uncommit_user_physical_pages at h
    split at h
    · cases h
    · split at h
      · cases h
      · simp only [Option.some.injEq] at h
        subst h
        rfl
  | allocate c =>
    simp only [pool_step, Option.map_eq_some'] at h
    obtain ⟨⟨p, t⟩, h1, rfl⟩ := h
    unfold MemoryManager.find_free_user_physical_page at h1
    cases c
    · simp only [Bool.false_eq_true, if_false] at h1
      split at h1
      · simp only [Option.some.injEq, Prod.mk.injEq] at h1
        obtain ⟨-, rfl⟩ := h1
        rfl
      · rcases find_free_scan_cases _ _ _ _ h1 with ⟨-, -, rfl, -⟩ | ⟨q, rs', -, -, -, -, e3⟩
        · rfl
        · show t.m_system_memory_info.user_physical_pages = _
          rw [e3]
    · simp only [if_true] at h1
      split at h1
      · cases h1
      · rcases find_free_scan_cases _ _ _ _ h1 with ⟨hc, -⟩ | ⟨q, rs', -, -, -, -, e3⟩
        · cases hc
        · show t.m_system_memory_info.user_physical_pages = _
          rw [e3]
  | deallocate paddr =>
    simp only [pool_step] at h
    split at h
    · unfold MemoryManager.deallocate_physical_page at h
      split at h
      · simp only [Option.some.injEq] at h
        subst h
        rfl
      · split at h
        · simp only [Option.some.injEq] at h
          subst h
          rfl
        · cases h
    · cases h

theorem pool_run_total (ops : List PoolOp) (s s' : MemoryManager)
    (h : pool_run s ops = some s') :
    s'.m_system_memory_info.user_physical_pages = s.m_system_memory_info.user_physical_pages := by
  induction ops generalizing s with
  | nil =>
    simp only [pool_run, Option.some.injEq] at h
    subst h
    rfl
  | cons op ops ih =>
    simp only [pool_run] at h
    cases hs : pool_step s op with
    | none => rw [hs] at h; cases h
    | some t =>
      rw [hs] at h
      rw [ih t h, pool_step_total s t op hs]

/-- C1. User-pool accounting invariant: in every state `s` reached from a post-boot state
(committed = 0, used = 0, uncommitted = total = user_physical_pages, all frames free) by any
sequence of `commit_user_physical_pages`, `uncommit_user_physical_pages`,
`find_free_user_physical_page(true/false)` and `deallocate_physical_page` of an allocated user
frame, `committed + uncommitted + used = total`, and the total is the one fixed at boot. -/
theorem pool_accounting_invariant (mm0 s : MemoryManager) (ops : List PoolOp)
    (h0 : post_boot mm0) (hrun : pool_run mm0 ops = some s) :
    s.m_system_memory_info.user_physical_pages_committed
        + s.m_system_memory_info.user_physical_pages_uncommitted
        + s.m_system_memory_info.user_physical_pages_used
      = s.m_system_memory_info.user_physical_pages ∧
    s.m_system_memory_info.user_physical_pages
      = mm0.m_system_memory_info.user_physical_pages := by
  obtain ⟨i1, i2, i3, -⟩ := pool_inv_run ops mm0 s (pool_inv_of_post_boot mm0 h0) hrun
  exact ⟨by omega, pool_run_total ops mm0 s hrun⟩

/-- Witness for C1: three frames at 1 MiB; commit 2, one committed and one uncommitted
allocation, return of the first frame, uncommit 1. -/
theorem pool_accounting_invariant_witness :
    post_boot (boot_state 1048576 3) ∧
    pool_run (boot_state 1048576 3)
        [.commit 2, .allocate true, .allocate false, .deallocate 1048576, .uncommit 1]
      = some
        (pool_state 1048576 [true, false, true] 1 0 2) ∧
    (0 + 2 + 1 = 3 ∧ 3 = 3) :=
  ⟨by decide, by decide,
    pool_accounting_invariant (boot_state 1048576 3)
      (pool_state 1048576 [true, false, true] 1 0 2)
      [.commit 2, .allocate true, .allocate false, .deallocate 1048576, .uncommit 1]
      (by decide) (by decide)⟩


theorem find_free_true_page (s s' : MemoryManager) (p : Option Nat)
    (h : s.find_free_user_physical_page true = some (p, s')) : ∃ q, p = some q := by
  unfold MemoryManager.find_free_user_physical_page at h
  simp only [if_true] at h
  by_cases hu : s.m_system_memory_info.user_physical_pages_committed = 0
  · rw [if_pos hu] at h
    cases h
  · rw [if_neg hu] at h
    rcases find_free_scan_cases _ _ _ _ h with ⟨hc, -⟩ | ⟨q, rs', hq, -, -, -, -⟩
    · cases hc
    · exact ⟨q, hq⟩

theorem committed_run_ok (cs : List Bool) (s : MemoryManager) (hinv : pool_inv s)
    (hc : cs.count true ≤ s.m_system_memory_info.user_physical_pages_committed) :
    committed_allocations_succeed s cs = true := by
  induction cs generalizing s with
  | nil => rfl
  | cons c cs ih =>
    have hle := free_le_total s.m_user_physical_regions
    obtain ⟨i1, i2, i3, i4⟩ := hinv
    cases c
    · obtain ⟨p, s', h1, h2⟩ := find_free_false_total s
      have hinv' := pool_inv_allocate s s' false p ⟨i1, i2, i3, i4⟩ h1
      simp only [committed_allocations_succeed, h1, Bool.not_false, Bool.true_or,
        Bool.true_and]
      apply ih s' hinv'
      rw [h2]
      simpa using hc
    · have hc1 : cs.count true + 1 ≤ s.m_system_memory_info.user_physical_pages_committed := by
        simpa using hc
      obtain ⟨p, rs, ht⟩ := take_from_regions_of_free s.m_user_physical_regions (by omega)
      have h1 := find_free_committed_eq s p rs (by omega) ht
      have hinv' := pool_inv_allocate s _ true (some p) ⟨i1, i2, i3, i4⟩ h1
      simp only [committed_allocations_succeed, h1, Option.isSome_some, Bool.or_true,
        Bool.true_and]
      apply ih _ hinv'
      show cs.count true ≤ size_sub s.m_system_memory_info.user_physical_pages_committed 1
      rw [size_sub_small _ _ (by omega) (by omega)]
      omega

/-- C5. A committed allocation cannot fail: in every state reached from a post-boot state, if
`committed > 0` then `find_free_user_physical_page(true)` passes both assertions and returns a
frame, so `allocate_committed_user_physical_page` returns a non-null page; and after a
successful `commit_user_physical_pages(n)` any interleaving of allocations that contains at
most `n` committed ones runs without a failed assertion, every committed one returning a
frame. -/
theorem committed_allocation_cannot_fail (mm0 s : MemoryManager) (ops : List PoolOp)
    (h0 : post_boot mm0) (hrun : pool_run mm0 ops = some s) :
    (0 < s.m_system_memory_info.user_physical_pages_committed →
      ∃ p s', s.find_free_user_physical_page true = some (some p, s') ∧
        s.allocate_committed_user_physical_page = some (p, s')) ∧
    (∀ (n : Nat) (s1 : MemoryManager) (cs : List Bool),
      s.commit_user_physical_pages n = some (true, s1) → cs.count true ≤ n →
      committed_allocations_succeed s1 cs = true) := by
  have hinv := pool_inv_run ops mm0 s (pool_inv_of_post_boot mm0 h0) hrun
  have hle := free_le_total s.m_user_physical_regions
  constructor
  · intro hc
    obtain ⟨i1, i2, i3, i4⟩ := hinv
    obtain ⟨p, rs, ht⟩ := take_from_regions_of_free s.m_user_physical_regions (by omega)
    have h1 := find_free_committed_eq s p rs (by omega) ht
    refine ⟨p, _, h1, ?_⟩
    unfold MemoryManager.allocate_committed_user_physical_page
    rw [h1]
  · intro n s1 cs hcommit hcount
    have hinv1 := pool_inv_commit s s1 n true hinv hcommit
    apply committed_run_ok cs s1 hinv1
    obtain ⟨i1, i2, i3, i4⟩ := hinv
    have hn : n ≠ 0 := by
      intro h
      subst h
      simp [MemoryManager.commit_user_physical_pages] at hcommit
    have hu : ¬ s.m_system_memory_info.user_physical_pages_uncommitted < n := by
      intro h
      rw [commit_fail_eq s n hn h] at hcommit
      simp at hcommit
    rw [commit_ok_eq s n hn hu] at hcommit
    simp only [Option.some.injEq, Prod.mk.injEq, true_and] at hcommit
    subst hcommit
    show cs.count true ≤ size_add s.m_system_memory_info.user_physical_pages_committed n
    rw [size_add_small _ _ (by omega)]
    omega

/-- Witness for C5: four frames, two of them committed (reached by `commit 2`); the committed
allocation returns the frame at 1 MiB. -/
theorem committed_allocation_cannot_fail_witness :
    post_boot (boot_state 1048576 4) ∧
    pool_run (boot_state 1048576 4) [.commit 2]
      = some (pool_state 1048576 [true, true, true, true] 0 2 2) ∧
    (pool_state 1048576 [true, true, true, true] 0 2 2).allocate_committed_user_physical_page
      = some (1048576, pool_state 1048576 [false, true, true, true] 1 1 2) ∧
    ((0 : Nat) < 2 →
      ∃ p s', (pool_state 1048576 [true, true, true, true] 0 2 2).find_free_user_physical_page
          true = some (some p, s') ∧
        (pool_state 1048576 [true, true, true, true] 0 2 2).allocate_committed_user_physical_page
          = some (p, s')) :=
  ⟨by decide, by decide, by decide,
    (committed_allocation_cannot_fail (boot_state 1048576 4)
      (pool_state 1048576 [true, true, true, true] 0 2 2) [.commit 2]
      (by decide) (by decide)).1⟩

end Kernel

namespace Kernel

theorem deallocate_user_eq (s : MemoryManager) (paddr : Nat) (rs : List PhysicalRegion)
    (h : return_to_regions paddr s.m_user_physical_regions = some rs) :
    s.deallocate_physical_page paddr = some
      { m_system_memory_info :=
          { user_physical_pages := s.m_system_memory_info.user_physical_pages
            user_physical_pages_used :=
              size_sub s.m_system_memory_info.user_physical_pages_used 1
            user_physical_pages_committed :=
              s.m_system_memory_info.user_physical_pages_committed
            user_physical_pages_uncommitted :=
              size_add s.m_system_memory_info.user_physical_pages_uncommitted 1
            super_physical_pages := s.m_system_memory_info.super_physical_pages
            super_physical_pages_used := s.m_system_memory_info.super_physical_pages_used }
        m_user_physical_regions := rs
        m_super_physical_regions := s.m_super_physical_regions } := by
  unfold MemoryManager.deallocate_physical_page
  rw [h]

theorem deallocate_super_eq (s : MemoryManager) (paddr : Nat) (rs : List PhysicalRegion)
    (hu : return_to_regions paddr s.m_user_physical_regions = none)
    (h : return_to_regions paddr s.m_super_physical_regions = some rs) :
    s.deallocate_physical_page paddr = some
      { m_system_memory_info :=
          { user_physical_pages := s.m_system_memory_info.user_physical_pages
            user_physical_pages_used := s.m_system_memory_info.user_physical_pages_used
            user_physical_pages_committed :=
              s.m_system_memory_info.user_physical_pages_committed
            user_physical_pages_uncommitted :=
              s.m_system_memory_info.user_physical_pages_uncommitted
            super_physical_pages := s.m_system_memory_info.super_physical_pages
            super_physical_pages_used :=
              size_sub s.m_system_memory_info.super_physical_pages_used 1 }
        m_user_physical_regions := s.m_user_physical_regions
        m_super_physical_regions := rs } := by
  unfold MemoryManager.deallocate_physical_page
  rw [hu, h]

theorem return_to_regions_of_split (paddr : Nat) (pre post : List PhysicalRegion)
    (r : PhysicalRegion) (hpre : ∀ x ∈ pre, x.contains paddr = false)
    (hr : r.contains paddr = true) :
    return_to_regions paddr (pre ++ r :: post) = some (pre ++ r.return_page paddr :: post) := by
  induction pre with
  | nil => simp [return_to_regions, hr]
  | cons x pre ih =>
    have hx : x.contains paddr = false := hpre x (by simp)
    have := ih (fun y hy => hpre y (by simp [hy]))
    simp [return_to_regions, hx, this]

theorem size_round_trip (a : Nat) (ha : a < SIZE_MOD) : size_sub (size_add a 1) 1 = a := by
  simp only [size_sub, size_add, SIZE_MOD] at *
  omega

/-- C6 (as amended). For every user-pool allocation that returns a frame `p`, in a state that
satisfies the pool invariant (every reachable state does), `deallocate_physical_page(p)`
right afterwards succeeds, restores `used` and the number of free frames, and `p` is free in
its region again. After an uncommitted allocation `committed` and `uncommitted` are restored
too; after a committed allocation the page goes back to the uncommitted tally: `committed`
stays one lower and `uncommitted` ends one higher than before the allocation. -/
theorem allocate_deallocate_round_trip (s s1 : MemoryManager) (c : Bool) (p : Nat)
    (hinv : pool_inv s) (h : s.find_free_user_physical_page c = some (some p, s1)) :
    ∃ s2, s1.deallocate_physical_page p = some s2 ∧
      s2.m_system_memory_info.user_physical_pages_used
        = s.m_system_memory_info.user_physical_pages_used ∧
      is_free_frame p s2.m_user_physical_regions = true ∧
      free_frames s2.m_user_physical_regions = free_frames s.m_user_physical_regions ∧
      (c = false →
        s2.m_system_memory_info.user_physical_pages_committed
          = s.m_system_memory_info.user_physical_pages_committed ∧
        s2.m_system_memory_info.user_physical_pages_uncommitted
          = s.m_system_memory_info.user_physical_pages_uncommitted) ∧
      (c = true →
        s2.m_system_memory_info.user_physical_pages_committed + 1
          = s.m_system_memory_info.user_physical_pages_committed ∧
        s2.m_system_memory_info.user_physical_pages_uncommitted
          = s.m_system_memory_info.user_physical_pages_uncommitted + 1) := by
  have hle := free_le_total s.m_user_physical_regions
  obtain ⟨i1, i2, i3, i4⟩ := hinv
  obtain ⟨rs, ht, hc1, hc2⟩ := find_free_page_some s s1 c p h
  obtain ⟨ht1, ht2⟩ := take_from_regions_some _ _ _ ht
  have halloc := take_from_regions_allocated _ _ _ ht
  obtain ⟨rs2, hr1, hr2⟩ := return_to_regions_free p rs halloc
  obtain ⟨rs3, hr3, hr4, hr5⟩ := return_to_regions_allocated p rs halloc
  rw [hr1] at hr3
  cases hr3
  have hused : size_sub (size_add s.m_system_memory_info.user_physical_pages_used 1) 1
      = s.m_system_memory_info.user_physical_pages_used := size_round_trip _ (by omega)
  cases c
  · rw [find_free_uncommitted_eq s p rs (hc2 rfl) ht] at h
    simp only [Option.some.injEq, Prod.mk.injEq, true_and] at h
    subst h
    have hu := hc2 rfl
    refine ⟨_, deallocate_user_eq _ p rs2 hr1, hused, hr2, by simp only; omega, ?_, by simp⟩
    intro _
    refine ⟨rfl, ?_⟩
    show size_add (size_sub s.m_system_memory_info.user_physical_pages_uncommitted 1) 1 = _
    rw [size_sub_small _ _ (by omega) (by omega), size_add_small _ _ (by omega)]
    omega
  · rw [find_free_committed_eq s p rs (hc1 rfl) ht] at h
    simp only [Option.some.injEq, Prod.mk.injEq, true_and] at h
    subst h
    have hu := hc1 rfl
    refine ⟨_, deallocate_user_eq _ p rs2 hr1, hused, hr2, by simp only; omega, by simp, ?_⟩
    intro _
    constructor
    · show size_sub s.m_system_memory_info.user_physical_pages_committed 1 + 1 = _
      rw [size_sub_small _ _ (by omega) (by omega)]
      omega
    · show size_add s.m_system_memory_info.user_physical_pages_uncommitted 1 = _
      rw [size_add_small _ _ (by omega)]

/-- Witness for C6: an uncommitted allocation from two free frames and its return. -/
theorem allocate_deallocate_round_trip_witness :
    pool_inv (pool_state 1048576 [true, true] 0 1 1) ∧
    (pool_state 1048576 [true, true] 0 1 1).find_free_user_physical_page false
      = some (some 1048576, pool_state 1048576 [false, true] 1 1 0) ∧
    (pool_state 1048576 [false, true] 1 1 0).deallocate_physical_page 1048576
      = some (pool_state 1048576 [true, true] 0 1 1) ∧
    (∃ s2, (pool_state 1048576 [false, true] 1 1 0).deallocate_physical_page 1048576 = some s2 ∧
      s2.m_system_memory_info.user_physical_pages_used = 0 ∧
      is_free_frame 1048576 s2.m_user_physical_regions = true ∧
      free_frames s2.m_user_physical_regions = 2 ∧
      (false = false →
        s2.m_system_memory_info.user_physical_pages_committed = 1 ∧
        s2.m_system_memory_info.user_physical_pages_uncommitted = 1) ∧
      (false = true →
        s2.m_system_memory_info.user_physical_pages_committed + 1 = 1 ∧
        s2.m_system_memory_info.user_physical_pages_uncommitted = 1 + 1)) :=
  ⟨by decide, by decide, by decide,
    allocate_deallocate_round_trip (pool_state 1048576 [true, true] 0 1 1)
      (pool_state 1048576 [false, true] 1 1 0) false 1048576 (by decide) (by decide)⟩

/-- Counterexample to C6 as stated: with two frames and one page committed, the committed
allocation returns the frame at 1 MiB; handing it back with `deallocate_physical_page` leaves
committed = 0 and uncommitted = 2, where the counters before the allocation were committed = 1
and uncommitted = 1. -/
theorem committed_round_trip_not_restored :
    pool_run (boot_state 1048576 2) [.commit 1] = some (pool_state 1048576 [true, true] 0 1 1) ∧
    (pool_state 1048576 [true, true] 0 1 1).find_free_user_physical_page true
      = some (some 1048576, pool_state 1048576 [false, true] 1 0 1) ∧
    (pool_state 1048576 [false, true] 1 0 1).deallocate_physical_page 1048576
      = some (pool_state 1048576 [true, true] 0 0 2) ∧
    (pool_state 1048576 [true, true] 0 0 2).m_system_memory_info
      ≠ (pool_state 1048576 [true, true] 0 1 1).m_system_memory_info := by
  decide

end Kernel

namespace Kernel

/-- C7. Counter deltas of the user pool, in every state satisfying the pool invariant (every
reachable state does): a successful `commit_user_physical_pages(n)` moves `n` from
uncommitted to committed; a committed allocation returns a page, lowers committed by one and
raises used by one, uncommitted unchanged; an uncommitted allocation that returns a page
lowers uncommitted by one and raises used by one, committed unchanged; the total never
changes. -/
theorem pool_counter_deltas (s : MemoryManager) (hinv : pool_inv s) :
    (∀ (n : Nat) (s' : MemoryManager), s.commit_user_physical_pages n = some (true, s') →
      s'.m_system_memory_info.user_physical_pages_uncommitted + n
        = s.m_system_memory_info.user_physical_pages_uncommitted ∧
      s'.m_system_memory_info.user_physical_pages_committed
        = s.m_system_memory_info.user_physical_pages_committed + n ∧
      s'.m_system_memory_info.user_physical_pages_used
        = s.m_system_memory_info.user_physical_pages_used ∧
      s'.m_system_memory_info.user_physical_pages
        = s.m_system_memory_info.user_physical_pages) ∧
    (∀ (p : Option Nat) (s' : MemoryManager),
      s.find_free_user_physical_page true = some (p, s') →
      p.isSome = true ∧
      s'.m_system_memory_info.user_physical_pages_committed + 1
        = s.m_system_memory_info.user_physical_pages_committed ∧
      s'.m_system_memory_info.user_physical_pages_used
        = s.m_system_memory_info.user_physical_pages_used + 1 ∧
      s'.m_system_memory_info.user_physical_pages_uncommitted
        = s.m_system_memory_info.user_physical_pages_uncommitted ∧
      s'.m_system_memory_info.user_physical_pages
        = s.m_system_memory_info.user_physical_pages) ∧
    (∀ (p : Nat) (s' : MemoryManager),
      s.find_free_user_physical_page false = some (some p, s') →
      s'.m_system_memory_info.user_physical_pages_uncommitted + 1
        = s.m_system_memory_info.user_physical_pages_uncommitted ∧
      s'.m_system_memory_info.user_physical_pages_used
        = s.m_system_memory_info.user_physical_pages_used + 1 ∧
      s'.m_system_memory_info.user_physical_pages_committed
        = s.m_system_memory_info.user_physical_pages_committed ∧
      s'.m_system_memory_info.user_physical_pages
        = s.m_system_memory_info.user_physical_pages) := by
  have hle := free_le_total s.m_user_physical_regions
  obtain ⟨i1, i2, i3, i4⟩ := hinv
  refine ⟨?_, ?_, ?_⟩
  · intro n s' hcommit
    have hn : n ≠ 0 := by
      intro h
      subst h
      simp [MemoryManager.commit_user_physical_pages] at hcommit
    have hu : ¬ s.m_system_memory_info.user_physical_pages_uncommitted < n := by
      intro h
      rw [commit_fail_eq s n hn h] at hcommit
      simp at hcommit
    rw [commit_ok_eq s n hn hu] at hcommit
    simp only [Option.some.injEq, Prod.mk.injEq, true_and] at hcommit
    subst hcommit
    refine ⟨?_, ?_, rfl, rfl⟩
    · show size_sub s.m_system_memory_info.user_physical_pages_uncommitted n + n = _
      rw [size_sub_small _ _ (by omega) (by omega)]
      omega
    · show size_add s.m_system_memory_info.user_physical_pages_committed n = _
      rw [size_add_small _ _ (by omega)]
  · intro p s' h
    obtain ⟨q, rfl⟩ := find_free_true_page s s' p h
    obtain ⟨rs, ht, hc1, -⟩ := find_free_page_some s s' true q h
    have hc := hc1 rfl
    rw [find_free_committed_eq s q rs hc ht] at h
    simp only [Option.some.injEq, Prod.mk.injEq, true_and] at h
    subst h
    refine ⟨rfl, ?_, ?_, rfl, rfl⟩
    · show size_sub s.m_system_memory_info.user_physical_pages_committed 1 + 1 = _
      rw [size_sub_small _ _ (by omega) (by omega)]
      omega
    · show size_add s.m_system_memory_info.user_physical_pages_used 1 = _
      rw [size_add_small _ _ (by omega)]
  · intro p s' h
    obtain ⟨rs, ht, -, hc2⟩ := find_free_page_some s s' false p h
    have hc := hc2 rfl
    rw [find_free_uncommitted_eq s p rs hc ht] at h
    simp only [Option.some.injEq, Prod.mk.injEq, true_and] at h
    subst h
    refine ⟨?_, ?_, rfl, rfl⟩
    · show size_sub s.m_system_memory_info.user_physical_pages_uncommitted 1 + 1 = _
      rw [size_sub_small _ _ (by omega) (by omega)]
      omega
    · show size_add s.m_system_memory_info.user_physical_pages_used 1 = _
      rw [size_add_small _ _ (by omega)]

set_option maxRecDepth 100000 in
/-- Witness for C7, the example of the specification: a region of 100 frames; commit 10 gives
uncommitted = 90, committed = 10; ten committed allocations give committed = 0, used = 10,
uncommitted = 90; one uncommitted allocation gives uncommitted = 89, used = 11; the total is
100 throughout. -/
theorem pool_counter_deltas_witness :
    pool_inv (boot_state 1048576 100) ∧
    (pool_run (boot_state 1048576 100) [.commit 10]).map (·.m_system_memory_info)
      = some ⟨100, 0, 10, 90, 0, 0⟩ ∧
    (pool_run (boot_state 1048576 100)
        (.commit 10 :: List.replicate 10 (.allocate true))).map (·.m_system_memory_info)
      = some ⟨100, 10, 0, 90, 0, 0⟩ ∧
    (pool_run (boot_state 1048576 100)
        (.commit 10 :: List.replicate 10 (.allocate true) ++ [.allocate false])).map
          (·.m_system_memory_info)
      = some ⟨100, 11, 0, 89, 0, 0⟩ ∧
    (∀ (n : Nat) (s' : MemoryManager),
      (boot_state 1048576 100).commit_user_physical_pages n = some (true, s') →
      s'.m_system_memory_info.user_physical_pages_uncommitted + n = 100 ∧
      s'.m_system_memory_info.user_physical_pages_committed = 0 + n ∧
      s'.m_system_memory_info.user_physical_pages_used = 0 ∧
      s'.m_system_memory_info.user_physical_pages = 100) :=
  ⟨by decide, by decide, by decide, by decide,
    (pool_counter_deltas (boot_state 1048576 100) (by decide)).1⟩

/-- C8. For every `page_count > 0`, in a state whose counters satisfy
`committed + uncommitted < 2^64` (every reachable state does),
`commit_user_physical_pages(page_count)` returns false exactly when
`uncommitted < page_count` and then changes nothing; otherwise it returns true and moves
exactly `page_count` from uncommitted to committed, leaving used and all regions as they
were. -/
theorem commit_user_physical_pages_result (s : MemoryManager) (page_count : Nat)
    (hpos : 0 < page_count)
    (hwf : s.m_system_memory_info.user_physical_pages_committed
      + s.m_system_memory_info.user_physical_pages_uncommitted < SIZE_MOD) :
    ∃ b s', s.commit_user_physical_pages page_count = some (b, s') ∧
      (b = false ↔ s.m_system_memory_info.user_physical_pages_uncommitted < page_count) ∧
      (b = false → s' = s) ∧
      (b = true →
        s'.m_system_memory_info.user_physical_pages_uncommitted
          = s.m_system_memory_info.user_physical_pages_uncommitted - page_count ∧
        s'.m_system_memory_info.user_physical_pages_committed
          = s.m_system_memory_info.user_physical_pages_committed + page_count ∧
        s'.m_system_memory_info.user_physical_pages_used
          = s.m_system_memory_info.user_physical_pages_used ∧
        s'.m_system_memory_info.user_physical_pages
          = s.m_system_memory_info.user_physical_pages ∧
        s'.m_user_physical_regions = s.m_user_physical_regions ∧
        s'.m_super_physical_regions = s.m_super_physical_regions) := by
  have hn : page_count ≠ 0 := by omega
  by_cases hu : s.m_system_memory_info.user_physical_pages_uncommitted < page_count
  · exact ⟨false, s, commit_fail_eq s page_count hn hu, by simp [hu], fun _ => rfl, by simp⟩
  · refine ⟨true, _, commit_ok_eq s page_count hn hu, by simp [hu], by simp, ?_⟩
    intro _
    refine ⟨?_, ?_, rfl, rfl, rfl, rfl⟩
    · show size_sub s.m_system_memory_info.user_physical_pages_uncommitted page_count = _
      rw [size_sub_small _ _ (by omega) (by omega)]
    · show size_add s.m_system_memory_info.user_physical_pages_committed page_count = _
      rw [size_add_small _ _ (by omega)]

/-- Witness for C8: committing 3 of 2 uncommitted pages is refused, committing 2 succeeds. -/
theorem commit_user_physical_pages_result_witness :
    (pool_state 1048576 [true, true, false] 1 0 2).commit_user_physical_pages 3
      = some (false, pool_state 1048576 [true, true, false] 1 0 2) ∧
    (pool_state 1048576 [true, true, false] 1 0 2).commit_user_physical_pages 2
      = some (true, pool_state 1048576 [true, true, false] 1 2 0) ∧
    (∃ b s', (pool_state 1048576 [true, true, false] 1 0 2).commit_user_physical_pages 3
        = some (b, s') ∧
      (b = false ↔ 2 < 3) ∧
      (b = false → s' = pool_state 1048576 [true, true, false] 1 0 2) ∧
      (b = true →
        s'.m_system_memory_info.user_physical_pages_uncommitted = 2 - 3 ∧
        s'.m_system_memory_info.user_physical_pages_committed = 0 + 3 ∧
        s'.m_system_memory_info.user_physical_pages_used = 1 ∧
        s'.m_system_memory_info.user_physical_pages = 3 ∧
        s'.m_user_physical_regions = [⟨1048576, [true, true, false]⟩] ∧
        s'.m_super_physical_regions = [])) :=
  ⟨by decide, by decide,
    commit_user_physical_pages_result (pool_state 1048576 [true, true, false] 1 0 2) 3
      (by decide) (by decide)⟩

end Kernel

namespace Kernel

/-- C9. `deallocate_physical_page(paddr)` reaches its `PANIC` if and only if no user region
and no super region contains `paddr`. When a user region contains `paddr`, the frame goes
back to the first such region, `used` is decremented and `uncommitted` incremented (as
`size_t`, so by exactly one when `used > 0` and `uncommitted + 1` fits) and nothing else
changes. When only a super region contains it, the frame goes back to the first such super
region, `super_physical_pages_used` is decremented and the user pool is unchanged. -/
theorem deallocate_physical_page_outcome (s : MemoryManager) (paddr : Nat) :
    (s.deallocate_physical_page paddr = none ↔
      (∀ r ∈ s.m_user_physical_regions, r.contains paddr = false) ∧
      (∀ r ∈ s.m_super_physical_regions, r.contains paddr = false)) ∧
    (∀ (pre post : List PhysicalRegion) (r : PhysicalRegion),
      s.m_user_physical_regions = pre ++ r :: post →
      (∀ x ∈ pre, x.contains paddr = false) → r.contains paddr = true →
      ∃ s', s.deallocate_physical_page paddr = some s' ∧
        s'.m_user_physical_regions = pre ++ r.return_page paddr :: post ∧
        s'.m_system_memory_info.user_physical_pages_used
          = size_sub s.m_system_memory_info.user_physical_pages_used 1 ∧
        s'.m_system_memory_info.user_physical_pages_uncommitted
          = size_add s.m_system_memory_info.user_physical_pages_uncommitted 1 ∧
        (0 < s.m_system_memory_info.user_physical_pages_used →
          s.m_system_memory_info.user_physical_pages_used < SIZE_MOD →
          s'.m_system_memory_info.user_physical_pages_used + 1
            = s.m_system_memory_info.user_physical_pages_used) ∧
        (s.m_system_memory_info.user_physical_pages_uncommitted + 1 < SIZE_MOD →
          s'.m_system_memory_info.user_physical_pages_uncommitted
            = s.m_system_memory_info.user_physical_pages_uncommitted + 1) ∧
        s'.m_system_memory_info.user_physical_pages_committed
          = s.m_system_memory_info.user_physical_pages_committed ∧
        s'.m_system_memory_info.user_physical_pages
          = s.m_system_memory_info.user_physical_pages ∧
        s'.m_system_memory_info.super_physical_pages_used
          = s.m_system_memory_info.super_physical_pages_used ∧
        s'.m_super_physical_regions = s.m_super_physical_regions) ∧
    (∀ (pre post : List PhysicalRegion) (r : PhysicalRegion),
      (∀ x ∈ s.m_user_physical_regions, x.contains paddr = false) →
      s.m_super_physical_regions = pre ++ r :: post →
      (∀ x ∈ pre, x.contains paddr = false) → r.contains paddr = true →
      ∃ s', s.deallocate_physical_page paddr = some s' ∧
        s'.m_super_physical_regions = pre ++ r.return_page paddr :: post ∧
        s'.m_system_memory_info.super_physical_pages_used
          = size_sub s.m_system_memory_info.super_physical_pages_used 1 ∧
        (0 < s.m_system_memory_info.super_physical_pages_used →
          s.m_system_memory_info.super_physical_pages_used < SIZE_MOD →
          s'.m_system_memory_info.super_physical_pages_used + 1
            = s.m_system_memory_info.super_physical_pages_used) ∧
        s'.m_system_memory_info.user_physical_pages_used
          = s.m_system_memory_info.user_physical_pages_used ∧
        s'.m_system_memory_info.user_physical_pages_uncommitted
          = s.m_system_memory_info.user_physical_pages_uncommitted ∧
        s'.m_system_memory_info.user_physical_pages_committed
          = s.m_system_memory_info.user_physical_pages_committed ∧
        s'.m_system_memory_info.user_physical_pages
          = s.m_system_memory_info.user_physical_pages ∧
        s'.m_user_physical_regions = s.m_user_physical_regions) := by
  refine ⟨?_, ?_, ?_⟩
  · rw [← return_to_regions_none, ← return_to_regions_none]
    unfold MemoryManager.deallocate_physical_page
    cases h1 : return_to_regions paddr s.m_user_physical_regions with
    | some rs => simp
    | none =>
      cases h2 : return_to_regions paddr s.m_super_physical_regions with
      | some rs => simp
      | none => simp
  · intro pre post r hsplit hpre hr
    have h1 : return_to_regions paddr s.m_user_physical_regions
        = some (pre ++ r.return_page paddr :: post) := by
      rw [hsplit]
      exact return_to_regions_of_split paddr pre post r hpre hr
    refine ⟨_, deallocate_user_eq s paddr _ h1, rfl, rfl, rfl, ?_, ?_, rfl, rfl, rfl, rfl⟩
    · intro h0 hlt
      show size_sub s.m_system_memory_info.user_physical_pages_used 1 + 1 = _
      rw [size_sub_small _ _ (by omega) hlt]
      omega
    · intro hlt
      show size_add s.m_system_memory_info.user_physical_pages_uncommitted 1 = _
      rw [size_add_small _ _ hlt]
  · intro pre post r huser hsplit hpre hr
    have h0 : return_to_regions paddr s.m_user_physical_regions = none :=
      (return_to_regions_none paddr _).mpr huser
    have h1 : return_to_regions paddr s.m_super_physical_regions
        = some (pre ++ r.return_page paddr :: post) := by
      rw [hsplit]
      exact return_to_regions_of_split paddr pre post r hpre hr
    refine ⟨_, deallocate_super_eq s paddr _ h0 h1, rfl, rfl, ?_, rfl, rfl, rfl, rfl, rfl⟩
    intro h0 hlt
    show size_sub s.m_system_memory_info.super_physical_pages_used 1 + 1 = _
    rw [size_sub_small _ _ (by omega) hlt]
    omega

/-- Witness for C9: an address below the only user region and outside the (empty) super
regions panics; an address in the region is returned to it. -/
theorem deallocate_physical_page_outcome_witness :
    (pool_state 1048576 [false, true] 1 0 1).deallocate_physical_page 4096 = none ∧
    (pool_state 1048576 [false, true] 1 0 1).deallocate_physical_page 1048576
      = some (pool_state 1048576 [true, true] 0 0 2) ∧
    ((pool_state 1048576 [false, true] 1 0 1).deallocate_physical_page 4096 = none ↔
      (∀ r ∈ (pool_state 1048576 [false, true] 1 0 1).m_user_physical_regions,
        r.contains 4096 = false) ∧
      (∀ r ∈ (pool_state 1048576 [false, true] 1 0 1).m_super_physical_regions,
        r.contains 4096 = false)) :=
  ⟨by decide, by decide,
    (deallocate_physical_page_outcome (pool_state 1048576 [false, true] 1 0 1) 4096).1⟩

theorem purge_vmobjects_trace (purge : VMObject → MemoryManager → Int × MemoryManager)
    (vms : List VMObject) (mm : MemoryManager) (r : UserPageResult)
    (h : MemoryManager.purge_vmobjects purge mm vms = some r) :
    (∀ c ∈ r.purge_calls, c.object.is_anonymous = true) ∧
    (r.page = none → r.did_purge = false ∧
      r.purge_calls.map (·.object) = vms.filter (·.is_anonymous) ∧
      ∀ c ∈ r.purge_calls, c.purged_page_count = 0) ∧
    (r.page ≠ none → r.did_purge = true ∧
      ∃ pre c rest, r.purge_calls = pre ++ [c] ∧ c.purged_page_count ≠ 0 ∧
        (∀ x ∈ pre, x.purged_page_count = 0) ∧
        vms.filter (·.is_anonymous) = (pre ++ [c]).map (·.object) ++ rest) := by
  induction vms generalizing mm r with
  | nil =>
    simp only [MemoryManager.purge_vmobjects, Option.some.injEq] at h
    subst h
    simp
  | cons v vs ih =>
    simp only [MemoryManager.purge_vmobjects] at h
    by_cases ha : v.is_anonymous = false
    · rw [if_pos ha] at h
      have := ih mm r h
      simpa [List.filter_cons, ha] using this
    · rw [if_neg ha] at h
      have ha' : v.is_anonymous = true := by simpa using ha
      by_cases hz : (purge v mm).1 ≠ 0
      · rw [if_pos hz] at h
        cases hf : MemoryManager.find_free_user_physical_page (purge v mm).2 false with
        | none => rw [hf] at h; cases h
        | some q =>
          obtain ⟨p, mm'⟩ := q
          cases p with
          | none => rw [hf] at h; cases h
          | some p =>
            rw [hf] at h
            simp only [Option.some.injEq] at h
            subst h
            refine ⟨by simp [ha'], by simp, fun _ => ⟨rfl, [], ⟨v, (purge v mm).1⟩,
              vs.filter (·.is_anonymous), by simp, hz, by simp, by simp [List.filter_cons, ha']⟩⟩
      · rw [if_neg hz] at h
        have hz' : (purge v mm).1 = 0 := by simpa using hz
        cases hr : MemoryManager.purge_vmobjects purge (purge v mm).2 vs with
        | none => rw [hr] at h; cases h
        | some r' =>
          rw [hr] at h
          simp only [Option.some.injEq] at h
          subst h
          obtain ⟨t1, t2, t3⟩ := ih _ r' hr
          refine ⟨?_, ?_, ?_⟩
          · intro c hc
            rcases List.mem_cons.mp hc with rfl | hc
            · exact ha'
            · exact t1 c hc
          · intro hp
            obtain ⟨u1, u2, u3⟩ := t2 hp
            refine ⟨u1, by simp [List.filter_cons, ha', u2], ?_⟩
            intro c hc
            rcases List.mem_cons.mp hc with rfl | hc
            · exact hz'
            · exact u3 c hc
          · intro hp
            obtain ⟨u1, pre, c, rest, u2, u3, u4, u5⟩ := t3 hp
            refine ⟨u1, ⟨v, (purge v mm).1⟩ :: pre, c, rest, by simp [u2], u3, ?_, ?_⟩
            · intro x hx
              rcases List.mem_cons.mp hx with rfl | hx
              · exact hz'
              · exact u4 x hx
            · simp [List.filter_cons, ha', u5]

theorem purge_vmobjects_no_panic (purge : VMObject → MemoryManager → Int × MemoryManager)
    (hpurge : ∀ v m, (purge v m).1 ≠ 0 →
      (purge v m).2.m_system_memory_info.user_physical_pages_uncommitted ≠ 0 ∧
      free_frames (purge v m).2.m_user_physical_regions ≠ 0)
    (vms : List VMObject) (mm : MemoryManager) :
    ∃ r, MemoryManager.purge_vmobjects purge mm vms = some r := by
  induction vms generalizing mm with
  | nil => exact ⟨_, rfl⟩
  | cons v vs ih =>
    simp only [MemoryManager.purge_vmobjects]
    by_cases ha : v.is_anonymous = false
    · rw [if_pos ha]
      exact ih mm
    · rw [if_neg ha]
      by_cases hz : (purge v mm).1 ≠ 0
      · rw [if_pos hz]
        obtain ⟨h1, h2⟩ := hpurge v mm hz
        obtain ⟨p, rs, ht⟩ := take_from_regions_of_free _ h2
        rw [find_free_uncommitted_eq _ p rs h1 ht]
        exact ⟨_, rfl⟩
      · rw [if_neg hz]
        obtain ⟨r, hr⟩ := ih (purge v mm).2
        rw [hr]
        exact ⟨_, rfl⟩

/-- C10. `allocate_user_physical_page` purges only anonymous VM objects. It returns an empty
result only after `purge()` was invoked on every registered anonymous object, each returning
zero. If some object reports purged pages, that call is the last one of the trace (purging
stops there), the result is not empty and `did_purge` is set. When every `purge()` that
reports pages leaves uncommitted capacity and a free frame behind, no assertion fires, so the
call does return. -/
theorem allocate_user_physical_page_purges
    (purge : VMObject → MemoryManager → Int × MemoryManager) (mm : MemoryManager)
    (vms : List VMObject) :
    (∀ r, MemoryManager.allocate_user_physical_page purge mm vms = some r →
      (∀ c ∈ r.purge_calls, c.object.is_anonymous = true) ∧
      (r.page = none → r.did_purge = false ∧
        r.purge_calls.map (·.object) = vms.filter (·.is_anonymous) ∧
        ∀ c ∈ r.purge_calls, c.purged_page_count = 0) ∧
      ((∃ c ∈ r.purge_calls, c.purged_page_count ≠ 0) →
        r.page ≠ none ∧ r.did_purge = true ∧
        ∃ pre c rest, r.purge_calls = pre ++ [c] ∧ c.purged_page_count ≠ 0 ∧
          (∀ x ∈ pre, x.purged_page_count = 0) ∧
          vms.filter (·.is_anonymous) = (pre ++ [c]).map (·.object) ++ rest)) ∧
    ((∀ v m, (purge v m).1 ≠ 0 →
        (purge v m).2.m_system_memory_info.user_physical_pages_uncommitted ≠ 0 ∧
        free_frames (purge v m).2.m_user_physical_regions ≠ 0) →
      ∃ r, MemoryManager.allocate_user_physical_page purge mm vms = some r) := by
  obtain ⟨p, mm', hf, -⟩ := find_free_false_total mm
  constructor
  · intro r h
    unfold MemoryManager.allocate_user_physical_page at h
    rw [hf] at h
    cases p with
    | some p =>
      simp only [Option.some.injEq] at h
      subst h
      simp
    | none =>
      simp only at h
      obtain ⟨t1, t2, t3⟩ := purge_vmobjects_trace purge vms mm' r h
      refine ⟨t1, t2, ?_⟩
      rintro ⟨c, hc, hnz⟩
      have hp : r.page ≠ none := by
        intro hp
        exact hnz ((t2 hp).2.2 c hc)
      exact ⟨hp, t3 hp⟩
  · intro hpurge
    unfold MemoryManager.allocate_user_physical_page
    rw [hf]
    cases p with
    | some p => exact ⟨_, rfl⟩
    | none => exact purge_vmobjects_no_panic purge hpurge vms mm'

/-- Witness for C10: the only frame is in use and nothing is uncommitted. With a file-backed
object 1 and an anonymous object 2 that has nothing to purge the result is empty after one
`purge()` call; when the anonymous object 7 follows, its purge frees the frame, the call
returns it and object 9 is never asked. -/
theorem allocate_user_physical_page_purges_witness :
    MemoryManager.allocate_user_physical_page sample_purge (pool_state 1048576 [false] 1 0 0)
        [⟨1, false⟩, ⟨2, true⟩]
      = some ⟨none, pool_state 1048576 [false] 1 0 0, false, [⟨⟨2, true⟩, 0⟩]⟩ ∧
    MemoryManager.allocate_user_physical_page sample_purge (pool_state 1048576 [false] 1 0 0)
        [⟨1, false⟩, ⟨2, true⟩, ⟨7, true⟩, ⟨9, true⟩]
      = some ⟨some 1048576, pool_state 1048576 [false] 1 0 0, true,
          [⟨⟨2, true⟩, 0⟩, ⟨⟨7, true⟩, 1⟩]⟩ ∧
    ((∃ c ∈ [(⟨⟨2, true⟩, 0⟩ : PurgeCall), ⟨⟨7, true⟩, 1⟩], c.purged_page_count ≠ 0) →
      (some 1048576 : Option Nat) ≠ none ∧ true = true ∧
      ∃ pre c rest, [(⟨⟨2, true⟩, 0⟩ : PurgeCall), ⟨⟨7, true⟩, 1⟩] = pre ++ [c] ∧
        c.purged_page_count ≠ 0 ∧ (∀ x ∈ pre, x.purged_page_count = 0) ∧
        ([⟨1, false⟩, ⟨2, true⟩, ⟨7, true⟩, ⟨9, true⟩] : List VMObject).filter
          (·.is_anonymous) = (pre ++ [c]).map (·.object) ++ rest) :=
  ⟨by decide, by decide,
    ((allocate_user_physical_page_purges sample_purge (pool_state 1048576 [false] 1 0 0)
      [⟨1, false⟩, ⟨2, true⟩, ⟨7, true⟩, ⟨9, true⟩]).1
      ⟨some 1048576, pool_state 1048576 [false] 1 0 0, true,
          [⟨⟨2, true⟩, 0⟩, ⟨⟨7, true⟩, 1⟩]⟩ (by decide)).2.2⟩

end Kernel

namespace Kernel

/-! ## Kernel heap: auxiliary lemmas -/

theorem bitmap_fill_length (bits : List Bool) (start len : Nat) (value : Bool) :
    (bitmap_fill bits start len value).length = bits.length := by
  simp [bitmap_fill]

theorem bitmap_fill_get (bits : List Bool) (start len : Nat) (value : Bool) (i : Nat)
    (hin : start + len ≤ bits.length) :
    bitmap_get (bitmap_fill bits start len value) i
      = if start ≤ i ∧ i < start + len then value else bitmap_get bits i := by
  unfold bitmap_get bitmap_fill
  by_cases hi : i < bits.length
  · rw [List.getD_eq_getElem _ _ (by simpa using hi)]
    simp
  · have h1 : ¬ (start ≤ i ∧ i < start + len) := by omega
    rw [if_neg h1]
    rw [List.getD_eq_default _ _ (by simpa using hi), List.getD_eq_default _ _ (by omega)]

theorem bitmap_range_flips_iff (bits : List Bool) (start len : Nat) (value : Bool) :
    bitmap_range_flips bits start len value = true ↔
      ∀ i, start ≤ i → i < start + len → bits.getD i value = !value := by
  unfold bitmap_range_flips
  simp only [List.all_eq_true, List.mem_range, bne_iff_ne, ne_eq]
  constructor
  · intro h i h1 h2
    have := h (i - start) (by omega)
    rw [show start + (i - start) = i by omega] at this
    cases hv : bits.getD i value <;> cases value <;> simp_all
  · intro h k hk
    have := h (start + k) (by omega) (by omega)
    rw [this]
    cases value <;> simp

theorem set_range_some (bits bits' : List Bool) (start len : Nat) (value : Bool)
    (h : bitmap_set_range_and_verify_that_all_bits_flip bits start len value = some bits') :
    start + len ≤ bits.length ∧ bits'.length = bits.length ∧
    (∀ i, start ≤ i → i < start + len → bitmap_get bits i = !value) ∧
    (∀ i, bitmap_get bits' i
      = if start ≤ i ∧ i < start + len then value else bitmap_get bits i) := by
  unfold bitmap_set_range_and_verify_that_all_bits_flip at h
  split at h
  · rename_i hc
    obtain ⟨h1, h2⟩ := hc
    simp only [Option.some.injEq] at h
    subst h
    refine ⟨h1, bitmap_fill_length _ _ _ _, ?_, fun i => bitmap_fill_get _ _ _ _ i h1⟩
    intro i hi1 hi2
    have := (bitmap_range_flips_iff bits start len value).mp h2 i hi1 hi2
    unfold bitmap_get
    rw [List.getD_eq_getElem _ _ (by omega)] at this ⊢
    exact this
  · cases h

theorem set_range_of_flips (bits : List Bool) (start len : Nat) (value : Bool)
    (hin : start + len ≤ bits.length)
    (hf : ∀ i, start ≤ i → i < start + len → bitmap_get bits i = !value) :
    bitmap_set_range_and_verify_that_all_bits_flip bits start len value
      = some (bitmap_fill bits start len value) := by
  unfold bitmap_set_range_and_verify_that_all_bits_flip
  rw [if_pos]
  refine ⟨hin, (bitmap_range_flips_iff bits start len value).mpr ?_⟩
  intro i hi1 hi2
  have := hf i hi1 hi2
  unfold bitmap_get at this
  rw [List.getD_eq_getElem _ _ (by omega)] at this ⊢
  exact this

theorem bitmap_ext (a b : List Bool) (hl : a.length = b.length)
    (h : ∀ i, bitmap_get a i = bitmap_get b i) : a = b := by
  apply List.ext_getElem hl
  intro i h1 h2
  have := h i
  unfold bitmap_get at this
  rwa [List.getD_eq_getElem _ _ h1, List.getD_eq_getElem _ _ h2] at this

theorem fill_words_length (ws : List Nat) (start len v : Nat) :
    (fill_words ws start len v).length = ws.length := by
  simp [fill_words]

theorem fill_words_get (ws : List Nat) (start len v i : Nat) :
    (fill_words ws start len v).getD i 0
      = if start ≤ i ∧ i < start + len ∧ i < ws.length then v else ws.getD i 0 := by
  unfold fill_words
  by_cases hi : i < ws.length
  · rw [List.getD_eq_getElem _ _ (by simpa using hi)]
    simp [hi]
  · have h1 : ¬ (start ≤ i ∧ i < start + len ∧ i < ws.length) := by omega
    rw [if_neg h1]
    rw [List.getD_eq_default _ _ (by simpa using hi), List.getD_eq_default _ _ (by omega)]

theorem getD_set_nat (ws : List Nat) (j v i : Nat) :
    (ws.set j v).getD i 0 = if i = j ∧ i < ws.length then v else ws.getD i 0 := by
  induction ws generalizing i j with
  | nil => simp
  | cons w ws ih =>
    cases j with
    | zero =>
      cases i with
      | zero => simp
      | succ i => simp
    | succ j =>
      cases i with
      | zero => simp
      | succ i =>
        simp only [List.set_cons_succ, List.getD_cons_succ, List.length_cons,
          Nat.add_lt_add_iff_right, Nat.add_right_cancel_iff]
        exact ih j i

theorem wrap_small (cfg : HeapConfig) (x : Nat) (h : x < cfg.size_mod) : cfg.wrap x = x := by
  unfold HeapConfig.wrap
  exact Nat.mod_eq_of_lt h

theorem size_mod_pos (cfg : HeapConfig) : 0 < cfg.size_mod := by
  unfold HeapConfig.size_mod
  exact Nat.pos_pow_of_pos _ (by decide)

theorem sub_small (cfg : HeapConfig) (a b : Nat) (hb : b ≤ a) (ha : a < cfg.size_mod) :
    cfg.sub a b = a - b := by
  unfold HeapConfig.sub
  have hb' : b < cfg.size_mod := by omega
  rw [Nat.mod_eq_of_lt ha, Nat.mod_eq_of_lt hb']
  have : cfg.size_mod + a - b = a - b + cfg.size_mod := by omega
  rw [this, Nat.add_mod_right]
  exact Nat.mod_eq_of_lt (by omega)

end Kernel

namespace Kernel

theorem chunk_mul_le (cfg : HeapConfig) (a b : Nat) (h : a ≤ b) :
    a * cfg.CHUNK_SIZE ≤ b * cfg.CHUNK_SIZE := Nat.mul_le_mul_right _ h

theorem pointer_facts (cfg : HeapConfig) (h : Heap) (s : Nat) (hcfg : heap_config_ok cfg)
    (hok : heap_ok cfg h) (hs : s < h.m_total_chunks) :
    h.pointer_of cfg s < cfg.size_mod ∧ h.pointer_of cfg s ≠ 0 ∧
    cfg.sub (h.pointer_of cfg s) cfg.header_size = h.m_chunks + s * cfg.CHUNK_SIZE ∧
    h.chunk_of cfg (h.pointer_of cfg s) = s ∧
    h.arena_end cfg = h.m_chunks + h.m_total_chunks * cfg.CHUNK_SIZE ∧
    h.pointer_of cfg s < h.arena_end cfg := by
  obtain ⟨c1, c2, c3⟩ := hcfg
  obtain ⟨o1, o2, o3, o4, o5⟩ := hok
  have e1 : (s + 1) * cfg.CHUNK_SIZE ≤ h.m_total_chunks * cfg.CHUNK_SIZE :=
    chunk_mul_le cfg _ _ (by omega)
  have e2 : (s + 1) * cfg.CHUNK_SIZE = s * cfg.CHUNK_SIZE + cfg.CHUNK_SIZE := by ring
  have hend : h.arena_end cfg = h.m_chunks + h.m_total_chunks * cfg.CHUNK_SIZE := by
    unfold Heap.arena_end
    rw [wrap_small cfg (h.m_total_chunks * cfg.CHUNK_SIZE) (by omega), wrap_small cfg _ o5]
  have hsub : cfg.sub (h.pointer_of cfg s) cfg.header_size
      = h.m_chunks + s * cfg.CHUNK_SIZE := by
    unfold Heap.pointer_of
    rw [sub_small cfg _ _ (by omega) (by omega)]
    omega
  refine ⟨by unfold Heap.pointer_of; omega, by unfold Heap.pointer_of; omega, hsub, ?_, hend,
    by rw [hend]; unfold Heap.pointer_of; omega⟩
  unfold Heap.chunk_of
  rw [hsub, sub_small cfg _ _ (by omega) (by omega)]
  rw [show h.m_chunks + s * cfg.CHUNK_SIZE - h.m_chunks = s * cfg.CHUNK_SIZE by omega]
  exact Nat.mul_div_cancel _ (by omega)

theorem allocate_cases (cfg : HeapConfig) (search : BitmapSearch) (h h' : Heap)
    (size ptr : Nat) (hal : h.allocate cfg search size = some (ptr, h')) :
    (ptr = 0 ∧ h' = h) ∨
    ∃ first bits,
      bitmap_set_range_and_verify_that_all_bits_flip h.m_bitmap first
        (Heap.chunks_needed cfg size) true = some bits ∧
      ¬ h.free_chunks cfg < Heap.chunks_needed cfg size ∧
      ptr = cfg.wrap (h.m_chunks + first * cfg.CHUNK_SIZE + cfg.header_size) ∧
      h' = { h with
        m_bitmap := bits
        m_allocated_chunks := cfg.wrap (h.m_allocated_chunks + Heap.chunks_needed cfg size)
        chunk_words :=
          if cfg.HEAP_SCRUB_BYTE_ALLOC ≠ 0 then
            fill_words (h.chunk_words.set first (Heap.chunks_needed cfg size))
              (first + 1) (Heap.chunks_needed cfg size - 1)
              (cfg.scrub_word cfg.HEAP_SCRUB_BYTE_ALLOC)
          else h.chunk_words.set first (Heap.chunks_needed cfg size) } := by
  unfold Heap.allocate at hal
  by_cases hfree : h.free_chunks cfg < Heap.chunks_needed cfg size
  · rw [if_pos hfree] at hal
    simp only [Option.some.injEq, Prod.mk.injEq] at hal
    exact Or.inl ⟨hal.1.symm, hal.2.symm⟩
  · rw [if_neg hfree] at hal
    split at hal
    · simp only [Option.some.injEq, Prod.mk.injEq] at hal
      exact Or.inl ⟨hal.1.symm, hal.2.symm⟩
    · rename_i first hfirst
      split at hal
      · cases hal
      · rename_i bits hbits
        split at hal
        · cases hal
        · simp only [Option.some.injEq, Prod.mk.injEq] at hal
          exact Or.inr ⟨first, bits, hbits, hfree, hal.1.symm, hal.2.symm⟩

theorem total_lt_size_mod (cfg : HeapConfig) (h : Heap) (hcfg : heap_config_ok cfg)
    (hok : heap_ok cfg h) : h.m_total_chunks < cfg.size_mod := by
  obtain ⟨c1, c2, c3⟩ := hcfg
  obtain ⟨o1, o2, o3, o4, o5⟩ := hok
  have : h.m_total_chunks ≤ h.m_total_chunks * cfg.CHUNK_SIZE :=
    Nat.le_mul_of_pos_right _ (by omega)
  omega

theorem free_chunks_ok (cfg : HeapConfig) (h : Heap) (hcfg : heap_config_ok cfg)
    (hok : heap_ok cfg h) :
    h.free_chunks cfg = h.m_total_chunks - h.m_allocated_chunks := by
  have hlt := total_lt_size_mod cfg h hcfg hok
  unfold Heap.free_chunks
  exact sub_small cfg _ _ hok.2.2.1 hlt

/-- What a successful, non-null `allocate` does to a consistent heap, in terms of the first
chunk `first` and the chunk count `n = chunks_needed`. -/
theorem allocate_effect (cfg : HeapConfig) (search : BitmapSearch) (h h' : Heap)
    (size ptr : Nat) (hcfg : heap_config_ok cfg) (hok : heap_ok cfg h)
    (hal : h.allocate cfg search size = some (ptr, h')) (hptr : ptr ≠ 0)
    (hn : 1 ≤ Heap.chunks_needed cfg size) :
    ∃ first, first + Heap.chunks_needed cfg size ≤ h.m_total_chunks ∧
      ptr = h.pointer_of cfg first ∧
      (∀ i, first ≤ i → i < first + Heap.chunks_needed cfg size →
        bitmap_get h.m_bitmap i = false) ∧
      (∀ i, bitmap_get h'.m_bitmap i
        = if first ≤ i ∧ i < first + Heap.chunks_needed cfg size then true
          else bitmap_get h.m_bitmap i) ∧
      h'.m_bitmap.length = h.m_bitmap.length ∧
      h'.chunk_words.length = h.chunk_words.length ∧
      h'.chunk_words.getD first 0 = Heap.chunks_needed cfg size ∧
      (∀ i, ¬ (first ≤ i ∧ i < first + Heap.chunks_needed cfg size) →
        h'.chunk_words.getD i 0 = h.chunk_words.getD i 0) ∧
      h'.m_allocated_chunks = h.m_allocated_chunks + Heap.chunks_needed cfg size ∧
      h'.m_total_chunks = h.m_total_chunks ∧ h'.m_chunks = h.m_chunks := by
  rcases allocate_cases cfg search h h' size ptr hal with ⟨h0, -⟩ | ⟨first, bits, hset, hfree, hp, hh⟩
  · exact absurd h0 hptr
  · obtain ⟨s1, s2, s3, s4⟩ := set_range_some _ _ _ _ _ hset
    have hok' := hok
    obtain ⟨o1, o2, o3, o4, o5⟩ := hok
    rw [free_chunks_ok cfg h hcfg hok'] at hfree
    have hfirst : first < h.m_total_chunks := by omega
    obtain ⟨p1, -, -, -, -, -⟩ := pointer_facts cfg h first hcfg hok' hfirst
    have htot := total_lt_size_mod cfg h hcfg hok'
    refine ⟨first, by omega, ?_, ?_, ?_, ?_, ?_, ?_, ?_, ?_, ?_, ?_⟩
    · rw [hp]
      exact wrap_small cfg _ p1
    · intro i h1 h2
      simpa using s3 i h1 h2
    · intro i
      rw [hh]
      exact s4 i
    · rw [hh]
      exact s2
    · rw [hh]
      by_cases hs : cfg.HEAP_SCRUB_BYTE_ALLOC ≠ 0
      · simp only [if_pos hs, fill_words_length, List.length_set]
      · simp only [if_neg hs, List.length_set]
    · rw [hh]
      by_cases hs : cfg.HEAP_SCRUB_BYTE_ALLOC ≠ 0
      · simp only [if_pos hs]
        rw [fill_words_get, if_neg (by omega), getD_set_nat, if_pos ⟨rfl, by omega⟩]
      · simp only [if_neg hs]
        rw [getD_set_nat, if_pos ⟨rfl, by omega⟩]
    · intro i hi
      rw [hh]
      by_cases hs : cfg.HEAP_SCRUB_BYTE_ALLOC ≠ 0
      · simp only [if_pos hs]
        rw [fill_words_get, if_neg (by omega), getD_set_nat, if_neg (by omega)]
      · simp only [if_neg hs]
        rw [getD_set_nat, if_neg (by omega)]
    · rw [hh]
      exact wrap_small cfg _ (by omega)
    · rw [hh]
    · rw [hh]

/-- What `deallocate` does with the pointer of a live allocation `(s, n)` whose chunks are
counted in `m_allocated_chunks`. -/
theorem deallocate_effect (cfg : HeapConfig) (h : Heap) (s n : Nat)
    (hcfg : heap_config_ok cfg) (hok : heap_ok cfg h) (hl : live_allocation h s n)
    (hn : n ≤ h.m_allocated_chunks) :
    ∃ h', h.deallocate cfg (h.pointer_of cfg s) = some h' ∧
      (∀ i, bitmap_get h'.m_bitmap i
        = if s ≤ i ∧ i < s + n then false else bitmap_get h.m_bitmap i) ∧
      h'.m_bitmap.length = h.m_bitmap.length ∧
      h'.chunk_words.length = h.chunk_words.length ∧
      (∀ i, ¬ (s ≤ i ∧ i < s + n) → h'.chunk_words.getD i 0 = h.chunk_words.getD i 0) ∧
      h'.m_allocated_chunks = h.m_allocated_chunks - n ∧
      h'.m_total_chunks = h.m_total_chunks ∧ h'.m_chunks = h.m_chunks := by
  obtain ⟨l1, l2, l3, l4⟩ := hl
  have hs : s < h.m_total_chunks := by omega
  obtain ⟨p1, p2, p3, p4, p5, p6⟩ := pointer_facts cfg h s hcfg hok hs
  obtain ⟨o1, o2, o3, o4, o5⟩ := hok
  have e1 : (s + n) * cfg.CHUNK_SIZE ≤ h.m_total_chunks * cfg.CHUNK_SIZE :=
    chunk_mul_le cfg _ _ l2
  have e2 : (s + n) * cfg.CHUNK_SIZE = s * cfg.CHUNK_SIZE + n * cfg.CHUNK_SIZE := by ring
  have hset := set_range_of_flips h.m_bitmap s n false (by omega)
    (fun i h1 h2 => by simpa using l3 i h1 h2)
  unfold Heap.deallocate
  rw [if_neg p2, p3, p4, l4, if_neg (by simp only [not_not]; exact ⟨by omega, p6⟩),
    if_neg (by rw [l3 s (by omega) (by omega)]; simp), p5,
    wrap_small cfg (n * cfg.CHUNK_SIZE) (by omega), wrap_small cfg _ (by omega),
    if_neg (by simp only [not_not]; omega), hset]
  simp only [if_neg (show ¬ h.m_allocated_chunks < n by omega)]
  refine ⟨_, rfl, fun i => bitmap_fill_get _ _ _ _ i (by omega), bitmap_fill_length _ _ _ _,
    ?_, ?_, rfl, rfl, rfl⟩
  · by_cases hsc : cfg.HEAP_SCRUB_BYTE_FREE ≠ 0
    · simp only [if_pos hsc, fill_words_length]
    · simp only [if_neg hsc]
  · intro i hi
    by_cases hsc : cfg.HEAP_SCRUB_BYTE_FREE ≠ 0
    · simp only [if_pos hsc]
      rw [fill_words_get, if_neg (by omega)]
    · simp only [if_neg hsc]

end Kernel

namespace Kernel

theorem ranges_disjoint_symm (a b : Nat × Nat) (h : ranges_disjoint a b) :
    ranges_disjoint b a := by
  unfold ranges_disjoint at *
  omega

theorem live_sum_ge (live : List (Nat × Nat)) (a : Nat × Nat) (ha : a ∈ live) :
    a.2 ≤ (live.map Prod.snd).sum := by
  induction live with
  | nil => simp at ha
  | cons x xs ih =>
    simp only [List.map_cons, List.sum_cons]
    rcases List.mem_cons.mp ha with rfl | h
    · omega
    · have := ih h
      omega

theorem live_sum_erase (live : List (Nat × Nat)) (a : Nat × Nat) (ha : a ∈ live) :
    a.2 + ((live.erase a).map Prod.snd).sum = (live.map Prod.snd).sum := by
  induction live with
  | nil => simp at ha
  | cons x xs ih =>
    rw [List.erase_cons]
    by_cases hx : (x == a) = true
    · rw [if_pos hx]
      have : x = a := eq_of_beq hx
      subst this
      simp
    · rw [if_neg hx]
      have hne : x ≠ a := by
        intro h
        subst h
        simp at hx
      rcases List.mem_cons.mp ha with h | h
      · exact absurd h.symm hne
      · have := ih h
        simp only [List.map_cons, List.sum_cons]
        omega

theorem heap_inv_allocate (cfg : HeapConfig) (search : BitmapSearch) (h h' : Heap)
    (live : List (Nat × Nat)) (size ptr : Nat) (hcfg : heap_config_ok cfg)
    (hinv : heap_inv cfg h live) (hal : h.allocate cfg search size = some (ptr, h'))
    (hptr : ptr ≠ 0) (hn : 1 ≤ Heap.chunks_needed cfg size) :
    ptr = h.pointer_of cfg (h.chunk_of cfg ptr) ∧
    heap_inv cfg h' ((h.chunk_of cfg ptr, Heap.chunks_needed cfg size) :: live) := by
  obtain ⟨hok, hlive, hpair, hsum⟩ := hinv
  obtain ⟨first, a1, a2, a3, a4, a5, a6, a7, a8, a9, a10, a11⟩ :=
    allocate_effect cfg search h h' size ptr hcfg hok hal hptr hn
  obtain ⟨-, -, -, p4, -, -⟩ := pointer_facts cfg h first hcfg hok (by omega)
  have hchunk : h.chunk_of cfg ptr = first := by rw [a2]; exact p4
  rw [hchunk]
  have hfreeb := hal
  rcases allocate_cases cfg search h h' size ptr hal with ⟨h0, -⟩ | ⟨f2, bits, -, hfree, -, -⟩
  · exact absurd h0 hptr
  rw [free_chunks_ok cfg h hcfg hok] at hfree
  obtain ⟨o1, o2, o3, o4, o5⟩ := hok
  refine ⟨a2, ⟨⟨by rw [a5, a10]; exact o1, by rw [a6, a10]; exact o2, by rw [a9, a10]; omega,
    by rw [a11]; exact o4, by rw [a11, a10]; exact o5⟩, ?_, ?_, ?_⟩⟩
  · intro a ha
    rcases List.mem_cons.mp ha with rfl | ha
    · refine ⟨hn, by rw [a10]; exact a1, ?_, a7⟩
      intro i h1 h2
      rw [a4 i, if_pos ⟨h1, h2⟩]
    · obtain ⟨l1, l2, l3, l4⟩ := hlive a ha
      refine ⟨l1, by rw [a10]; exact l2, ?_, ?_⟩
      · intro i h1 h2
        rw [a4 i]
        split
        · rfl
        · exact l3 i h1 h2
      · rw [a8 a.1 ?_]
        · exact l4
        · intro hc
          have ht := l3 a.1 (by omega) (by omega)
          rw [a3 a.1 hc.1 hc.2] at ht
          cases ht
  · rw [List.pairwise_cons]
    refine ⟨?_, hpair⟩
    intro a ha
    obtain ⟨l1, l2, l3, l4⟩ := hlive a ha
    unfold ranges_disjoint
    by_contra hc
    simp only [not_or, not_le] at hc
    by_cases hcmp : first ≤ a.1
    · have ht := l3 a.1 (by omega) (by omega)
      rw [a3 a.1 hcmp (by omega)] at ht
      cases ht
    · have ht := l3 first (by omega) (by omega)
      rw [a3 first (by omega) (by omega)] at ht
      cases ht
  · rw [a9, hsum]
    simp only [List.map_cons, List.sum_cons]
    omega

theorem heap_inv_deallocate (cfg : HeapConfig) (h : Heap) (live : List (Nat × Nat))
    (a : Nat × Nat) (hcfg : heap_config_ok cfg) (hinv : heap_inv cfg h live) (ha : a ∈ live) :
    ∃ h', h.deallocate cfg (h.pointer_of cfg a.1) = some h' ∧
      (∀ i, bitmap_get h'.m_bitmap i
        = if a.1 ≤ i ∧ i < a.1 + a.2 then false else bitmap_get h.m_bitmap i) ∧
      h'.m_allocated_chunks + a.2 = h.m_allocated_chunks ∧
      h'.m_bitmap.length = h.m_bitmap.length ∧
      (∀ b ∈ live, b ≠ a → live_allocation h' b.1 b.2) ∧
      heap_inv cfg h' (live.erase a) ∧
      h'.m_total_chunks = h.m_total_chunks ∧ h'.m_chunks = h.m_chunks := by
  obtain ⟨hok, hlive, hpair, hsum⟩ := hinv
  have hge := live_sum_ge live a ha
  have hla := hlive a ha
  obtain ⟨h', d1, d2, d3, d4, d5, d6, d7, d8⟩ :=
    deallocate_effect cfg h a.1 a.2 hcfg hok hla (by omega)
  have hdis : ∀ b ∈ live, b ≠ a → ranges_disjoint b a := by
    intro b hb hne
    exact hpair.forall (fun x y hxy => ranges_disjoint_symm x y hxy) hb ha hne
  have hothers : ∀ b ∈ live, b ≠ a → live_allocation h' b.1 b.2 := by
    intro b hb hne
    obtain ⟨l1, l2, l3, l4⟩ := hlive b hb
    have hd := hdis b hb hne
    unfold ranges_disjoint at hd
    refine ⟨l1, by rw [d7]; exact l2, ?_, ?_⟩
    · intro i h1 h2
      rw [d2 i, if_neg (by omega)]
      exact l3 i h1 h2
    · rw [d5 b.1 (by omega)]
      exact l4
  have hnodup : live.Nodup := by
    refine List.Pairwise.imp_of_mem ?_ hpair
    intro x y hx hy hxy heq
    subst heq
    have := (hlive x hx).1
    unfold ranges_disjoint at hxy
    omega
  obtain ⟨o1, o2, o3, o4, o5⟩ := hok
  refine ⟨h', d1, d2, by omega, d3, hothers, ⟨?_, ?_, ?_, ?_⟩, d7, d8⟩
  · exact ⟨by rw [d3, d7]; exact o1, by rw [d4, d7]; exact o2, by rw [d6, d7]; omega,
      by rw [d8]; exact o4, by rw [d8, d7]; exact o5⟩
  · intro b hb
    have hb' := (List.Nodup.mem_erase_iff hnodup).mp hb
    exact hothers b hb'.2 hb'.1
  · exact hpair.sublist (List.erase_sublist a live)
  · have hs := live_sum_erase live a ha
    rw [d6, hsum]
    omega

end Kernel

namespace Kernel

/-! ## Kernel heap: claims -/

/-- Freeing what was allocated, for allocations of at least one chunk. Let `live` be the
allocations of at least one chunk that `allocate` returned and that were not freed since
(`heap_inv`). For each of them, with first chunk `s` and `n` chunks, `deallocate` of its
pointer succeeds, clears exactly the bits `[s, s + n)`, leaves every other bit unchanged and
lowers `m_allocated_chunks` by exactly `n`; and an `allocate(size)` that reserves at least
one chunk, immediately followed by `deallocate` of its result, restores the bitmap and
`m_allocated_chunks`. -/
theorem deallocate_frees_recorded_chunks (cfg : HeapConfig) (h : Heap)
    (live : List (Nat × Nat)) (hcfg : heap_config_ok cfg) (hinv : heap_inv cfg h live) :
    (∀ a ∈ live, ∃ h', h.deallocate cfg (h.pointer_of cfg a.1) = some h' ∧
      (∀ i, bitmap_get h'.m_bitmap i
        = if a.1 ≤ i ∧ i < a.1 + a.2 then false else bitmap_get h.m_bitmap i) ∧
      h'.m_bitmap.length = h.m_bitmap.length ∧
      h'.m_allocated_chunks + a.2 = h.m_allocated_chunks) ∧
    (∀ (search : BitmapSearch) (size ptr : Nat) (h1 : Heap),
      h.allocate cfg search size = some (ptr, h1) → 1 ≤ Heap.chunks_needed cfg size →
      ∃ h2, h1.deallocate cfg ptr = some h2 ∧ h2.m_bitmap = h.m_bitmap ∧
        h2.m_allocated_chunks = h.m_allocated_chunks) := by
  constructor
  · intro a ha
    obtain ⟨h', d1, d2, d3, d4, -, -, -, -⟩ := heap_inv_deallocate cfg h live a hcfg hinv ha
    exact ⟨h', d1, d2, d4, d3⟩
  · intro search size ptr h1 hal hn
    by_cases hptr : ptr = 0
    · rcases allocate_cases cfg search h h1 size ptr hal with ⟨-, hh⟩ | ⟨first, bits, hset, hfree, hp, -⟩
      · subst hh
        subst hptr
        exact ⟨h1, by simp [Heap.deallocate], rfl, rfl⟩
      · exfalso
        obtain ⟨s1, -, -, -⟩ := set_range_some _ _ _ _ _ hset
        have hok := hinv.1
        obtain ⟨p1, p2, -, -, -, -⟩ := pointer_facts cfg h first hcfg hok
          (by have := hok.1; omega)
        apply p2
        rw [← wrap_small cfg _ p1]
        unfold Heap.pointer_of
        rw [← hp]
        exact hptr
    · obtain ⟨first, a1, a2, a3, a4, a5, a6, a7, a8, a9, a10, a11⟩ :=
        allocate_effect cfg search h h1 size ptr hcfg hinv.1 hal hptr hn
      obtain ⟨e1, hinv1⟩ := heap_inv_allocate cfg search h h1 live size ptr hcfg hinv hal hptr hn
      obtain ⟨-, -, -, p4, -, -⟩ := pointer_facts cfg h first hcfg hinv.1 (by omega)
      have hchunk : h.chunk_of cfg ptr = first := by rw [a2]; exact p4
      rw [hchunk] at hinv1
      obtain ⟨h2, d1, d2, d3, d4, -, -, -, -⟩ := heap_inv_deallocate cfg h1 _
        (first, Heap.chunks_needed cfg size) hcfg hinv1 (by simp)
      have hp1 : h1.pointer_of cfg first = ptr := by
        rw [a2]
        unfold Heap.pointer_of
        rw [a11]
      rw [hp1] at d1
      refine ⟨h2, d1, ?_, by omega⟩
      apply bitmap_ext
      · rw [d4, a5]
      · intro i
        rw [d2 i, a4 i]
        by_cases hi : first ≤ i ∧ i < first + Heap.chunks_needed cfg size
        · rw [if_pos hi]
          exact (a3 i hi.1 hi.2).symm
        · rw [if_neg hi, if_neg hi]

/-- The sample heap holding one allocation of two chunks at chunk 0; its pointer is 4100 and
`deallocate(4100)` clears chunks 0 and 1. -/
theorem deallocate_frees_recorded_chunks_witness :
    heap_config_ok heap_config_i686 ∧ heap_inv heap_config_i686 sample_heap_used [(0, 2)] ∧
    sample_heap.allocate heap_config_i686 bitmap_search 40 = some (4100, sample_heap_used) ∧
    sample_heap_used.deallocate heap_config_i686 4100
      = some { sample_heap with chunk_words := [2, 0, 0, 0] } ∧
    (∀ a ∈ [((0 : Nat), (2 : Nat))],
      ∃ h', sample_heap_used.deallocate heap_config_i686
          (sample_heap_used.pointer_of heap_config_i686 a.1) = some h' ∧
        (∀ i, bitmap_get h'.m_bitmap i
          = if a.1 ≤ i ∧ i < a.1 + a.2 then false
            else bitmap_get sample_heap_used.m_bitmap i) ∧
        h'.m_bitmap.length = sample_heap_used.m_bitmap.length ∧
        h'.m_allocated_chunks + a.2 = sample_heap_used.m_allocated_chunks) :=
  ⟨by decide, by decide, by decide, by decide,
    (deallocate_frees_recorded_chunks heap_config_i686 sample_heap_used [(0, 2)]
      (by decide) (by decide)).1⟩

/-- C4, the code at the failing input. On the i686 build (`CHUNK_SIZE = 32`,
`sizeof(AllocationHeader) = 4`, 32-bit `size_t`) the request `0xFFFFFFFC` plus the header
wraps to `real_size = 0`, so `chunks_needed` is 0. On the empty sample heap
`allocate(0xFFFFFFFC)` returns the non-null pointer 4100 with no chunk reserved (bitmap and
`m_allocated_chunks` as before), and the `deallocate(4100)` that follows immediately finds the
bit of chunk 0 clear and fails `VERIFY(m_bitmap.get(start))`: the round trip ends in a panic
instead of the heap it started from. -/
theorem wrapped_allocate_then_deallocate_panics :
    Heap.chunks_needed heap_config_i686 4294967292 = 0 ∧
    sample_heap.allocate heap_config_i686 bitmap_search 4294967292
      = some (4100, sample_heap) ∧
    (sample_heap.allocate heap_config_i686 bitmap_search 4294967292).bind
        (fun r => r.2.deallocate heap_config_i686 r.1) = none := by
  decide

end Kernel

namespace Kernel

/-- Live allocations of at least one chunk are not moved or overlapped by requests of at
least one chunk. With `live` the allocations returned by `allocate` and not freed since:
their chunk ranges are pairwise disjoint; an `allocate` that reserves at least one chunk sets
only bits that were clear, keeps every live allocation (pointer, header word and chunk range)
as it was, and its own chunks join the list; and `deallocate` of a live pointer changes only
the bits of that allocation and keeps every other live allocation as it was. -/
theorem live_allocations_stable (cfg : HeapConfig) (h : Heap) (live : List (Nat × Nat))
    (hcfg : heap_config_ok cfg) (hinv : heap_inv cfg h live) :
    live.Pairwise ranges_disjoint ∧
    (∀ (search : BitmapSearch) (size ptr : Nat) (h' : Heap),
      h.allocate cfg search size = some (ptr, h') → 1 ≤ Heap.chunks_needed cfg size →
      (∀ i, bitmap_get h'.m_bitmap i ≠ bitmap_get h.m_bitmap i →
        bitmap_get h.m_bitmap i = false) ∧
      (∀ a ∈ live, live_allocation h' a.1 a.2 ∧
        h'.pointer_of cfg a.1 = h.pointer_of cfg a.1 ∧
        h'.chunk_words.getD a.1 0 = h.chunk_words.getD a.1 0) ∧
      (ptr = 0 → h' = h) ∧
      (ptr ≠ 0 → ptr = h.pointer_of cfg (h.chunk_of cfg ptr) ∧
        heap_inv cfg h' ((h.chunk_of cfg ptr, Heap.chunks_needed cfg size) :: live))) ∧
    (∀ a ∈ live, ∃ h', h.deallocate cfg (h.pointer_of cfg a.1) = some h' ∧
      (∀ i, bitmap_get h'.m_bitmap i ≠ bitmap_get h.m_bitmap i → a.1 ≤ i ∧ i < a.1 + a.2) ∧
      (∀ b ∈ live, b ≠ a → live_allocation h' b.1 b.2 ∧
        h'.pointer_of cfg b.1 = h.pointer_of cfg b.1 ∧
        h'.chunk_words.getD b.1 0 = h.chunk_words.getD b.1 0) ∧
      heap_inv cfg h' (live.erase a)) := by
  refine ⟨hinv.2.2.1, ?_, ?_⟩
  · intro search size ptr h' hal hn
    by_cases hptr : ptr = 0
    · have hh : h' = h := by
        rcases allocate_cases cfg search h h' size ptr hal with ⟨-, hh⟩ | ⟨first, bits, hset, hfree, hp, -⟩
        · exact hh
        · exfalso
          obtain ⟨s1, -, -, -⟩ := set_range_some _ _ _ _ _ hset
          have hok := hinv.1
          obtain ⟨p1, p2, -, -, -, -⟩ := pointer_facts cfg h first hcfg hok
            (by have := hok.1; omega)
          apply p2
          rw [← wrap_small cfg _ p1]
          unfold Heap.pointer_of
          rw [← hp]
          exact hptr
      subst hh
      refine ⟨fun i hi => absurd rfl hi, fun a ha => ⟨hinv.2.1 a ha, rfl, rfl⟩, fun _ => rfl,
        fun hne => absurd hptr hne⟩
    · obtain ⟨first, a1, a2, a3, a4, a5, a6, a7, a8, a9, a10, a11⟩ :=
        allocate_effect cfg search h h' size ptr hcfg hinv.1 hal hptr hn
      obtain ⟨e1, hinv1⟩ := heap_inv_allocate cfg search h h' live size ptr hcfg hinv hal hptr hn
      refine ⟨?_, ?_, fun h0 => absurd h0 hptr, fun _ => ⟨e1, hinv1⟩⟩
      · intro i hi
        rw [a4 i] at hi
        by_cases hr : first ≤ i ∧ i < first + Heap.chunks_needed cfg size
        · exact a3 i hr.1 hr.2
        · rw [if_neg hr] at hi
          exact absurd rfl hi
      · intro a ha
        refine ⟨hinv1.2.1 a (List.mem_cons_of_mem _ ha), ?_, ?_⟩
        · unfold Heap.pointer_of
          rw [a11]
        · apply a8
          intro hc
          have ht := (hinv.2.1 a ha).2.2.1 a.1 (by omega) (by have := (hinv.2.1 a ha).1; omega)
          rw [a3 a.1 hc.1 hc.2] at ht
          cases ht
  · intro a ha
    have hla := hinv.2.1 a ha
    have hge := live_sum_ge live a ha
    obtain ⟨h', d1, d2, d3, d4, d5, d6, d7, d8⟩ := deallocate_effect cfg h a.1 a.2 hcfg hinv.1
      hla (by rw [hinv.2.2.2]; exact hge)
    obtain ⟨h2, f1, -, -, -, f5, f6, -, -⟩ := heap_inv_deallocate cfg h live a hcfg hinv ha
    rw [d1] at f1
    cases f1
    refine ⟨h', d1, ?_, ?_, f6⟩
    · intro i hi
      rw [d2 i] at hi
      by_cases hr : a.1 ≤ i ∧ i < a.1 + a.2
      · exact hr
      · rw [if_neg hr] at hi
        exact absurd rfl hi
    · intro b hb hne
      refine ⟨f5 b hb hne, ?_, ?_⟩
      · unfold Heap.pointer_of
        rw [d8]
      · apply d5
        have hd : ranges_disjoint b a :=
          hinv.2.2.1.forall (fun x y hxy => ranges_disjoint_symm x y hxy) hb ha hne
        have := (hinv.2.1 b hb).1
        unfold ranges_disjoint at hd
        omega

/-- The sample heap with the live allocation of chunks 0 and 1, and a second request. -/
theorem live_allocations_stable_witness :
    heap_config_ok heap_config_i686 ∧ heap_inv heap_config_i686 sample_heap_used [(0, 2)] ∧
    sample_heap_used.allocate heap_config_i686 bitmap_search 20
      = some (4164, { sample_heap_used with
          m_allocated_chunks := 3, m_bitmap := [true, true, true, false],
          chunk_words := [2, 0, 1, 0] }) ∧
    [((0 : Nat), (2 : Nat))].Pairwise ranges_disjoint :=
  ⟨by decide, by decide, by decide,
    (live_allocations_stable heap_config_i686 sample_heap_used [(0, 2)]
      (by decide) (by decide)).1⟩

/-- Double free of an allocation of at least one chunk is detected. `deallocate(nullptr)`
changes nothing. For every live allocation of at least one chunk, after `deallocate` of its
pointer a second `deallocate` of the same pointer (no allocation in between) passes the range
check, finds the bit of its first chunk clear and so fails `VERIFY(m_bitmap.get(start))`: it
panics and produces no changed heap. -/
theorem double_free_detected (cfg : HeapConfig) (h : Heap) (live : List (Nat × Nat))
    (hcfg : heap_config_ok cfg) (hinv : heap_inv cfg h live) :
    h.deallocate cfg 0 = some h ∧
    (∀ a ∈ live, ∃ h', h.deallocate cfg (h.pointer_of cfg a.1) = some h' ∧
      (h'.m_chunks ≤ cfg.sub (h.pointer_of cfg a.1) cfg.header_size ∧
        h.pointer_of cfg a.1 < h'.arena_end cfg) ∧
      bitmap_get h'.m_bitmap (h'.chunk_of cfg (h.pointer_of cfg a.1)) = false ∧
      h'.deallocate cfg (h.pointer_of cfg a.1) = none) := by
  refine ⟨by simp [Heap.deallocate], ?_⟩
  intro a ha
  obtain ⟨h', d1, d2, -, -, -, hinv', d7, d8⟩ := heap_inv_deallocate cfg h live a hcfg hinv ha
  have hla := hinv.2.1 a ha
  have hs : a.1 < h'.m_total_chunks := by
    rw [d7]
    have := hla.1
    have := hla.2.1
    omega
  obtain ⟨p1, p2, p3, p4, p5, p6⟩ := pointer_facts cfg h' a.1 hcfg hinv'.1 hs
  have hp : h'.pointer_of cfg a.1 = h.pointer_of cfg a.1 := by
    unfold Heap.pointer_of
    rw [d8]
  rw [hp] at p1 p2 p3 p4 p6
  have hbit : bitmap_get h'.m_bitmap a.1 = false := by
    rw [d2 a.1, if_pos ⟨by omega, by have := hla.1; omega⟩]
  refine ⟨h', d1, ⟨by rw [p3]; omega, p6⟩, by rw [p4]; exact hbit, ?_⟩
  unfold Heap.deallocate
  rw [if_neg p2, p3, p4, if_neg (by simp only [not_not]; exact ⟨by omega, p6⟩), if_pos hbit]

/-- Freeing the pointer 4100 of the sample allocation twice. -/
theorem double_free_detected_witness :
    heap_config_ok heap_config_i686 ∧ heap_inv heap_config_i686 sample_heap_used [(0, 2)] ∧
    (sample_heap_used.deallocate heap_config_i686 4100).bind
      (fun h' => h'.deallocate heap_config_i686 4100) = none ∧
    sample_heap_used.deallocate heap_config_i686 0 = some sample_heap_used :=
  ⟨by decide, by decide, by decide,
    (double_free_detected heap_config_i686 sample_heap_used [(0, 2)]
      (by decide) (by decide)).1⟩

/-- C3, the code at the failing input. On the i686 build (`CHUNK_SIZE = 32`,
`sizeof(AllocationHeader) = 4`, 32-bit `size_t`) `allocate(0xFFFFFFFF)` on the empty sample
heap computes `real_size = 3` and `chunks_needed = 1`, reserves the single chunk 0 and
returns the non-null pointer 4100: the 28 bytes behind the header are far fewer than the
4294967295 requested. -/
theorem heap_allocate_wraps_request_size :
    Heap.chunks_needed heap_config_i686 4294967295 = 1 ∧
    sample_heap.allocate heap_config_i686 bitmap_search 4294967295
      = some (4100, { sample_heap with
          m_allocated_chunks := 1, m_bitmap := [true, false, false, false],
          chunk_words := [1, 0, 0, 0] }) ∧
    Heap.chunks_needed heap_config_i686 4294967295 * heap_config_i686.CHUNK_SIZE
      - heap_config_i686.header_size < 4294967295 := by
  decide

/-- C16, the code at the failing input. On the i686 build the empty sample heap has
`free_bytes() = 128`; `allocate(0xFFFFFFFF)` asks for more than that, yet it returns the
non-null pointer 4100, sets bit 0 of the bitmap and raises `m_allocated_chunks` to 1. -/
theorem heap_allocate_oversized_not_refused :
    sample_heap.free_bytes heap_config_i686 = 128 ∧
    sample_heap.free_bytes heap_config_i686 < 4294967295 ∧
    (sample_heap.allocate heap_config_i686 bitmap_search 4294967295).map Prod.fst
      = some 4100 ∧
    (sample_heap.allocate heap_config_i686 bitmap_search 4294967295).map
        (fun r => (r.2.m_bitmap, r.2.m_allocated_chunks))
      = some ([true, false, false, false], 1) := by
  decide

/-- The constructor over 129 bytes of memory at 4096 on the i686 build: three chunks, with the
bitmap bits and header words that the memory held. -/
theorem create_129 (memory_bits : Nat → Bool) (memory_words : Nat → Nat) :
    Heap.create heap_config_i686 4096 129 memory_bits memory_words
      = some { m_total_chunks := 3, m_allocated_chunks := 0, m_chunks := 4096,
               m_bitmap := [memory_bits 0, memory_bits 1, memory_bits 2],
               chunk_words := [memory_words 0, memory_words 1, memory_words 2] } := by
  have h3 : Heap.calculate_chunks heap_config_i686 129 = 3 := by decide
  have hle : heap_config_i686.wrap (heap_config_i686.wrap (3 * heap_config_i686.CHUNK_SIZE)
      + heap_config_i686.wrap (3 + 7) / 8) ≤ 129 := by decide
  simp only [Heap.create, h3, if_pos hle]
  rfl

/-- On a three-chunk heap with nothing allocated, `allocate(100)` needs four chunks and returns
null, leaving the heap as it was. -/
theorem allocate_100_of_three (bits : List Bool) (words : List Nat) :
    Heap.allocate heap_config_i686 bitmap_search
        { m_total_chunks := 3, m_allocated_chunks := 0, m_chunks := 4096,
          m_bitmap := bits, chunk_words := words } 100
      = some (0, { m_total_chunks := 3, m_allocated_chunks := 0, m_chunks := 4096,
                   m_bitmap := bits, chunk_words := words }) := by
  have hsub : heap_config_i686.sub 3 0 < Heap.chunks_needed heap_config_i686 100 := by
    decide
  unfold Heap.allocate
  exact if_pos hsub

/-- C26, the code at the failing input. On the i686 build a request of 100 bytes needs 4
chunks; `calculate_memory_for_bytes(100)` is 129 bytes, over which the constructor builds a
heap of only `129 / 33 = 3` chunks (shown over zero-filled memory), so `allocate(100)` on the
fresh heap returns null, whatever the memory held. -/
theorem calculate_memory_for_bytes_too_small (memory_bits : Nat → Bool)
    (memory_words : Nat → Nat) :
    Heap.chunks_needed heap_config_i686 100 = 4 ∧
    Heap.calculate_memory_for_bytes heap_config_i686 100 = 129 ∧
    Heap.create heap_config_i686 4096 129 (fun _ => false) (fun _ => 0)
      = some { m_total_chunks := 3, m_allocated_chunks := 0, m_chunks := 4096,
               m_bitmap := [false, false, false], chunk_words := [0, 0, 0] } ∧
    (Heap.create heap_config_i686 4096 129 memory_bits memory_words).bind
        (fun h => (h.allocate heap_config_i686 bitmap_search 100).map Prod.fst)
      = some 0 := by
  refine ⟨by decide, by decide, by decide, ?_⟩
  rw [create_129 memory_bits memory_words, Option.some_bind, allocate_100_of_three,
    Option.map_some']

/-- C17, the code at the failing input. On the i686 build the sample heap holds one live
allocation, chunks 0 and 1 with pointer 4100 and header word 2. The request `0xFFFFFFFC`
plus the header wraps to 0 bytes, so `chunks_needed` is 0: `allocate(0xFFFFFFFC)` returns the
pointer 4100 of the live allocation a second time and writes its own chunk count 0 over the
live allocation's header word, without setting any bit. -/
theorem wrapped_allocate_overwrites_live_header :
    heap_inv heap_config_i686 sample_heap_used [(0, 2)] ∧
    sample_heap_used.pointer_of heap_config_i686 0 = 4100 ∧
    sample_heap_used.chunk_words.getD 0 0 = 2 ∧
    sample_heap_used.allocate heap_config_i686 bitmap_search 4294967292
      = some (4100, { sample_heap_used with chunk_words := [0, 0, 0, 0] }) ∧
    (sample_heap_used.allocate heap_config_i686 bitmap_search 4294967292).map
        (fun r => (r.2.chunk_words.getD 0 0, r.2.m_bitmap, r.2.m_allocated_chunks))
      = some (0, [true, true, false, false], 2) := by
  decide

/-- C29, the code at the failing input. On the i686 build, `allocate(0xFFFFFFFC)` on the
sample heap with chunks 0 and 1 in use returns the pointer 4100 with a header that records 0
chunks. `deallocate(4100)` finds the bit of chunk 0 set, clears the empty range and returns;
a second `deallocate(4100)` with no allocation in between does exactly the same: no `VERIFY`
fails and the double free goes unnoticed. -/
theorem double_free_after_wrapped_allocate_undetected :
    (sample_heap_used.allocate heap_config_i686 bitmap_search 4294967292).map Prod.fst
      = some 4100 ∧
    ((sample_heap_used.allocate heap_config_i686 bitmap_search 4294967292).bind
        (fun r => r.2.deallocate heap_config_i686 4100)).isSome = true ∧
    (((sample_heap_used.allocate heap_config_i686 bitmap_search 4294967292).bind
        (fun r => r.2.deallocate heap_config_i686 4100)).bind
        (fun h => h.deallocate heap_config_i686 4100))
      = some { sample_heap_used with chunk_words := [0, 0, 0, 0] } := by
  decide

end Kernel

namespace Kernel

/-! ## Expandable heap -/

theorem mem_insert_subheap (new_heap z : SubHeap) (chain : List SubHeap) :
    z ∈ insert_subheap new_heap chain ↔ z = new_heap ∨ z ∈ chain := by
  induction chain with
  | nil => simp [insert_subheap]
  | cons x xs ih =>
    simp only [insert_subheap]
    split
    · simp
    · simp only [List.mem_cons, ih]
      tauto

theorem insert_subheap_sorted (new_heap : SubHeap) (chain : List SubHeap)
    (h : chain_sorted chain) : chain_sorted (insert_subheap new_heap chain) := by
  unfold chain_sorted at *
  induction chain with
  | nil => simp [insert_subheap]
  | cons x xs ih =>
    rw [List.pairwise_cons] at h
    simp only [insert_subheap]
    split
    · rename_i hlt
      rw [List.pairwise_cons]
      refine ⟨?_, List.pairwise_cons.mpr h⟩
      intro y hy
      rcases List.mem_cons.mp hy with rfl | hy
      · omega
      · have := h.1 y hy
        omega
    · rename_i hge
      rw [List.pairwise_cons]
      refine ⟨?_, ih h.2⟩
      intro y hy
      rcases (mem_insert_subheap new_heap y xs).mp hy with rfl | hy
      · omega
      · exact h.1 y hy

theorem insert_subheap_split (new_heap : SubHeap) (chain : List SubHeap) :
    ∃ before after, chain = before ++ after ∧
      insert_subheap new_heap chain = before ++ new_heap :: after := by
  induction chain with
  | nil => exact ⟨[], [], rfl, rfl⟩
  | cons x xs ih =>
    simp only [insert_subheap]
    split
    · exact ⟨[], x :: xs, rfl, rfl⟩
    · obtain ⟨before, after, e1, e2⟩ := ih
      exact ⟨x :: before, after, by rw [e1]; rfl, by rw [e2]; rfl⟩

/-- C19. Address-ordered insertion: if the chain of added sub-heaps is sorted by ascending
arena address, then after a successful `add_subheap(memory, memory_size)` the chain is still
sorted, it consists of the previous sub-heaps in their previous order plus one new sub-heap
whose block starts at `memory`, and the primordial sub-heap (the head `m_heaps`) and
`m_expanding` are unchanged. -/
theorem add_subheap_keeps_address_order (cfg : HeapConfig) (eh eh' : ExpandableHeap)
    (memory memory_size : Nat) (memory_bits : Nat → Bool) (memory_words : Nat → Nat)
    (hsorted : chain_sorted eh.chain)
    (hadd : eh.add_subheap cfg memory memory_size memory_bits memory_words = some eh') :
    chain_sorted eh'.chain ∧
    (∃ new_heap before after, eh.chain = before ++ after ∧
      eh'.chain = before ++ new_heap :: after ∧ new_heap.address = memory ∧
      new_heap.heap.m_chunks = cfg.wrap (memory + cfg.subheap_size) ∧
      new_heap.memory_size = memory_size - cfg.subheap_size) ∧
    eh'.m_heaps = eh.m_heaps ∧ eh'.m_expanding = eh.m_expanding := by
  unfold ExpandableHeap.add_subheap at hadd
  split at hadd
  · cases hadd
  · cases hc : Heap.create cfg (cfg.wrap (memory + cfg.subheap_size))
        (memory_size - cfg.subheap_size) memory_bits memory_words with
    | none => rw [hc] at hadd; cases hadd
    | some heap =>
      rw [hc] at hadd
      simp only [Option.some.injEq] at hadd
      subst hadd
      have hm : heap.m_chunks = cfg.wrap (memory + cfg.subheap_size) := by
        unfold Heap.create at hc
        split at hc
        · simp only [Option.some.injEq] at hc
          subst hc
          rfl
        · cases hc
      obtain ⟨before, after, e1, e2⟩ :=
        insert_subheap_split ⟨heap, memory_size - cfg.subheap_size, memory⟩ eh.chain
      exact ⟨insert_subheap_sorted _ _ hsorted, ⟨_, before, after, e1, e2, rfl, hm, rfl⟩,
        rfl, rfl⟩

/-- Witness for C19: a second, zero-filled block at 2 MiB is linked behind the sub-heap at
1 MiB. -/
theorem add_subheap_keeps_address_order_witness :
    chain_sorted sample_expandable_used.chain ∧
    (sample_expandable_used.add_subheap heap_config_i686 2097152 131 (fun _ => false)
        (fun _ => 0)).map
        (fun e => e.chain.map (fun s => (s.address, s.heap.m_chunks)))
      = some [(1048576, 1048608), (2097152, 2097184)] ∧
    chain_sorted
      ((sample_expandable_used.add_subheap heap_config_i686 2097152 131 (fun _ => false)
        (fun _ => 0)).getD sample_expandable).chain :=
  ⟨by decide, by decide,
    (add_subheap_keeps_address_order heap_config_i686 sample_expandable_used
      ((sample_expandable_used.add_subheap heap_config_i686 2097152 131 (fun _ => false)
        (fun _ => 0)).getD sample_expandable) 2097152 131 (fun _ => false) (fun _ => 0)
      (by decide) (by decide)).1⟩

/-- C18, the code at the failing input. The added sub-heap of `sample_expandable_used` has
`memory_size = 99` and 3 chunks. Freeing its only allocation (pointer 1048612) empties it;
the policy declines `remove_memory`, and `add_subheap(subheap, 99)` subtracts
`sizeof(SubHeap) = 32` once more: whatever the block holds, the sub-heap that is linked back
has `memory_size = 67` and 2 chunks (its bitmap now lies in what was chunk 2, and chunk 0
still holds the header word of the freed allocation). When the policy accepts, the chain is
empty afterwards. -/
theorem declined_subheap_comes_back_smaller (memory_bits : Nat → Bool) :
    sample_expandable_used.deallocate heap_config_i686 (fun _ => false) memory_bits 1048612
      = some
        { m_heaps := ⟨sample_heap, 133, 4064⟩
          chain := [⟨{ m_total_chunks := 2, m_allocated_chunks := 0, m_chunks := 1048608,
                       m_bitmap := [memory_bits 0, memory_bits 1],
                       chunk_words := [1, 0] }, 67, 1048576⟩]
          m_expanding := false } ∧
    sample_expandable_used.deallocate heap_config_i686 (fun _ => true) memory_bits 1048612
      = some { m_heaps := ⟨sample_heap, 133, 4064⟩, chain := [], m_expanding := false } := by
  constructor <;> rfl

end Kernel

namespace Kernel

/-! ## Page tables -/

theorem all_clear_iff (table : Nat → PageTableEntry) :
    all_clear table = true ↔ ∀ i, i < 512 → table i = PageTableEntry.cleared := by
  unfold all_clear
  simp [List.all_eq_true, PageTableEntry.is_null]

theorem same_slot_iff_same_key (v w : Nat) (hv : v < 549755813888) (hw : w < 549755813888) :
    (page_directory_table_index w = page_directory_table_index v ∧
      page_directory_index w = page_directory_index v) ↔
    page_table_key w = page_table_key v := by
  unfold page_directory_table_index page_directory_index page_table_key
  omega

/-- C11. If the directory entry for `vaddr` is not present and the page-table frame
allocation inside `ensure_pte` fails, `ensure_pte` returns null and the page directory, its
`m_page_tables` map and the page-table memory are exactly as before the call. -/
theorem ensure_pte_allocation_failure (dir : PageDirectory) (vaddr : Nat)
    (habsent : (dir.pde vaddr).present = false) :
    ensure_pte dir vaddr none = some (none, dir) := by
  unfold ensure_pte
  rw [if_pos habsent]

/-- Witness for C11: the empty directory and address 0. -/
theorem ensure_pte_allocation_failure_witness :
    ((PageDirectory.empty false).pde 0).present = false ∧
    (ensure_pte (PageDirectory.empty false) 0 none).map Prod.fst = some none :=
  ⟨rfl, by rw [ensure_pte_allocation_failure (PageDirectory.empty false) 0 rfl]; rfl⟩

theorem ensure_pte_fresh (dir d1 : PageDirectory) (vaddr : Nat) (allocation : Option Nat)
    (ptr : Nat × Nat) (habsent : (dir.pde vaddr).present = false)
    (h : ensure_pte dir vaddr allocation = some (some ptr, d1)) :
    ∃ page, allocation = some page ∧ dir.m_page_tables (page_table_key vaddr) = none ∧
      ptr = (physical_page_base page, page_table_index vaddr) ∧
      d1.pde vaddr = ⟨physical_page_base page, true, true, true, dir.is_kernel⟩ ∧
      (∀ i j, ¬ (i = page_directory_table_index vaddr ∧ j = page_directory_index vaddr) →
        d1.entries i j = dir.entries i j) ∧
      d1.m_page_tables (page_table_key vaddr) = some page ∧
      (∀ k, k ≠ page_table_key vaddr → d1.m_page_tables k = dir.m_page_tables k) ∧
      (∀ i, d1.page_table_memory (physical_page_base page) i = PageTableEntry.cleared) ∧
      (∀ p i, p ≠ physical_page_base page →
        d1.page_table_memory p i = dir.page_table_memory p i) ∧
      d1.is_kernel = dir.is_kernel := by
  unfold ensure_pte at h
  rw [if_pos habsent] at h
  cases allocation with
  | none => simp at h
  | some page =>
    simp only at h
    by_cases hk : (dir.m_page_tables (page_table_key vaddr)).isSome = true
    · rw [if_pos hk] at h
      cases h
    · rw [if_neg hk] at h
      simp only [Option.some.injEq, Prod.mk.injEq] at h
      obtain ⟨h1, h2⟩ := h
      subst h2
      refine ⟨page, rfl, by simpa using hk, h1.symm, ?_, ?_, ?_, ?_, ?_, ?_, rfl⟩
      · simp [PageDirectory.pde]
      · intro i j hij
        simp only [if_neg hij]
      · simp
      · intro k hk'
        simp only [if_neg hk']
      · intro i
        simp
      · intro p i hp
        simp only [if_neg hp]

/-- C12. For every page directory and address `v` whose directory entry is not present, a
successful `ensure_pte(dir, v)` immediately followed by `release_pte(dir, v, true)` leaves
the directory entry for `v` cleared (not present), every other directory entry as it was and
`m_page_tables` exactly as before the pair. If instead the directory entry is present and
another entry of the same table is non-null, `release_pte` leaves the directory entries and
the map untouched. -/
theorem ensure_release_round_trip (dir : PageDirectory) (vaddr : Nat) :
    (∀ (allocation : Option Nat) (ptr : Nat × Nat) (d1 : PageDirectory),
      (dir.pde vaddr).present = false →
      ensure_pte dir vaddr allocation = some (some ptr, d1) →
      ∃ d2, release_pte d1 vaddr true = some d2 ∧
        d2.pde vaddr = PageDirectoryEntry.cleared ∧ (d2.pde vaddr).present = false ∧
        (∀ i j, ¬ (i = page_directory_table_index vaddr ∧ j = page_directory_index vaddr) →
          d2.entries i j = dir.entries i j) ∧
        d2.m_page_tables (page_table_key vaddr) = none ∧
        d2.m_page_tables = dir.m_page_tables) ∧
    (∀ (is_last_release : Bool) (j : Nat), (dir.pde vaddr).present = true →
      j < 512 → j ≠ page_table_index vaddr →
      (dir.page_table_memory (dir.pde vaddr).page_table_base j).is_null = false →
      ∃ d2, release_pte dir vaddr is_last_release = some d2 ∧
        d2.entries = dir.entries ∧ d2.m_page_tables = dir.m_page_tables) := by
  constructor
  · intro allocation ptr d1 habsent h
    obtain ⟨page, -, e2, -, e4, e5, e6, e7, e8, -, -⟩ :=
      ensure_pte_fresh dir d1 vaddr allocation ptr habsent h
    have hclear : all_clear ((d1.set_pte (d1.pde vaddr).page_table_base
        (page_table_index vaddr) PageTableEntry.cleared).page_table_memory
          (d1.pde vaddr).page_table_base) = true := by
      rw [all_clear_iff]
      intro i _
      simp only [PageDirectory.set_pte, e4]
      split
      · rfl
      · exact e8 i
    unfold release_pte
    rw [e4] at hclear ⊢
    simp only [if_true, Bool.true_or, Bool.true_and, hclear, e6, Option.isSome_some]
    refine ⟨_, rfl, ?_, ?_, ?_, ?_, ?_⟩
    · simp [PageDirectory.pde, PageDirectory.set_pde]
    · simp [PageDirectory.pde, PageDirectory.set_pde, PageDirectoryEntry.cleared]
    · intro i j hij
      simp only [PageDirectory.set_pde, PageDirectory.set_pte, if_neg hij]
      exact e5 i j hij
    · simp
    · funext k
      by_cases hk : k = page_table_key vaddr
      · subst hk
        simp [e2]
      · simp only [if_neg hk]
        exact e7 k hk
  · intro is_last_release j hpresent hj hne hnonnull
    have hnot : all_clear ((dir.set_pte (dir.pde vaddr).page_table_base
        (page_table_index vaddr) PageTableEntry.cleared).page_table_memory
          (dir.pde vaddr).page_table_base) = false := by
      rw [Bool.eq_false_iff]
      intro hc
      have := (all_clear_iff _).mp hc j hj
      simp only [PageDirectory.set_pte, hne, and_false, if_false] at this
      simp [PageTableEntry.is_null, this] at hnonnull
    unfold release_pte
    rw [if_pos hpresent, hnot]
    simp only [Bool.and_false, Bool.false_eq_true, if_false]
    exact ⟨_, rfl, rfl, rfl⟩

/-- Witness for C12: the empty directory, address 0x400000 and the page-table frame at
0x200000. -/
theorem ensure_release_round_trip_witness :
    ((PageDirectory.empty false).pde 4194304).present = false ∧
    ∃ ptr d1 d2,
      ensure_pte (PageDirectory.empty false) 4194304 (some 2097152) = some (some ptr, d1) ∧
      release_pte d1 4194304 true = some d2 ∧ (d2.pde 4194304).present = false ∧
      d2.m_page_tables (page_table_key 4194304) = none := by
  refine ⟨rfl, ?_⟩
  have he : ∃ ptr d1,
      ensure_pte (PageDirectory.empty false) 4194304 (some 2097152) = some (some ptr, d1) :=
    ⟨_, _, rfl⟩
  obtain ⟨ptr, d1, he⟩ := he
  obtain ⟨d2, h1, -, h3, -, h5, -⟩ :=
    (ensure_release_round_trip (PageDirectory.empty false) 4194304).1 (some 2097152) ptr d1
      rfl he
  exact ⟨ptr, d1, d2, he, h1, h3, h5⟩

end Kernel

namespace Kernel

/-- The two outcomes of `release_pte` in a directory whose present entry for `vaddr` has its
table recorded in `m_page_tables`. -/
theorem release_pte_cases (dir : PageDirectory) (vaddr : Nat) (is_last_release : Bool)
    (hmap : (dir.pde vaddr).present = true →
      (dir.m_page_tables (page_table_key vaddr)).isSome = true) :
    ((dir.pde vaddr).present = false → release_pte dir vaddr is_last_release = some dir) ∧
    ((dir.pde vaddr).present = true →
      ∃ d, release_pte dir vaddr is_last_release = some d ∧
        d.page_table_memory (dir.pde vaddr).page_table_base (page_table_index vaddr)
          = PageTableEntry.cleared ∧
        (∀ p i, ¬ (p = (dir.pde vaddr).page_table_base ∧ i = page_table_index vaddr) →
          d.page_table_memory p i = dir.page_table_memory p i) ∧
        (∀ i j, ¬ (i = page_directory_table_index vaddr ∧ j = page_directory_index vaddr) →
          d.entries i j = dir.entries i j) ∧
        (∀ k, k ≠ page_table_key vaddr → d.m_page_tables k = dir.m_page_tables k) ∧
        (((is_last_release = true ∨ page_table_index vaddr = 511) ∧
            ∀ i, i < 512 →
              d.page_table_memory (dir.pde vaddr).page_table_base i = PageTableEntry.cleared) →
          d.pde vaddr = PageDirectoryEntry.cleared ∧
          d.m_page_tables (page_table_key vaddr) = none) ∧
        (¬ ((is_last_release = true ∨ page_table_index vaddr = 511) ∧
            ∀ i, i < 512 →
              d.page_table_memory (dir.pde vaddr).page_table_base i = PageTableEntry.cleared) →
          d.pde vaddr = dir.pde vaddr ∧
          d.m_page_tables (page_table_key vaddr)
            = dir.m_page_tables (page_table_key vaddr))) := by
  constructor
  · intro habsent
    unfold release_pte
    simp [habsent]
  · intro hpresent
    have hk := hmap hpresent
    unfold release_pte
    rw [if_pos hpresent]
    by_cases hcond : ((is_last_release || decide (page_table_index vaddr = 511)) &&
        all_clear ((dir.set_pte (dir.pde vaddr).page_table_base (page_table_index vaddr)
          PageTableEntry.cleared).page_table_memory (dir.pde vaddr).page_table_base)) = true
    · rw [if_pos hcond, if_pos hk]
      refine ⟨_, rfl, ?_, ?_, ?_, ?_, ?_, ?_⟩
      · simp [PageDirectory.set_pde, PageDirectory.set_pte]
      · intro p i hpi
        simp only [PageDirectory.set_pde, PageDirectory.set_pte, if_neg hpi]
      · intro i j hij
        simp only [PageDirectory.set_pde, PageDirectory.set_pte, if_neg hij]
      · intro k hk'
        simp only [if_neg hk']
      · intro _
        simp [PageDirectory.pde, PageDirectory.set_pde]
      · intro hn
        exfalso
        apply hn
        simp only [Bool.and_eq_true, Bool.or_eq_true, decide_eq_true_eq] at hcond
        refine ⟨hcond.1, ?_⟩
        have := (all_clear_iff _).mp hcond.2
        intro i hi
        simpa [PageDirectory.set_pde, PageDirectory.set_pte] using this i hi
    · rw [if_neg hcond]
      refine ⟨_, rfl, ?_, ?_, ?_, ?_, ?_, ?_⟩
      · simp [PageDirectory.set_pte]
      · intro p i hpi
        simp only [PageDirectory.set_pte, if_neg hpi]
      · intro i j _
        rfl
      · intro k _
        rfl
      · intro hy
        exfalso
        apply hcond
        simp only [Bool.and_eq_true, Bool.or_eq_true, decide_eq_true_eq]
        refine ⟨hy.1, (all_clear_iff _).mpr ?_⟩
        intro i hi
        simpa [PageDirectory.set_pte] using hy.2 i hi
      · intro _
        exact ⟨rfl, rfl⟩

/-- C24. `release_pte(dir, vaddr, is_last_release)`, in a directory whose present entry for
`vaddr` has its table recorded in `m_page_tables` (every reachable directory does): if the
directory entry is not present nothing changes; otherwise the PTE at index
`(vaddr >> 12) & 0x1ff` is cleared and every other PTE is unchanged, and the table is removed
(directory entry cleared, key `vaddr & ~0x1fffff` removed from the map) if and only if
(`is_last_release` or the index is `0x1ff`) and all 512 entries are null after the clear. -/
theorem release_pte_effect (dir : PageDirectory) (vaddr : Nat) (is_last_release : Bool)
    (hmap : (dir.pde vaddr).present = true →
      (dir.m_page_tables (page_table_key vaddr)).isSome = true) :
    ((dir.pde vaddr).present = false → release_pte dir vaddr is_last_release = some dir) ∧
    ((dir.pde vaddr).present = true →
      ∃ d, release_pte dir vaddr is_last_release = some d ∧
        d.page_table_memory (dir.pde vaddr).page_table_base (page_table_index vaddr)
          = PageTableEntry.cleared ∧
        (∀ p i, ¬ (p = (dir.pde vaddr).page_table_base ∧ i = page_table_index vaddr) →
          d.page_table_memory p i = dir.page_table_memory p i) ∧
        (∀ i j, ¬ (i = page_directory_table_index vaddr ∧ j = page_directory_index vaddr) →
          d.entries i j = dir.entries i j) ∧
        (∀ k, k ≠ page_table_key vaddr → d.m_page_tables k = dir.m_page_tables k) ∧
        (((is_last_release = true ∨ page_table_index vaddr = 511) ∧
            ∀ i, i < 512 →
              d.page_table_memory (dir.pde vaddr).page_table_base i = PageTableEntry.cleared) →
          d.pde vaddr = PageDirectoryEntry.cleared ∧
          d.m_page_tables (page_table_key vaddr) = none) ∧
        (¬ ((is_last_release = true ∨ page_table_index vaddr = 511) ∧
            ∀ i, i < 512 →
              d.page_table_memory (dir.pde vaddr).page_table_base i = PageTableEntry.cleared) →
          d.pde vaddr = dir.pde vaddr ∧
          d.m_page_tables (page_table_key vaddr)
            = dir.m_page_tables (page_table_key vaddr))) :=
  release_pte_cases dir vaddr is_last_release hmap

/-- Witness for C24, on the sample directory whose table for 0x400000 holds one present
entry, at index 0. With `is_last_release` the entry is cleared, the scan finds all 512
entries null and the table is removed: directory entry cleared, key taken out of the map.
Without it (index 0 is not the boundary index) the entry is cleared and the table stays. -/
theorem release_pte_effect_witness :
    (sample_directory.pde 4194304).present = true ∧
    (∃ d, release_pte sample_directory 4194304 true = some d ∧
      d.page_table_memory 2097152 0 = PageTableEntry.cleared ∧
      d.pde 4194304 = PageDirectoryEntry.cleared ∧ d.m_page_tables 4194304 = none) ∧
    (∃ d, release_pte sample_directory 4194304 false = some d ∧
      d.page_table_memory 2097152 0 = PageTableEntry.cleared ∧
      d.pde 4194304 = sample_directory.pde 4194304 ∧
      d.m_page_tables 4194304 = some 2097152) := by
  refine ⟨rfl, ?_, ?_⟩
  · obtain ⟨d, h1, h2, h3, -, -, h6, -⟩ :=
      (release_pte_effect sample_directory 4194304 true (fun _ => rfl)).2 rfl
    have hall : ∀ i, i < 512 →
        d.page_table_memory (sample_directory.pde 4194304).page_table_base i
          = PageTableEntry.cleared := by
      intro i _
      by_cases hi : i = 0
      · rw [hi]
        exact h2
      · rw [h3 _ i (fun hc => hi hc.2)]
        show sample_directory.page_table_memory 2097152 i = PageTableEntry.cleared
        unfold sample_directory
        simp only [hi, and_false, if_false]
    obtain ⟨c1, c2⟩ := h6 ⟨Or.inl rfl, hall⟩
    exact ⟨d, h1, h2, c1, c2⟩
  · obtain ⟨d, h1, h2, -, -, -, -, h7⟩ :=
      (release_pte_effect sample_directory 4194304 false (fun _ => rfl)).2 rfl
    obtain ⟨c1, c2⟩ := h7 (fun hc => by
      rcases hc.1 with h | h
      · cases h
      · exact absurd h (by decide))
    exact ⟨d, h1, h2, c1, c2⟩

theorem directory_inv_ensure (dir d : PageDirectory) (v : Nat) (a : Option Nat)
    (r : Option (Nat × Nat)) (hv : v < 549755813888) (hinv : directory_inv dir)
    (h : ensure_pte dir v a = some (r, d)) : directory_inv d := by
  by_cases hp : (dir.pde v).present = false
  · cases r with
    | none =>
      unfold ensure_pte at h
      rw [if_pos hp] at h
      cases a with
      | none =>
        simp only [Option.some.injEq, Prod.mk.injEq, true_and] at h
        subst h
        exact hinv
      | some page =>
        simp only at h
        split at h
        · cases h
        · simp at h
    | some ptr =>
      obtain ⟨page, -, e2, -, e4, e5, e6, e7, -, -, -⟩ := ensure_pte_fresh dir d v a ptr hp h
      intro w hw
      by_cases hs : page_table_key w = page_table_key v
      · have hslot := (same_slot_iff_same_key v w hv hw).mpr hs
        have hpde : d.pde w = d.pde v := by
          unfold PageDirectory.pde
          rw [hslot.1, hslot.2]
        rw [hs, hpde, e4, e6]
        simp
      · have hslot : ¬ (page_directory_table_index w = page_directory_table_index v ∧
            page_directory_index w = page_directory_index v) :=
          fun hc => hs ((same_slot_iff_same_key v w hv hw).mp hc)
        have hpde : d.pde w = dir.pde w := by
          unfold PageDirectory.pde
          exact e5 _ _ hslot
        rw [hpde, e7 _ hs]
        exact hinv w hw
  · unfold ensure_pte at h
    rw [if_neg hp] at h
    simp only [Option.some.injEq, Prod.mk.injEq] at h
    obtain ⟨-, rfl⟩ := h
    exact hinv

theorem directory_inv_set_pte (dir : PageDirectory) (t i : Nat) (e : PageTableEntry)
    (hinv : directory_inv dir) : directory_inv (dir.set_pte t i e) := hinv

theorem directory_inv_release (dir d : PageDirectory) (v : Nat) (l : Bool)
    (hv : v < 549755813888) (hinv : directory_inv dir) (h : release_pte dir v l = some d) :
    directory_inv d := by
  by_cases hp : (dir.pde v).present = true
  · obtain ⟨d', h1, -, -, h4, h5, h6, h7⟩ :=
      (release_pte_cases dir v l (fun hh => ((hinv v hv).1).mp hh)).2 hp
    rw [h1] at h
    cases h
    intro w hw
    by_cases hs : page_table_key w = page_table_key v
    · have hslot := (same_slot_iff_same_key v w hv hw).mpr hs
      have hpde : d.pde w = d.pde v := by
        unfold PageDirectory.pde
        rw [hslot.1, hslot.2]
      have hpde0 : dir.pde w = dir.pde v := by
        unfold PageDirectory.pde
        rw [hslot.1, hslot.2]
      rw [hs, hpde]
      by_cases hc : ((l = true ∨ page_table_index v = 511) ∧ ∀ i, i < 512 →
          d.page_table_memory (dir.pde v).page_table_base i = PageTableEntry.cleared)
      · obtain ⟨c1, c2⟩ := h6 hc
        rw [c1, c2]
        simp [PageDirectoryEntry.cleared]
      · obtain ⟨c1, c2⟩ := h7 hc
        rw [c1, c2]
        have := hinv w hw
        rw [hs, hpde0] at this
        exact this
    · have hslot : ¬ (page_directory_table_index w = page_directory_table_index v ∧
          page_directory_index w = page_directory_index v) :=
        fun hc => hs ((same_slot_iff_same_key v w hv hw).mp hc)
      have hpde : d.pde w = dir.pde w := by
        unfold PageDirectory.pde
        exact h4 _ _ hslot
      rw [hpde, h5 _ hs]
      exact hinv w hw
  · have hp' : (dir.pde v).present = false := by simpa using hp
    rw [(release_pte_cases dir v l (fun hh => absurd hh hp)).1 hp'] at h
    cases h
    exact hinv

theorem directory_inv_step (dir d : PageDirectory) (op : PagingOp)
    (hv : op.vaddr < 549755813888) (hinv : directory_inv dir)
    (h : paging_step dir op = some d) : directory_inv d := by
  cases op with
  | ensure v a =>
    simp only [paging_step, Option.map_eq_some'] at h
    obtain ⟨⟨r, d'⟩, h1, rfl⟩ := h
    exact directory_inv_ensure dir d' v a r hv hinv h1
  | write v a e =>
    simp only [paging_step] at h
    cases he : ensure_pte dir v a with
    | none => rw [he] at h; cases h
    | some q =>
      obtain ⟨r, d'⟩ := q
      rw [he] at h
      have hd' := directory_inv_ensure dir d' v a r hv hinv he
      cases r with
      | none =>
        simp only [Option.some.injEq] at h
        subst h
        exact hd'
      | some ptr =>
        simp only [Option.some.injEq] at h
        subst h
        exact directory_inv_set_pte d' _ _ e hd'
  | release v l => exact directory_inv_release dir d v l hv hinv h

theorem directory_inv_run (ops : List PagingOp) (dir d : PageDirectory)
    (hv : ∀ op ∈ ops, op.vaddr < 549755813888) (hinv : directory_inv dir)
    (h : paging_run dir ops = some d) : directory_inv d := by
  induction ops generalizing dir with
  | nil =>
    simp only [paging_run, Option.some.injEq] at h
    subst h
    exact hinv
  | cons op ops ih =>
    simp only [paging_run] at h
    cases hs : paging_step dir op with
    | none => rw [hs] at h; cases h
    | some t =>
      rw [hs] at h
      exact ih t (fun o ho => hv o (List.mem_cons_of_mem _ ho))
        (directory_inv_step dir t op (hv op (List.mem_cons_self _ _)) hinv hs) h

end Kernel

namespace Kernel

/-- `ensure_pte` takes no table out of `m_page_tables`. -/
theorem ensure_pte_keeps_tables (dir d : PageDirectory) (w : Nat) (a : Option Nat)
    (r : Option (Nat × Nat)) (h : ensure_pte dir w a = some (r, d)) (k : Nat)
    (hk : (dir.m_page_tables k).isSome = true) : (d.m_page_tables k).isSome = true := by
  unfold ensure_pte at h
  by_cases hp : (dir.pde w).present = false
  · rw [if_pos hp] at h
    cases a with
    | none =>
      simp only [Option.some.injEq, Prod.mk.injEq] at h
      rw [← h.2]
      exact hk
    | some page =>
      simp only at h
      by_cases hm : (dir.m_page_tables (page_table_key w)).isSome = true
      · rw [if_pos hm] at h
        cases h
      · rw [if_neg hm] at h
        simp only [Option.some.injEq, Prod.mk.injEq] at h
        rw [← h.2]
        by_cases hkw : k = page_table_key w
        · simp [hkw]
        · simp only [if_neg hkw]
          exact hk
  · rw [if_neg hp] at h
    simp only [Option.some.injEq, Prod.mk.injEq] at h
    rw [← h.2]
    exact hk

/-- A step that takes a recorded table out of `m_page_tables` is a `release_pte` on an
address of that table, with `is_last_release` set or at the boundary index, that found all
512 entries of the table null after clearing its own. -/
theorem table_removed_only_when_empty (dir d : PageDirectory) (op : PagingOp) (v : Nat)
    (hinv : directory_inv dir) (hop : op.vaddr < 549755813888) (hv : v < 549755813888)
    (hstep : paging_step dir op = some d)
    (hin : (dir.m_page_tables (page_table_key v)).isSome = true)
    (hout : d.m_page_tables (page_table_key v) = none) :
    ∃ w l, op = .release w l ∧ page_table_key w = page_table_key v ∧
      (l = true ∨ page_table_index w = 511) ∧
      (∀ i, i < 512 →
        d.page_table_memory (dir.pde v).page_table_base i = PageTableEntry.cleared) := by
  cases op with
  | ensure w a =>
    exfalso
    simp only [paging_step, Option.map_eq_some'] at hstep
    obtain ⟨⟨r, d'⟩, h1, rfl⟩ := hstep
    have := ensure_pte_keeps_tables dir d' w a r h1 _ hin
    rw [hout] at this
    cases this
  | write w a e =>
    exfalso
    simp only [paging_step] at hstep
    cases he : ensure_pte dir w a with
    | none => rw [he] at hstep; cases hstep
    | some q =>
      obtain ⟨r, d'⟩ := q
      rw [he] at hstep
      have hk := ensure_pte_keeps_tables dir d' w a r he _ hin
      cases r with
      | none =>
        simp only [Option.some.injEq] at hstep
        subst hstep
        rw [hout] at hk
        cases hk
      | some ptr =>
        simp only [Option.some.injEq] at hstep
        subst hstep
        have hm : (d'.set_pte ptr.1 ptr.2 e).m_page_tables (page_table_key v)
            = d'.m_page_tables (page_table_key v) := rfl
        rw [hm] at hout
        rw [hout] at hk
        cases hk
  | release w l =>
    have hw : w < 549755813888 := hop
    simp only [paging_step] at hstep
    by_cases hp : (dir.pde w).present = true
    · obtain ⟨d', h1, -, -, -, h5, h6, h7⟩ :=
        (release_pte_cases dir w l (fun hh => ((hinv w hw).1).mp hh)).2 hp
      rw [h1] at hstep
      cases hstep
      have hkey : page_table_key w = page_table_key v := by
        by_contra hne
        have := h5 (page_table_key v) (fun hc => hne hc.symm)
        rw [hout] at this
        rw [← this] at hin
        cases hin
      have hslot := (same_slot_iff_same_key w v hw hv).mpr hkey.symm
      have hpde : dir.pde v = dir.pde w := by
        unfold PageDirectory.pde
        rw [hslot.1, hslot.2]
      by_cases hc : ((l = true ∨ page_table_index w = 511) ∧ ∀ i, i < 512 →
          d.page_table_memory (dir.pde w).page_table_base i = PageTableEntry.cleared)
      · exact ⟨w, l, rfl, hkey, hc.1, by rw [hpde]; exact hc.2⟩
      · exfalso
        obtain ⟨-, c2⟩ := h7 hc
        rw [hkey, hout] at c2
        rw [← c2] at hin
        cases hin
    · exfalso
      have hp' : (dir.pde w).present = false := by simpa using hp
      rw [(release_pte_cases dir w l (fun hh => absurd hh hp)).1 hp'] at hstep
      cases hstep
      rw [hout] at hin
      cases hin

/-- C13 (as amended). In every state reached from an empty page directory through
`ensure_pte`, stores through the pointer it returns, and `release_pte` (addresses below
512 GiB, the range of the three 9-bit indices): a page table is recorded in `m_page_tables`
if and only if its directory entry is present, and the recorded page is the frame that the
directory entry names; and a further step takes a recorded table out of the map only if it
is a `release_pte` on an address of that table, with `is_last_release` set or at the boundary
index `0x1ff`, that finds all 512 entries of the table null after clearing its own. -/
theorem page_table_retention (ops : List PagingOp) (d : PageDirectory) (is_kernel : Bool)
    (hv : ∀ op ∈ ops, op.vaddr < 549755813888)
    (hrun : paging_run (PageDirectory.empty is_kernel) ops = some d) (v : Nat)
    (hlt : v < 549755813888) :
    ((d.pde v).present = true ↔ (d.m_page_tables (page_table_key v)).isSome = true) ∧
    (∀ p, d.m_page_tables (page_table_key v) = some p →
      (d.pde v).page_table_base = physical_page_base p) ∧
    (∀ (op : PagingOp) (d' : PageDirectory), op.vaddr < 549755813888 →
      paging_step d op = some d' →
      (d.m_page_tables (page_table_key v)).isSome = true →
      d'.m_page_tables (page_table_key v) = none →
      ∃ w l, op = .release w l ∧ page_table_key w = page_table_key v ∧
        (l = true ∨ page_table_index w = 511) ∧
        (∀ i, i < 512 →
          d'.page_table_memory (d.pde v).page_table_base i = PageTableEntry.cleared)) := by
  have h0 : directory_inv (PageDirectory.empty is_kernel) := by
    intro w _
    simp [PageDirectory.empty, PageDirectory.pde, PageDirectoryEntry.cleared]
  have hd := directory_inv_run ops _ d hv h0 hrun
  exact ⟨(hd v hlt).1, (hd v hlt).2, fun op d' hop hstep hin hout =>
    table_removed_only_when_empty d d' op v hd hop hlt hstep hin hout⟩

set_option maxRecDepth 100000 in
/-- Witness for C13: a table is created for 0x400000 and an entry is stored; the table is
recorded and its directory entry present, and the `release_pte` with `is_last_release` that
takes the table out of the map found all 512 entries null. -/
theorem page_table_retention_witness :
    ∃ d d', paging_run (PageDirectory.empty false)
        [.write 4194304 (some 2097152) ⟨8388608, true, true, false, false, false, false⟩]
        = some d ∧
      paging_step d (.release 4194304 true) = some d' ∧
      (d.pde 4194304).present = true ∧
      (d.m_page_tables (page_table_key 4194304)).isSome = true ∧
      d'.m_page_tables (page_table_key 4194304) = none ∧
      (∀ i, i < 512 →
        d'.page_table_memory (d.pde 4194304).page_table_base i = PageTableEntry.cleared) := by
  have hr : ∃ d d', paging_run (PageDirectory.empty false)
      [.write 4194304 (some 2097152) ⟨8388608, true, true, false, false, false, false⟩]
      = some d ∧ paging_step d (.release 4194304 true) = some d' ∧
      (d.m_page_tables (page_table_key 4194304)).isSome = true ∧
      d'.m_page_tables (page_table_key 4194304) = none := ⟨_, _, rfl, rfl, rfl, rfl⟩
  obtain ⟨d, d', hd, hd', hin, hout⟩ := hr
  have h := page_table_retention _ d false (by decide) hd 4194304 (by decide)
  obtain ⟨w, l, -, -, -, hall⟩ := h.2.2 (.release 4194304 true) d' (by decide) hd' hin hout
  exact ⟨d, d', hd, hd', h.1.mpr hin, hin, hout, hall⟩

set_option maxRecDepth 100000 in
/-- Counterexample to C13 as stated: after `ensure_pte` for 0x400000 on the empty directory
(page-table frame 0x200000) the table is recorded in `m_page_tables` and its directory entry
is present, yet all 512 entries are null, so none is present; and after an entry was stored
and cleared by `release_pte(.., false)` at the non-boundary index 0 the table is still
recorded although all its entries are null again. -/
theorem empty_table_stays_recorded :
    (paging_run (PageDirectory.empty false) [.ensure 4194304 (some 2097152)]).map
        (fun d => (d.m_page_tables 4194304, (d.pde 4194304).present,
          all_clear (d.page_table_memory 2097152)))
      = some (some 2097152, true, true) ∧
    (paging_run (PageDirectory.empty false)
        [.write 4194304 (some 2097152) ⟨8388608, true, true, false, false, false, false⟩,
         .release 4194304 false]).map
        (fun d => (d.m_page_tables 4194304, (d.pde 4194304).present,
          all_clear (d.page_table_memory 2097152)))
      = some (some 2097152, true, true) := by
  decide

/-- C14, the code at the failing input. On a slot in the cleared state (at boot, or as
`unquickmap_page` leaves it) `quickmap_page(PhysicalAddress(0))` finds
`pte.physical_page_base() == 0` equal to the requested address, skips the update and returns
with the slot entry still not present and not writable; the same happens after
`quickmap_page(0x5000); unquickmap_page(); quickmap_page(0)`. For any other page-aligned
address the entry is set up. -/
theorem quickmap_page_zero_not_mapped :
    quickmap_page ⟨PageTableEntry.cleared, false⟩ 0 = some ⟨PageTableEntry.cleared, true⟩ ∧
    (((quickmap_page ⟨PageTableEntry.cleared, false⟩ 20480).bind unquickmap_page).bind
        (fun s => quickmap_page s 0)).map (fun s => (s.pte.present, s.pte.writable))
      = some (false, false) ∧
    quickmap_page ⟨PageTableEntry.cleared, false⟩ 20480
      = some ⟨⟨20480, true, true, false, false, false, false⟩, true⟩ := by
  decide

end Kernel

namespace Kernel

/-! ## Boot memory map, reserved ranges, page-fault dispatch -/

/-- C20, the code at the failing input. Used ranges: low memory, prekernel and kernel image
below 8 MiB. Firmware map: Usable [16 MiB, 16 MiB + 8 KiB), Reserved [16 MiB + 8 KiB,
16 MiB + 12 KiB), Usable [16 MiB + 12 KiB, 16 MiB + 20 KiB). The page loop runs while
`page_base <= addr + len`, so it also records the page at 16 MiB + 8 KiB, one past the first
Usable entry; the next Usable entry then continues the same range. The single recorded range
is [16 MiB, 16 MiB + 20 KiB]; it contains the Reserved page 16785408, which lies in neither
Usable entry, and its upper page 16797696 lies past the second one. -/
theorem parse_memory_map_records_page_past_entry :
    parse_memory_map_ranges [⟨0, 1048576⟩, ⟨1048576, 2097152⟩, ⟨2097152, 8388608⟩]
        [⟨16777216, 8192, MULTIBOOT_MEMORY_AVAILABLE⟩,
         ⟨16785408, 4096, MULTIBOOT_MEMORY_RESERVED⟩,
         ⟨16789504, 8192, MULTIBOOT_MEMORY_AVAILABLE⟩] []
      = [⟨16777216, 16797696⟩] ∧
    (16777216 ≤ 16785408 ∧ 16785408 ≤ 16797696) ∧
    ¬ (16777216 ≤ 16785408 ∧ 16785408 + 4096 ≤ 16777216 + 8192) ∧
    ¬ (16789504 ≤ 16785408 ∧ 16785408 + 4096 ≤ 16789504 + 8192) ∧
    ¬ (16789504 ≤ 16797696 ∧ 16797696 + 4096 ≤ 16789504 + 8192) := by
  decide

/-- C25, the code at the failing input. One reserved range [0x1000, 0x3000); the request
starts at 0x2000 inside it and has size 0x2000, so it ends at 0x4000, past the end of the
range. The function compares only `current_range.length < range.size()` and returns true. -/
theorem mmap_request_past_reserved_range_allowed :
    is_allowed_to_mmap_to_userspace [⟨4096, 8192⟩] 8192 8192 = some true ∧
    ¬ (4096 ≤ 8192 ∧ 8192 + 8192 ≤ 4096 + 8192) := by
  decide

/-- C30, the code at the failing input. The firmware map starts with a Reserved entry at
physical address 0, followed by a Usable entry. `range.start` is set to the null address, so
the run is taken as not started and nothing is appended, where the claim expects the range
with start 0 and length 0x1000. A run that starts at a non-zero address is registered. -/
theorem reserved_run_at_address_zero_dropped :
    register_reserved_ranges
        [⟨.Reserved, 0, 4096⟩, ⟨.Usable, 4096, 4096⟩] [] = some [] ∧
    register_reserved_ranges
        [⟨.Usable, 0, 4096⟩, ⟨.Reserved, 4096, 4096⟩, ⟨.Reserved, 8192, 4096⟩,
         ⟨.Usable, 12288, 4096⟩, ⟨.Reserved, 16384, 4096⟩] []
      = some [⟨4096, 8192⟩, ⟨16384, 4096⟩] := by
  decide

theorem find_region_some (ctx : FaultContext) (vaddr : Nat) (region : Region)
    (h : find_region_from_vaddr ctx vaddr = some (some region)) :
    region.contains vaddr = true ∧
    (region ∈ ctx.m_kernel_regions ∨
      ∃ regions, ctx.current_space = some (some regions) ∧ region ∈ regions) := by
  unfold find_region_from_vaddr at h
  cases hk : ctx.m_kernel_regions.find? (fun r => r.contains vaddr) with
  | some r =>
    rw [hk] at h
    simp only [Option.some.injEq] at h
    subst h
    exact ⟨by simpa using List.find?_some hk, Or.inl (List.mem_of_find?_eq_some hk)⟩
  | none =>
    rw [hk] at h
    cases hs : ctx.current_space with
    | none => rw [hs] at h; simp at h
    | some sp =>
      cases sp with
      | none => rw [hs] at h; simp at h
      | some regions =>
        rw [hs] at h
        simp only [Option.some.injEq] at h
        exact ⟨by simpa using List.find?_some h,
          Or.inr ⟨regions, rfl, List.mem_of_find?_eq_some h⟩⟩

theorem find_region_none (ctx : FaultContext) (vaddr : Nat)
    (hspace : ctx.current_space ≠ some none) :
    find_region_from_vaddr ctx vaddr = some none ↔
      (∀ r ∈ ctx.m_kernel_regions, r.contains vaddr = false) ∧
      (∀ regions, ctx.current_space = some (some regions) →
        ∀ r ∈ regions, r.contains vaddr = false) := by
  unfold find_region_from_vaddr
  cases hk : ctx.m_kernel_regions.find? (fun r => r.contains vaddr) with
  | some r =>
    have h1 := List.find?_some hk
    have h2 := List.mem_of_find?_eq_some hk
    simp only [Option.some.injEq, reduceCtorEq, false_iff, not_and]
    intro hall
    have := hall r h2
    simp only at h1
    rw [h1] at this
    cases this
  | none =>
    have hkn : ∀ r ∈ ctx.m_kernel_regions, r.contains vaddr = false := by
      intro r hr
      have := List.find?_eq_none.mp hk r hr
      simpa using this
    cases hs : ctx.current_space with
    | none =>
      simp only [true_iff]
      exact ⟨hkn, fun rs hrs => by cases hrs⟩
    | some sp =>
      cases sp with
      | none => exact absurd hs hspace
      | some regions =>
        simp only [Option.some.injEq, List.find?_eq_none, Bool.not_eq_true]
        constructor
        · intro h
          exact ⟨hkn, fun rs hrs r hr => by cases hrs; exact h r hr⟩
        · intro h r hr
          exact h.2 regions rfl r hr

/-- C21. `handle_page_fault` returns `ShouldCrash` whenever `in_irq` is non-zero, whatever the
fault and whatever the regions' fault handlers are. With `in_irq = 0` (and a current page
directory that has its space, as `VERIFY(page_directory->space())` asserts) it returns
`ShouldCrash` exactly when the lookup finds no region, which is when no kernel region and no
region of the current space contains the faulting address; otherwise the lookup yields a region
that contains the address and the result is what that region's `handle_fault` returns. -/
theorem handle_page_fault_dispatch {Fault : Type}
    (handle_fault : Region → Fault → PageFaultResponse) (ctx : FaultContext) (vaddr : Nat)
    (fault : Fault) (hspace : ctx.current_space ≠ some none) :
    (ctx.in_irq ≠ 0 →
      ∀ (other : Region → Fault → PageFaultResponse),
        handle_page_fault other ctx vaddr fault = some PageFaultResponse.ShouldCrash) ∧
    (ctx.in_irq = 0 →
      (∀ r ∈ ctx.m_kernel_regions, r.contains vaddr = false) →
      (∀ regions, ctx.current_space = some (some regions) →
        ∀ r ∈ regions, r.contains vaddr = false) →
      handle_page_fault handle_fault ctx vaddr fault = some PageFaultResponse.ShouldCrash) ∧
    (ctx.in_irq = 0 →
      (¬ ((∀ r ∈ ctx.m_kernel_regions, r.contains vaddr = false) ∧
        (∀ regions, ctx.current_space = some (some regions) →
          ∀ r ∈ regions, r.contains vaddr = false))) →
      ∃ region, find_region_from_vaddr ctx vaddr = some (some region) ∧
        region.contains vaddr = true ∧
        (region ∈ ctx.m_kernel_regions ∨
          ∃ regions, ctx.current_space = some (some regions) ∧ region ∈ regions) ∧
        handle_page_fault handle_fault ctx vaddr fault
          = some (handle_fault region fault)) := by
  refine ⟨?_, ?_, ?_⟩
  · intro hirq other
    unfold handle_page_fault
    rw [if_pos hirq]
  · intro hirq h1 h2
    have := (find_region_none ctx vaddr hspace).mpr ⟨h1, h2⟩
    unfold handle_page_fault
    rw [if_neg (by simpa using hirq), this]
  · intro hirq hn
    cases hf : find_region_from_vaddr ctx vaddr with
    | none =>
      exfalso
      unfold find_region_from_vaddr at hf
      cases hk : ctx.m_kernel_regions.find? (fun r => r.contains vaddr) with
      | some r => rw [hk] at hf; cases hf
      | none =>
        rw [hk] at hf
        cases hs : ctx.current_space with
        | none => rw [hs] at hf; cases hf
        | some sp =>
          cases sp with
          | none => exact hspace hs
          | some regions => rw [hs] at hf; cases hf
    | some q =>
      cases q with
      | none => exact absurd ((find_region_none ctx vaddr hspace).mp hf) hn
      | some region =>
        obtain ⟨c1, c2⟩ := find_region_some ctx vaddr region hf
        refine ⟨region, rfl, c1, c2, ?_⟩
        unfold handle_page_fault
        rw [if_neg (by simpa using hirq), hf]

/-- Witness for C21: a fault at 0x5000 during an interrupt, with a kernel region that would
handle it. -/
theorem handle_page_fault_dispatch_witness :
    handle_page_fault (fun _ (_ : Nat) => PageFaultResponse.Continue)
        ⟨1, [⟨1, 16384, 8192⟩], none⟩ 20480 0 = some PageFaultResponse.ShouldCrash ∧
    handle_page_fault (fun _ (_ : Nat) => PageFaultResponse.Continue)
        ⟨0, [⟨1, 16384, 8192⟩], none⟩ 20480 0 = some PageFaultResponse.Continue ∧
    ((1 : Nat) ≠ 0 →
      ∀ (other : Region → Nat → PageFaultResponse),
        handle_page_fault other ⟨1, [⟨1, 16384, 8192⟩], none⟩ 20480 0
          = some PageFaultResponse.ShouldCrash) :=
  ⟨by decide, by decide,
    (handle_page_fault_dispatch (fun _ (_ : Nat) => PageFaultResponse.Continue)
      ⟨1, [⟨1, 16384, 8192⟩], none⟩ 20480 0 (by decide)).1⟩

end Kernel

/-!
## Mapping, translation and copy-on-write marking in `vmm.c`
-/

namespace Kernel

theorem offset_in_directory_add (v off : Nat) (hv : v % 4096 = 0) (hoff : off < 4096) :
    VMM_OFFSET_IN_DIRECTORY (v + off) = VMM_OFFSET_IN_DIRECTORY v := by
  unfold VMM_OFFSET_IN_DIRECTORY
  have : (v + off) / 4194304 = v / 4194304 := by omega
  rw [this]

theorem offset_in_table_add (v off : Nat) (hv : v % 4096 = 0) (hoff : off < 4096) :
    VMM_OFFSET_IN_TABLE (v + off) = VMM_OFFSET_IN_TABLE v := by
  unfold VMM_OFFSET_IN_TABLE
  have : (v + off) / 4096 = v / 4096 := by omega
  rw [this]

theorem page_desc_set_page_desc (st : VmmState) (v : Nat) (d : PageDesc) :
    (st.set_page_desc v d).page_desc v = d := by
  simp [VmmState.page_desc, VmmState.set_page_desc, VmmState.ptable_frame]

theorem table_desc_set_page_desc (st : VmmState) (v w : Nat) (d : PageDesc) :
    (st.set_page_desc v d).table_desc w = st.table_desc w := rfl

theorem pdir_active_set_page_desc (st : VmmState) (v : Nat) (d : PageDesc) :
    (st.set_page_desc v d).pdir_active = st.pdir_active := rfl

/-- `vmm_allocate_ptable_lockless` keeps the directory active and takes no frame out of the
window. -/
theorem allocate_ptable_keeps (st : VmmState) (v : Nat) (hactive : st.pdir_active = true) :
    (vmm_allocate_ptable_lockless st v).2.pdir_active = true ∧
    (st.window_mapped v = true → (vmm_allocate_ptable_lockless st v).2.window_mapped v = true) := by
  have hpa : (pmm_alloc_page st).2.pdir_active = st.pdir_active ∧
      (pmm_alloc_page st).2.window = st.window := by
    unfold pmm_alloc_page
    cases st.free_frames <;> exact ⟨rfl, rfl⟩
  unfold vmm_allocate_ptable_lockless
  rw [if_neg (by simp [hactive])]
  split_ifs
  · exact ⟨hactive, fun h => h⟩
  · refine ⟨by rw [hpa.1]; exact hactive, fun h => ?_⟩
    unfold VmmState.window_mapped at *
    rw [hpa.2]
    exact h
  · refine ⟨by
      show (pmm_alloc_page st).2.pdir_active = true
      rw [hpa.1]; exact hactive, fun _ => ?_⟩
    simp [VmmState.window_mapped, VmmState.set_table_desc, VmmState.zero_frame,
      VmmState.set_window]

/-- With an active page directory `vmm_map_page_lockless` either faults or returns 0 after
storing the descriptor through the window, in the state that the call started in or in the
state that the unchecked `vmm_allocate_ptable_lockless` left. -/
theorem map_page_some (st st' : VmmState) (v p s : Nat) (r : Int)
    (hactive : st.pdir_active = true)
    (hmap : vmm_map_page_lockless st v p s = some (r, st')) :
    r = 0 ∧ ∃ st0 : VmmState, st0.pdir_active = true ∧ st0.window_mapped v = true ∧
      st' = st0.set_page_desc v (mapped_page_desc (st0.table_desc v) p s) ∧
      (((st.table_desc v).present = true ∧ st0 = st) ∨
        ((st.table_desc v).present = false ∧ st0 = (vmm_allocate_ptable_lockless st v).2)) := by
  unfold vmm_map_page_lockless at hmap
  rw [if_neg (by simp [hactive])] at hmap
  by_cases hp : (st.table_desc v).present = false
  · rw [if_pos hp] at hmap
    by_cases hw : (vmm_allocate_ptable_lockless st v).2.window_mapped v = false
    · rw [if_pos hw] at hmap
      cases hmap
    · rw [if_neg hw] at hmap
      simp only [Option.some.injEq, Prod.mk.injEq] at hmap
      exact ⟨hmap.1.symm, _, (allocate_ptable_keeps st v hactive).1, by simpa using hw,
        hmap.2.symm, Or.inr ⟨hp, rfl⟩⟩
  · rw [if_neg hp] at hmap
    by_cases hw : st.window_mapped v = false
    · rw [if_pos hw] at hmap
      cases hmap
    · rw [if_neg hw] at hmap
      simp only [Option.some.injEq, Prod.mk.injEq] at hmap
      exact ⟨hmap.1.symm, st, hactive, by simpa using hw, hmap.2.symm,
        Or.inl ⟨by simpa using hp, rfl⟩⟩

/-- Map and translate round trip, as far as it holds. For page-aligned `v` and `p`, when
`vmm_map_page_lockless(v, p, s)` returns 0 with an active page directory, the page descriptor
of `v` is present with frame `p` and `_vmm_convert_vaddr2paddr(v + off)` is `p | off` for
every `off < 4096`; and if the table descriptor of `v` is present by then, a following
`vmm_unmap_page_lockless(v)` returns 0 and leaves the descriptor neither present nor
writable. -/
theorem map_translate_round_trip (st st' : VmmState) (v p s : Nat)
    (hactive : st.pdir_active = true) (hv : v % 4096 = 0) (hp : p % 4096 = 0)
    (hmap : vmm_map_page_lockless st v p s = some (0, st')) :
    (st'.page_desc v).present = true ∧ (st'.page_desc v).frame = p ∧
    (∀ off, off < 4096 → vmm_convert_vaddr2paddr st' (v + off) = some (p ||| off)) ∧
    ((st'.table_desc v).present = true →
      ∃ st'', vmm_unmap_page_lockless st' v = some (0, st'') ∧
        (st''.page_desc v).present = false ∧ (st''.page_desc v).writable = false) := by
  obtain ⟨_, st0, hact0, hwin0, hst', _⟩ := map_page_some st st' v p s 0 hactive hmap
  have hframe : p / 4096 * 4096 = p := by omega
  have hpd : st'.page_desc v = mapped_page_desc (st0.table_desc v) p s := by
    rw [hst']; exact page_desc_set_page_desc _ _ _
  have hact' : st'.pdir_active = true := by rw [hst']; exact hact0
  have hwin' : st'.window_mapped v = true := by rw [hst']; exact hwin0
  refine ⟨by rw [hpd]; rfl, by rw [hpd]; exact hframe, ?_, ?_⟩
  · intro off hoff
    unfold vmm_convert_vaddr2paddr
    have hwin : st'.window_mapped (v + off) = true := by
      unfold VmmState.window_mapped at *
      rw [offset_in_directory_add v off hv hoff]
      exact hwin'
    rw [if_pos hwin]
    have hpo : st'.page_desc (v + off) = st'.page_desc v := by
      simp only [VmmState.page_desc, VmmState.ptable_frame,
        offset_in_directory_add v off hv hoff, offset_in_table_add v off hv hoff]
    rw [hpo, hpd]
    have : (v + off) % 4096 = off := by omega
    rw [this]
    show some (p / 4096 * 4096 ||| off) = some (p ||| off)
    rw [hframe]
  · intro hpres
    unfold vmm_unmap_page_lockless
    rw [if_neg (by simp [hact']), if_neg (by simp [hpres]), if_neg (by simp [hwin'])]
    exact ⟨_, rfl, by rw [page_desc_set_page_desc], by rw [page_desc_set_page_desc]⟩

/-- The round trip on the self-test state: 0xf0000 is mapped to 0x8f000000 and unmapped
again. -/
theorem map_translate_round_trip_example :
    ∃ st' : VmmState,
      vmm_map_page_lockless self_test_vmm 983040 2399141888 7 = some (0, st') ∧
      (st'.page_desc 983040).frame = 2399141888 ∧
      vmm_convert_vaddr2paddr st' (983040 + 5) = some (2399141888 ||| 5) :=
  ⟨_, rfl,
    (map_translate_round_trip self_test_vmm _ 983040 2399141888 7 rfl (by decide) (by decide)
      rfl).2.1,
    (map_translate_round_trip self_test_vmm _ 983040 2399141888 7 rfl (by decide) (by decide)
      rfl).2.2.1 5 (by decide)⟩

set_option maxRecDepth 1000000 in
/-- C28, the code at the failing input. The forked process has one free frame left when a
copy-on-write fault on 0x400000 is resolved: `_vmm_resolve_copy_on_write` clears the table
descriptor, finds no frame for the new table and returns `-VMM_ERR_NO_SPACE`, with the window
still showing the old table. `vmm_map_page_lockless(0x403000, 0x903000, PAGE_READABLE |
PAGE_WRITABLE)` then finds the descriptor not present, drops the failure of
`vmm_allocate_ptable_lockless`, stores the page descriptor through the window and returns 0:
the descriptor is present with frame 0x903000 and the translation of 0x403005 is 0x903005.
The following `vmm_unmap_page_lockless(0x403000)` stops at the table descriptor, returns
`-VMM_ERR_PTABLE` and leaves the page descriptor present and writable. -/
theorem unmap_after_unchecked_map_keeps_page :
    (vmm_resolve_copy_on_write forked_vmm_low forked_zones 4194304).map
        (fun r => (r.1, r.2.pdir_active, (r.2.table_desc 4206592).present))
      = some (-VMM_ERR_NO_SPACE, true, false) ∧
    ((vmm_resolve_copy_on_write forked_vmm_low forked_zones 4194304).bind
        (fun r => vmm_map_page_lockless r.2 4206592 9449472
          (PAGE_READABLE ||| PAGE_WRITABLE))).map
        (fun r => (r.1, (r.2.page_desc 4206592).present, (r.2.page_desc 4206592).frame,
          vmm_convert_vaddr2paddr r.2 (4206592 + 5)))
      = some (0, true, 9449472, some (9449472 ||| 5)) ∧
    (((vmm_resolve_copy_on_write forked_vmm_low forked_zones 4194304).bind
        (fun r => vmm_map_page_lockless r.2 4206592 9449472
          (PAGE_READABLE ||| PAGE_WRITABLE))).bind
        (fun r => vmm_unmap_page_lockless r.2 4206592)).map
        (fun r => (r.1, (r.2.page_desc 4206592).present, (r.2.page_desc 4206592).writable))
      = some (-VMM_ERR_PTABLE, true, true) := by
  refine ⟨?_, ?_, ?_⟩ <;> rfl

/-- C15: a copy-on-write table is never directly writable. `_vmm_tables_set_cow` leaves both
descriptors with `TABLE_DESC_COPY_ON_WRITE` set and `TABLE_DESC_WRITABLE` cleared and keeps
whether they are present; and whenever `vmm_map_page_lockless` into a present table whose
descriptor is marked copy-on-write returns, whatever the address, the frame and the settings,
it returns 0, the page descriptor it stored is present without `PAGE_DESC_WRITABLE` and the
table is still marked; it does return when the window shows the table. -/
theorem cow_table_never_writable (cur new : TableDesc) (st : VmmState)
    (vaddr paddr settings : Nat)
    (hactive : st.pdir_active = true)
    (hpresent : (st.table_desc vaddr).present = true)
    (hcow : (st.table_desc vaddr).copy_on_write = true) :
    ((vmm_tables_set_cow cur new).1.copy_on_write = true ∧
      (vmm_tables_set_cow cur new).1.writable = false ∧
      (vmm_tables_set_cow cur new).1.present = cur.present ∧
      (vmm_tables_set_cow cur new).2.copy_on_write = true ∧
      (vmm_tables_set_cow cur new).2.writable = false ∧
      (vmm_tables_set_cow cur new).2.present = new.present) ∧
    (∀ (r : Int) (st' : VmmState),
      vmm_map_page_lockless st vaddr paddr settings = some (r, st') →
      r = 0 ∧ (st'.page_desc vaddr).present = true ∧
      (st'.page_desc vaddr).writable = false ∧
      (st'.table_desc vaddr).copy_on_write = true) ∧
    (st.window_mapped vaddr = true →
      ∃ st' : VmmState, vmm_map_page_lockless st vaddr paddr settings = some (0, st')) := by
  refine ⟨⟨rfl, rfl, rfl, rfl, rfl, rfl⟩, ?_, ?_⟩
  · intro r st' hmap
    obtain ⟨hr, st0, _, _, hst', hor⟩ := map_page_some st st' vaddr paddr settings r hactive hmap
    rcases hor with ⟨_, h0⟩ | ⟨hn, _⟩
    · subst h0
      refine ⟨hr, ?_, ?_, ?_⟩
      · rw [hst', page_desc_set_page_desc]; rfl
      · rw [hst', page_desc_set_page_desc]
        simp [mapped_page_desc, hcow]
      · rw [hst']; exact hcow
    · rw [hpresent] at hn
      cases hn
  · intro hwin
    unfold vmm_map_page_lockless
    rw [if_neg (by simp [hactive]), if_neg (by simp [hpresent]), if_neg (by simp [hwin])]
    exact ⟨_, rfl⟩

/-- Witness for C15: in the forked process the table of 0x400000 is marked copy-on-write; a
page mapped there with `PAGE_WRITABLE` is not writable. -/
theorem cow_table_never_writable_witness :
    ∃ st' : VmmState,
      vmm_map_page_lockless forked_vmm 4206592 9449472 (PAGE_WRITABLE ||| PAGE_READABLE)
        = some (0, st') ∧
      (st'.page_desc 4206592).present = true ∧ (st'.page_desc 4206592).writable = false ∧
      (st'.table_desc 4206592).copy_on_write = true := by
  obtain ⟨st', h⟩ := (cow_table_never_writable TableDesc.zero TableDesc.zero forked_vmm
    4206592 9449472 (PAGE_WRITABLE ||| PAGE_READABLE) rfl rfl rfl).2.2 rfl
  exact ⟨st', h, ((cow_table_never_writable TableDesc.zero TableDesc.zero forked_vmm
    4206592 9449472 (PAGE_WRITABLE ||| PAGE_READABLE) rfl rfl rfl).2.1 0 st' h).2⟩

/-- C22: the call of `_vmm_self_test`, `vmm_map_pages(0x00f0000, 0x8f000000, 1, PAGE_READABLE |
PAGE_WRITABLE | PAGE_EXECUTABLE)`, returns 0 and maps the virtual page 0xf0000 to the frame
0x8f000000; the other three checks of the test hold, while the translation of 0x8f000000
that the test compares with 0x00f0000 finds no table at all. -/
theorem self_test_mapping_is_reversed :
    (vmm_map_pages self_test_vmm 983040 2399141888 1
        (PAGE_READABLE ||| PAGE_WRITABLE ||| PAGE_EXECUTABLE)).map
      (fun r => (r.1, vmm_convert_vaddr2paddr r.2 2399141888,
        vmm_convert_vaddr2paddr r.2 983040, vmm_convert_vaddr2paddr r.2 3221225472,
        vmm_convert_vaddr2paddr r.2 4290772992, vmm_convert_vaddr2paddr r.2 256))
      = some (0, none, some 2399141888, some 1048576, some 0, some 256) := by
  rfl

set_option maxRecDepth 1000000 in
/-- C27: in the forked process the page at 0x402000 is present in the shared table and lies in
no zone of the process; `_vmm_resolve_copy_on_write` returns 0 and the page is not present in
the new table, while the two pages inside zones are. -/
theorem resolve_cow_drops_page_without_zone :
    (forked_vmm.page_desc 4202496).present = true ∧
    proc_find_zone forked_zones 4202496 = none ∧
    (vmm_resolve_copy_on_write forked_vmm forked_zones 4194304).map
      (fun r => (r.1, (r.2.page_desc 4194304).present, (r.2.page_desc 4198400).present,
        (r.2.page_desc 4202496).present)) = some (0, true, true, false) := by
  refine ⟨by decide, by decide, ?_⟩
  rfl

end Kernel

/-!
## Copy-on-write resolution: the primitives on a well-formed state
-/

namespace Kernel

theorem offset_in_directory_serve (vaddr : Nat) :
    VMM_OFFSET_IN_DIRECTORY (vaddr / 4194304 * 4194304) = VMM_OFFSET_IN_DIRECTORY vaddr := by
  unfold VMM_OFFSET_IN_DIRECTORY
  have : vaddr / 4194304 * 4194304 / 4194304 = vaddr / 4194304 := by omega
  rw [this]

theorem offset_in_directory_page (vaddr i : Nat) (hi : i < 1024) :
    VMM_OFFSET_IN_DIRECTORY (vaddr / 4194304 * 4194304 + i * VMM_PAGE_SIZE)
      = VMM_OFFSET_IN_DIRECTORY vaddr := by
  unfold VMM_OFFSET_IN_DIRECTORY VMM_PAGE_SIZE
  have : (vaddr / 4194304 * 4194304 + i * 4096) / 4194304 = vaddr / 4194304 := by omega
  rw [this]

theorem offset_in_table_page (vaddr i : Nat) (hi : i < 1024) :
    VMM_OFFSET_IN_TABLE (vaddr / 4194304 * 4194304 + i * VMM_PAGE_SIZE) = i := by
  unfold VMM_OFFSET_IN_TABLE VMM_PAGE_SIZE
  omega

/-- When the window shows the frame that the table descriptor names, the window is mapped and
the table is reached in that frame. -/
theorem window_shows_table (s : VmmState) (v : Nat)
    (hw : s.window (VMM_OFFSET_IN_DIRECTORY v) = some (s.table_desc v).frame) :
    s.window_mapped v = true ∧ s.ptable_frame v = (s.table_desc v).frame ∧
    s.page_desc v = s.hardware_page_desc v := by
  unfold VmmState.window_mapped VmmState.page_desc VmmState.hardware_page_desc
    VmmState.ptable_frame
  rw [hw]
  exact ⟨rfl, rfl, rfl⟩

theorem map_page_present (s : VmmState) (v p t : Nat) (ha : s.pdir_active = true)
    (hp : (s.table_desc v).present = true)
    (hw : s.window (VMM_OFFSET_IN_DIRECTORY v) = some (s.table_desc v).frame) :
    vmm_map_page_lockless s v p t
      = some (0, s.set_page_desc v (mapped_page_desc (s.table_desc v) p t)) := by
  unfold vmm_map_page_lockless
  rw [if_neg (by simp [ha]), if_neg (by simp [hp]),
    if_neg (by simp [(window_shows_table s v hw).1])]

theorem unmap_page_present (s : VmmState) (v : Nat) (ha : s.pdir_active = true)
    (hp : (s.table_desc v).present = true)
    (hw : s.window (VMM_OFFSET_IN_DIRECTORY v) = some (s.table_desc v).frame) :
    vmm_unmap_page_lockless s v
      = some (0, s.set_page_desc v
          { s.page_desc v with present := false, writable := false, frame := 0 }) := by
  unfold vmm_unmap_page_lockless
  rw [if_neg (by simp [ha]), if_neg (by simp [hp]),
    if_neg (by simp [(window_shows_table s v hw).1])]

theorem pmm_alloc_page_cons (s : VmmState) (f : Nat) (R : List Nat)
    (h : s.free_frames = f :: R) :
    pmm_alloc_page s = (f, { s with free_frames := R }) := by
  unfold pmm_alloc_page
  rw [h]

theorem pmm_alloc_page_nil (s : VmmState) (h : s.free_frames = []) :
    pmm_alloc_page s = (0, s) := by
  unfold pmm_alloc_page
  rw [h]

/-- The allocator changes nothing but its list of free frames, which gets no longer. -/
theorem pmm_alloc_page_state (s : VmmState) :
    (pmm_alloc_page s).2.pdir_active = s.pdir_active ∧ (pmm_alloc_page s).2.pdir = s.pdir ∧
    (pmm_alloc_page s).2.tables = s.tables ∧ (pmm_alloc_page s).2.memory = s.memory ∧
    (pmm_alloc_page s).2.free_zones = s.free_zones ∧
    (pmm_alloc_page s).2.free_frames <:+ s.free_frames ∧
    (pmm_alloc_page s).2.window = s.window := by
  unfold pmm_alloc_page
  cases h : s.free_frames with
  | nil => simp [h]
  | cons f R => simp [List.suffix_cons]

theorem translate_some (s : VmmState) (v : Nat) (hp : (s.table_desc v).present = true)
    (hq : (s.hardware_page_desc v).present = true) :
    s.translate v = some (s.hardware_page_desc v).frame := by
  unfold VmmState.translate
  rw [hp, hq]
  rfl

theorem translate_none (s : VmmState) (v : Nat)
    (hq : (s.hardware_page_desc v).present = false) :
    s.translate v = none := by
  unfold VmmState.translate
  rw [hq]
  simp

theorem zoner_new_zone_some (s s2 : VmmState) (z : Nat)
    (h : zoner_new_zone s = some (z, s2)) :
    ∃ Z, s.free_zones = z :: Z ∧ s2 = { s with free_zones := Z } := by
  unfold zoner_new_zone at h
  cases hz : s.free_zones with
  | nil => rw [hz] at h; cases h
  | cons a Z =>
    rw [hz] at h
    simp only [Option.some.injEq, Prod.mk.injEq] at h
    exact ⟨Z, by rw [h.1], h.2.symm⟩

/-- The state after `vmm_unmap_page_lockless` from a table that is present and shown by the
window. -/
theorem unmap_page_present_spec (s : VmmState) (v : Nat)
    (ha : s.pdir_active = true) (hp : (s.table_desc v).present = true)
    (hw : s.window (VMM_OFFSET_IN_DIRECTORY v) = some (s.table_desc v).frame) :
    ∃ s1, vmm_unmap_page_lockless s v = some (0, s1) ∧
      s1.pdir_active = true ∧ s1.pdir = s.pdir ∧ s1.window = s.window ∧
      s1.free_zones = s.free_zones ∧ s1.free_frames = s.free_frames ∧
      s1.memory = s.memory ∧
      s1.tables = fun g j =>
        if g = (s.table_desc v).frame ∧ j = VMM_OFFSET_IN_TABLE v then
          { s.page_desc v with present := false, writable := false, frame := 0 }
        else s.tables g j := by
  rw [unmap_page_present s v ha hp hw]
  refine ⟨_, rfl, ha, rfl, rfl, rfl, rfl, rfl, ?_⟩
  unfold VmmState.set_page_desc
  simp only [(window_shows_table s v hw).2.1]

/-- The state after `vmm_load_page_lockless` into a table that is present and shown by the
window: either no frame was to be had and nothing but the allocator changed, or the first
free frame is mapped at the page and filled with zeroes. -/
theorem load_page_spec (s s1 : VmmState) (v t : Nat) (r : Int)
    (ha : s.pdir_active = true) (hp : (s.table_desc v).present = true)
    (hw : s.window (VMM_OFFSET_IN_DIRECTORY v) = some (s.table_desc v).frame)
    (h : vmm_load_page_lockless s v t = some (r, s1)) :
    s1.pdir_active = true ∧ s1.pdir = s.pdir ∧ s1.window = s.window ∧
    s1.free_zones = s.free_zones ∧
    ((s1.tables = s.tables ∧ s1.memory = s.memory ∧ s1.free_frames <:+ s.free_frames) ∨
      (∃ f R, s.free_frames = f :: R ∧ s1.free_frames = R ∧
        s1.tables = (fun g j =>
          if g = f / 4096 * 4096 then PageDesc.zero
          else if g = (s.table_desc v).frame ∧ j = VMM_OFFSET_IN_TABLE v then
            mapped_page_desc (s.table_desc v) f t
          else s.tables g j) ∧
        s1.memory = (fun g off => if g = f / 4096 * 4096 then 0 else s.memory g off))) := by
  unfold vmm_load_page_lockless at h
  obtain ⟨hpa1, hpa2, hpa3, hpa4, hpa5, hpa6, hpa7⟩ := pmm_alloc_page_state s
  by_cases h0 : (pmm_alloc_page s).1 = 0
  · rw [if_pos h0] at h
    simp only [Option.some.injEq, Prod.mk.injEq] at h
    obtain ⟨_, h2⟩ := h
    subst h2
    exact ⟨by rw [hpa1]; exact ha, hpa2, hpa7, hpa5, Or.inl ⟨hpa3, hpa4, hpa6⟩⟩
  · rw [if_neg h0] at h
    cases hfr : s.free_frames with
    | nil =>
      rw [pmm_alloc_page_nil s hfr] at h0
      exact absurd rfl h0
    | cons f R =>
      rw [pmm_alloc_page_cons s f R hfr] at h
      simp only at h
      have ha' : ({ s with free_frames := R } : VmmState).pdir_active = true := ha
      have hp' : (({ s with free_frames := R } : VmmState).table_desc v).present = true := hp
      have hw' : ({ s with free_frames := R } : VmmState).window (VMM_OFFSET_IN_DIRECTORY v)
          = some (({ s with free_frames := R } : VmmState).table_desc v).frame := hw
      rw [map_page_present _ v f t ha' hp' hw'] at h
      simp only at h
      have hw2 : s.window (VMM_OFFSET_IN_DIRECTORY v)
          = some (s.pdir (VMM_OFFSET_IN_DIRECTORY v)).frame := hw
      have hhw : ((({ s with free_frames := R } : VmmState).set_page_desc v
          (mapped_page_desc (({ s with free_frames := R } : VmmState).table_desc v) f t)
          ).hardware_page_desc v)
          = mapped_page_desc (s.table_desc v) f t := by
        simp only [VmmState.hardware_page_desc, VmmState.set_page_desc, VmmState.table_desc,
          VmmState.ptable_frame, hw2, Option.getD_some, and_self, if_true]
      rw [translate_some _ v (by exact hp) (by rw [hhw]; rfl), hhw] at h
      simp only [Option.some.injEq, Prod.mk.injEq] at h
      obtain ⟨_, h2⟩ := h
      subst h2
      refine ⟨ha, rfl, rfl, rfl, Or.inr ⟨f, R, rfl, rfl, ?_, rfl⟩⟩
      simp only [VmmState.zero_frame, VmmState.set_page_desc, VmmState.table_desc,
        VmmState.ptable_frame, hw2, Option.getD_some]
      rfl

end Kernel

/-!
## Copy-on-write resolution: one page of the loop
-/

namespace Kernel

/-- What the well-formedness of the state before the call says about a free frame. -/
theorem cow_free_frame (st : VmmState) (vaddr f : Nat) (hready : cow_resolvable st vaddr)
    (hf : f ∈ st.free_frames) :
    f % 4096 = 0 ∧ f ≠ (st.table_desc vaddr).frame ∧
    (∀ i, i < 1024 → (st.tables (st.table_desc vaddr).frame i).present = true →
      f ≠ (st.tables (st.table_desc vaddr).frame i).frame) ∧
    (∀ z ∈ st.free_zones, f ≠ (st.table_desc z).frame) :=
  hready.2.2.2.2.2.2.2.1 f hf

/-- What the well-formedness of the state before the call says about a free kernel page. -/
theorem cow_free_zone (st : VmmState) (vaddr z : Nat) (hready : cow_resolvable st vaddr)
    (hz : z ∈ st.free_zones) :
    z % 4096 = 0 ∧ VMM_OFFSET_IN_DIRECTORY z ≠ VMM_OFFSET_IN_DIRECTORY vaddr ∧
    (st.table_desc z).present = true ∧
    (st.table_desc z).frame ≠ (st.table_desc vaddr).frame ∧
    st.window (VMM_OFFSET_IN_DIRECTORY z) = some (st.table_desc z).frame :=
  ⟨(hready.2.2.2.2.2.2.2.2.2 z hz).1, (hready.2.2.2.2.2.2.2.2.2 z hz).2.1,
    (hready.2.2.2.2.2.2.2.2.2 z hz).2.2.1, (hready.2.2.2.2.2.2.2.2.2 z hz).2.2.2,
    hready.2.2.2.2.1 z hz⟩

/-- Two different free kernel pages have different page-table slots. -/
theorem cow_zone_slots (st : VmmState) (vaddr z1 z2 : Nat) (Z : List Nat)
    (hready : cow_resolvable st vaddr) (hzones : st.free_zones = z1 :: Z) (hz2 : z2 ∈ Z) :
    ¬ ((st.table_desc z1).frame = (st.table_desc z2).frame ∧
      VMM_OFFSET_IN_TABLE z1 = VMM_OFFSET_IN_TABLE z2) := by
  have h := hready.2.2.2.2.2.2.2.2.1
  rw [hzones, List.map_cons, List.nodup_cons] at h
  intro hc
  apply h.1
  rw [List.mem_map]
  exact ⟨z2, hz2, by rw [hc.1, hc.2]⟩

/-- Inside the loop the table descriptor of a page of the group is the new one. -/
theorem inv_table_desc_page (st s : VmmState) (vaddr fs fn z1 i : Nat) (Z R : List Nat)
    (hinv : resolve_inv st vaddr fs fn z1 Z R s) (hi : i < 1024) :
    s.table_desc (vaddr / 4194304 * 4194304 + i * VMM_PAGE_SIZE)
      = ⟨fn, true, true, true, false, false⟩ := by
  unfold VmmState.table_desc
  rw [hinv.pdir_eq, offset_in_directory_page vaddr i hi]
  simp

/-- Inside the loop the table descriptor of a free kernel page is the one before the call. -/
theorem inv_table_desc_zone (st s : VmmState) (vaddr fs fn z1 z : Nat) (Z R : List Nat)
    (hinv : resolve_inv st vaddr fs fn z1 Z R s)
    (hz : VMM_OFFSET_IN_DIRECTORY z ≠ VMM_OFFSET_IN_DIRECTORY vaddr) :
    s.table_desc z = st.table_desc z := by
  unfold VmmState.table_desc
  rw [hinv.pdir_eq]
  simp [hz]

/-- Inside the loop the window shows the new table for the pages of the group. -/
theorem inv_window_page (st s : VmmState) (vaddr fs fn z1 i : Nat) (Z R : List Nat)
    (hinv : resolve_inv st vaddr fs fn z1 Z R s) (hi : i < 1024) :
    s.window (VMM_OFFSET_IN_DIRECTORY (vaddr / 4194304 * 4194304 + i * VMM_PAGE_SIZE))
      = some (s.table_desc (vaddr / 4194304 * 4194304 + i * VMM_PAGE_SIZE)).frame := by
  rw [inv_table_desc_page st s vaddr fs fn z1 i Z R hinv hi, hinv.window_eq,
    offset_in_directory_page vaddr i hi]
  simp

/-- Inside the loop the window shows the table of a free kernel page as before the call. -/
theorem inv_window_zone (st s : VmmState) (vaddr fs fn z1 z : Nat) (Z R : List Nat)
    (hready : cow_resolvable st vaddr) (hz : z ∈ st.free_zones)
    (hinv : resolve_inv st vaddr fs fn z1 Z R s) :
    s.window (VMM_OFFSET_IN_DIRECTORY z) = some (s.table_desc z).frame := by
  have h := cow_free_zone st vaddr z hready hz
  rw [inv_table_desc_zone st s vaddr fs fn z1 z Z R hinv h.2.1, hinv.window_eq]
  simp only [h.2.1, if_false]
  exact h.2.2.2.2

/-- Static facts about the frames that the call takes first. -/
theorem cow_frames_facts (st : VmmState) (vaddr fs fn : Nat) (R : List Nat)
    (hready : cow_resolvable st vaddr) (hfree : st.free_frames = fs :: fn :: R) :
    fs ≠ fn ∧ fs ∉ R ∧ fn ∉ R ∧ R.Nodup ∧ fs ∈ st.free_frames ∧ fn ∈ st.free_frames ∧
    (∀ f ∈ R, f ∈ st.free_frames) := by
  have h := hready.2.2.2.2.2.2.1
  rw [hfree, List.nodup_cons, List.nodup_cons] at h
  refine ⟨?_, ?_, h.2.1, h.2.2, by simp [hfree], by simp [hfree], ?_⟩
  · intro hc
    apply h.1
    simp [hc]
  · intro hc
    apply h.1
    simp [hc]
  · intro f hf
    simp [hfree, hf]

theorem tables_set_page_desc_page (st s : VmmState) (vaddr fs fn z1 i : Nat) (Z R : List Nat)
    (hinv : resolve_inv st vaddr fs fn z1 Z R s) (hi : i < 1024) (d : PageDesc) :
    (s.set_page_desc (vaddr / 4194304 * 4194304 + i * VMM_PAGE_SIZE) d).tables
      = fun f j => if f = fn ∧ j = i then d else s.tables f j := by
  unfold VmmState.set_page_desc
  simp only [(window_shows_table s _ (inv_window_page st s vaddr fs fn z1 i Z R hinv hi)).2.1,
    inv_table_desc_page st s vaddr fs fn z1 i Z R hinv hi, offset_in_table_page vaddr i hi]

theorem inv_translate_src (st s : VmmState) (vaddr fs fn z1 : Nat) (Z R : List Nat)
    (hready : cow_resolvable st vaddr) (hzones : st.free_zones = z1 :: Z)
    (hinv : resolve_inv st vaddr fs fn z1 Z R s) :
    s.translate z1 = some fs := by
  have hz1 := cow_free_zone st vaddr z1 hready (by simp [hzones])
  have htd := inv_table_desc_zone st s vaddr fs fn z1 z1 Z R hinv hz1.2.1
  have hpd : s.hardware_page_desc z1
      = s.tables (st.table_desc z1).frame (VMM_OFFSET_IN_TABLE z1) := by
    unfold VmmState.hardware_page_desc
    rw [htd]
  rw [translate_some s z1 (by rw [htd]; exact hz1.2.2.1) (by rw [hpd]; exact hinv.src_present),
    hpd, hinv.src_frame]

/-- One page of the loop that lies in a sharedly mapped file. -/
theorem copy_page_shared (st : VmmState) (p : List ProcZone) (vaddr fs fn z1 : Nat)
    (Z R : List Nat) (s s' : VmmState) (i : Nat) (r : Int) (zone : ProcZone)
    (hready : cow_resolvable st vaddr)
    (hfree : st.free_frames = fs :: fn :: R) (hzones : st.free_zones = z1 :: Z)
    (hinv : resolve_inv st vaddr fs fn z1 Z R s)
    (hi : i < 1024)
    (hold : (st.tables (st.table_desc vaddr).frame i).present = true)
    (hzone : proc_find_zone p (vaddr / 4194304 * 4194304 + i * VMM_PAGE_SIZE) = some zone)
    (hsh : zone.mapped_file_sharedly = true)
    (hstep : vmm_copy_page_to_resolve_cow s p (vaddr / 4194304 * 4194304 + i * VMM_PAGE_SIZE)
      z1 i = some (r, s')) :
    resolve_inv st vaddr fs fn z1 Z R s' ∧
    resolved_entry st vaddr fn R s' i true ∧
    (∀ j, j ≠ i → s'.tables fn j = s.tables fn j) ∧
    s'.free_frames = s.free_frames ∧
    s'.memory = s.memory := by
  obtain ⟨hne, hfsR, hfnR, hnodup, hfsm, hfnm, hRm⟩ := cow_frames_facts st vaddr fs fn R hready hfree
  have hz1 := cow_free_zone st vaddr z1 hready (by simp [hzones])
  unfold vmm_copy_page_to_resolve_cow at hstep
  rw [hzone] at hstep
  simp only [hsh, if_true] at hstep
  rw [inv_translate_src st s vaddr fs fn z1 Z R hready hzones hinv] at hstep
  simp only at hstep
  rw [map_page_present s _ _ _ hinv.active
    (by rw [inv_table_desc_page st s vaddr fs fn z1 i Z R hinv hi])
    (inv_window_page st s vaddr fs fn z1 i Z R hinv hi)] at hstep
  simp only [Option.some.injEq, Prod.mk.injEq] at hstep
  obtain ⟨_, hs'⟩ := hstep
  have htab := tables_set_page_desc_page st s vaddr fs fn z1 i Z R hinv hi
    (mapped_page_desc (s.table_desc (vaddr / 4194304 * 4194304 + i * VMM_PAGE_SIZE))
      (s.tables fs i).frame zone.flags)
  rw [hs'] at htab
  have hft := (cow_free_frame st vaddr fn hready hfnm)
  have hfst := (cow_free_frame st vaddr fs hready hfsm)
  refine ⟨⟨?_, ?_, ?_, ?_, ?_, ?_, ?_, ?_, ?_, ?_⟩, ⟨?_, ?_, ?_⟩, ?_, ?_, ?_⟩
  · rw [← hs']; exact hinv.active
  · rw [← hs']; exact hinv.pdir_eq
  · rw [← hs']; exact hinv.window_eq
  · rw [← hs']; exact hinv.zones
  · rw [← hs']; exact hinv.frames
  · intro j
    rw [htab]
    simp only [hne, false_and, if_false]
    exact hinv.snapshot j
  · intro j
    rw [htab]
    simp only [Ne.symm hft.2.1, false_and, if_false]
    exact hinv.shared_table j
  · rw [htab]
    simp only [Ne.symm (hft.2.2.2 z1 (by simp [hzones])), false_and, if_false]
    exact hinv.src_present
  · rw [htab]
    simp only [Ne.symm (hft.2.2.2 z1 (by simp [hzones])), false_and, if_false]
    exact hinv.src_frame
  · rw [← hs']; exact hinv.memory_kept
  · rw [htab]
    simp [mapped_page_desc]
  · intro _
    rw [htab]
    simp only [and_self, if_true, mapped_page_desc, hinv.snapshot i]
    have := hready.2.2.2.2.2.1 i hi hold
    omega
  · intro h
    cases h
  · intro j hj
    rw [htab]
    simp [hj]
  · rw [← hs']; rfl
  · rw [← hs']; rfl

/-- One page of the loop that lies in a zone that is not a sharedly mapped file. -/
theorem copy_page_private (st : VmmState) (p : List ProcZone) (vaddr fs fn z1 : Nat)
    (Z R : List Nat) (s s' : VmmState) (i : Nat) (r : Int) (zone : ProcZone)
    (hready : cow_resolvable st vaddr)
    (hfree : st.free_frames = fs :: fn :: R) (hzones : st.free_zones = z1 :: Z)
    (hinv : resolve_inv st vaddr fs fn z1 Z R s)
    (hi : i < 1024)
    (hold : (st.tables (st.table_desc vaddr).frame i).present = true)
    (hnew : (s.tables fn i).present = false)
    (hzone : proc_find_zone p (vaddr / 4194304 * 4194304 + i * VMM_PAGE_SIZE) = some zone)
    (hsh : zone.mapped_file_sharedly = false)
    (hstep : vmm_copy_page_to_resolve_cow s p (vaddr / 4194304 * 4194304 + i * VMM_PAGE_SIZE)
      z1 i = some (r, s')) :
    resolve_inv st vaddr fs fn z1 Z R s' ∧
    resolved_entry st vaddr fn R s' i false ∧
    (∀ j, j ≠ i → s'.tables fn j = s.tables fn j) ∧
    s'.free_frames <:+ s.free_frames ∧
    (∀ f, f ∉ s.free_frames → s'.memory f = s.memory f) := by
  obtain ⟨hne, hfsR, hfnR, hnodup, hfsm, hfnm, hRm⟩ :=
    cow_frames_facts st vaddr fs fn R hready hfree
  have hz1m : z1 ∈ st.free_zones := by simp [hzones]
  have hz1 := cow_free_zone st vaddr z1 hready hz1m
  have htdp := inv_table_desc_page st s vaddr fs fn z1 i Z R hinv hi
  have hidx := offset_in_table_page vaddr i hi
  have hfst := cow_free_frame st vaddr fs hready hfsm
  have hfnt := cow_free_frame st vaddr fn hready hfnm
  unfold vmm_copy_page_to_resolve_cow at hstep
  rw [hzone] at hstep
  simp only [hsh, Bool.false_eq_true, if_false] at hstep
  -- the new page
  cases hload : vmm_load_page_lockless s (vaddr / 4194304 * 4194304 + i * VMM_PAGE_SIZE)
      zone.flags with
  | none => rw [hload] at hstep; cases hstep
  | some q1 =>
    obtain ⟨r1, s1⟩ := q1
    rw [hload] at hstep
    simp only at hstep
    obtain ⟨ha1, hpd1, hwin1, hzn1, hbranch⟩ := load_page_spec s s1 _ _ r1 hinv.active
      (by rw [htdp]) (inv_window_page st s vaddr fs fn z1 i Z R hinv hi) hload
    rw [htdp, hidx] at hbranch
    -- the temporary kernel page
    cases hzn : zoner_new_zone s1 with
    | none => rw [hzn] at hstep; cases hstep
    | some q2 =>
      obtain ⟨z2, s2⟩ := q2
      rw [hzn] at hstep
      simp only at hstep
      obtain ⟨Z', hZ', hs2⟩ := zoner_new_zone_some s1 s2 z2 hzn
      have hZ : Z = z2 :: Z' := by rw [← hinv.zones, ← hzn1, hZ']
      have hz2Z : z2 ∈ Z := by simp [hZ]
      have hz2m : z2 ∈ st.free_zones := by simp [hzones, hz2Z]
      have hz2 := cow_free_zone st vaddr z2 hready hz2m
      have hslot := cow_zone_slots st vaddr z1 z2 Z hready hzones hz2Z
      have hfs2 := hfst.2.2.2 z2 hz2m
      have hfn2 := hfnt.2.2.2 z2 hz2m
      have ha2 : s2.pdir_active = true := by rw [hs2]; exact ha1
      have hpd2 : s2.pdir = s.pdir := by rw [hs2]; exact hpd1
      have hwin2 : s2.window = s.window := by rw [hs2]; exact hwin1
      have htab2 : s2.tables = s1.tables := by rw [hs2]
      have hmem2 : s2.memory = s1.memory := by rw [hs2]
      have hfr2 : s2.free_frames = s1.free_frames := by rw [hs2]
      have hzo2 : s2.free_zones = Z' := by rw [hs2]
      have htd2 : ∀ z, VMM_OFFSET_IN_DIRECTORY z ≠ VMM_OFFSET_IN_DIRECTORY vaddr →
          s2.table_desc z = st.table_desc z := by
        intro z hz
        unfold VmmState.table_desc
        rw [hpd2, hinv.pdir_eq]
        simp [hz]
      have htdp2 : s2.table_desc (vaddr / 4194304 * 4194304 + i * VMM_PAGE_SIZE)
          = ⟨fn, true, true, true, false, false⟩ := by
        rw [← htdp]
        unfold VmmState.table_desc
        rw [hpd2]
      have hwz2 : s2.window (VMM_OFFSET_IN_DIRECTORY z2) = some (s2.table_desc z2).frame := by
        rw [htd2 z2 hz2.2.1, hwin2, hinv.window_eq]
        simp only [hz2.2.1, if_false]
        exact hz2.2.2.2.2
      -- the frame taken for the new page, if one was to be had
      have hfsub : ∀ f, f ∈ s.free_frames → f ∈ R := fun f hf => hinv.frames.subset hf
      have hK1 : s1.tables (st.table_desc z1).frame (VMM_OFFSET_IN_TABLE z1)
          = s.tables (st.table_desc z1).frame (VMM_OFFSET_IN_TABLE z1) := by
        rcases hbranch with ⟨h, _, _⟩ | ⟨f, R', hf, _, h, _⟩
        · rw [h]
        · have hfR := hfsub f (by simp [hf])
          have hff := cow_free_frame st vaddr f hready (hRm f hfR)
          have hfa : f / 4096 * 4096 = f := by have := hff.1; omega
          rw [h, hfa]
          simp only [Ne.symm (hff.2.2.2 z1 hz1m), if_false,
            Ne.symm (hfnt.2.2.2 z1 hz1m), false_and]
      have hsnap1 : ∀ j, s1.tables fs j = s.tables fs j := by
        intro j
        rcases hbranch with ⟨h, _, _⟩ | ⟨f, R', hf, _, h, _⟩
        · rw [h]
        · have hfR := hfsub f (by simp [hf])
          have hff := cow_free_frame st vaddr f hready (hRm f hfR)
          have hfa : f / 4096 * 4096 = f := by have := hff.1; omega
          have hfsf : fs ≠ f := fun hc => hfsR (hc ▸ hfR)
          rw [h, hfa]
          simp only [hfsf, if_false, hne, false_and]
      have htr1 : s2.translate z1 = some fs := by
        have hpd : s2.hardware_page_desc z1
            = s.tables (st.table_desc z1).frame (VMM_OFFSET_IN_TABLE z1) := by
          unfold VmmState.hardware_page_desc
          rw [htd2 z1 hz1.2.1, htab2, hK1]
        rw [translate_some s2 z1 (by rw [htd2 z1 hz1.2.1]; exact hz1.2.2.1)
          (by rw [hpd]; exact hinv.src_present), hpd, hinv.src_frame]
      rw [htr1] at hstep
      simp only at hstep
      have hold2 : s2.tables fs i = st.tables (st.table_desc vaddr).frame i := by
        rw [htab2, hsnap1, hinv.snapshot]
      rw [hold2] at hstep
      rw [map_page_present s2 z2 _ _ ha2 (by rw [htd2 z2 hz2.2.1]; exact hz2.2.2.1)
        hwz2] at hstep
      simp only at hstep
      generalize hs3 : s2.set_page_desc z2
        (mapped_page_desc (s2.table_desc z2)
          (st.tables (st.table_desc vaddr).frame i).frame PAGE_READABLE) = s3 at hstep
      have ha3 : s3.pdir_active = true := by rw [← hs3]; exact ha2
      have hpd3 : s3.pdir = s.pdir := by rw [← hs3]; exact hpd2
      have hwin3 : s3.window = s.window := by rw [← hs3]; exact hwin2
      have hmem3 : s3.memory = s1.memory := by rw [← hs3]; exact hmem2
      have hfr3 : s3.free_frames = s1.free_frames := by rw [← hs3]; exact hfr2
      have hzo3 : s3.free_zones = Z' := by rw [← hs3]; exact hzo2
      have htab3 : s3.tables = fun g j =>
          if g = (st.table_desc z2).frame ∧ j = VMM_OFFSET_IN_TABLE z2 then
            mapped_page_desc (st.table_desc z2)
              (st.tables (st.table_desc vaddr).frame i).frame PAGE_READABLE
          else s1.tables g j := by
        rw [← hs3]
        unfold VmmState.set_page_desc
        simp only [(window_shows_table s2 z2 hwz2).2.1, htd2 z2 hz2.2.1, htab2]
      have htd3 : ∀ z, s3.table_desc z = s2.table_desc z := by
        intro z
        unfold VmmState.table_desc
        rw [hpd3, hpd2]
      have hwz3 : s3.window (VMM_OFFSET_IN_DIRECTORY z2) = some (s3.table_desc z2).frame := by
        rw [htd3, hwin3, ← hwin2]
        exact hwz2
      have hpg3 : s3.hardware_page_desc (vaddr / 4194304 * 4194304 + i * VMM_PAGE_SIZE)
          = s1.tables fn i := by
        unfold VmmState.hardware_page_desc
        rw [htd3, htdp2, hidx, htab3]
        simp only [hfn2, false_and, if_false]
      rcases hbranch with ⟨h, _, _⟩ | ⟨f, R', hf, hfr1, htab1, hmem1⟩
      · -- no frame: the page is not there to copy into
        rw [translate_none s3 _ (by rw [hpg3, h]; exact hnew)] at hstep
        simp only at hstep
        cases hstep
      · have hfR := hfsub f (by simp [hf])
        have hfm := hRm f hfR
        have hff := cow_free_frame st vaddr f hready hfm
        have hfa : f / 4096 * 4096 = f := by have := hff.1; omega
        have hfsf : fs ≠ f := fun hc => hfsR (hc ▸ hfR)
        have hfnf : fn ≠ f := fun hc => hfnR (hc ▸ hfR)
        have hFa : (st.tables (st.table_desc vaddr).frame i).frame / 4096 * 4096
            = (st.tables (st.table_desc vaddr).frame i).frame := by
          have := hready.2.2.2.2.2.1 i hi hold
          omega
        have hFf : (st.tables (st.table_desc vaddr).frame i).frame ≠ f :=
          Ne.symm (hff.2.2.1 i hi hold)
        rw [hfa] at htab1 hmem1
        have hnewpg : s1.tables fn i
            = mapped_page_desc ⟨fn, true, true, true, false, false⟩ f zone.flags := by
          rw [htab1]
          simp only [hfnf, if_false, and_self, if_true]
        rw [translate_some s3 (vaddr / 4194304 * 4194304 + i * VMM_PAGE_SIZE)
          (by rw [htd3, htdp2]) (by rw [hpg3, hnewpg]; rfl), hpg3, hnewpg] at hstep
        have hpz3 : s3.hardware_page_desc z2 = mapped_page_desc (st.table_desc z2)
            (st.tables (st.table_desc vaddr).frame i).frame PAGE_READABLE := by
          unfold VmmState.hardware_page_desc
          rw [htd3, htd2 z2 hz2.2.1, htab3]
          simp only [and_self, if_true]
        rw [translate_some s3 z2 (by rw [htd3, htd2 z2 hz2.2.1]; exact hz2.2.2.1)
          (by rw [hpz3]; rfl), hpz3] at hstep
        simp only [mapped_page_desc, hfa, hFa] at hstep
        obtain ⟨s4, hun, hua, hupd, huwin, huzo, hufr, humem, hutab⟩ :=
          unmap_page_present_spec
            (s3.copy_frame f (st.tables (st.table_desc vaddr).frame i).frame) z2 ha3
            (by
              show (s3.table_desc z2).present = true
              rw [htd3, htd2 z2 hz2.2.1]; exact hz2.2.2.1)
            hwz3
        rw [hun] at hstep
        simp only [Option.some.injEq, Prod.mk.injEq] at hstep
        obtain ⟨_, hs'⟩ := hstep
        have hA : s'.pdir_active = true := by rw [← hs']; exact hua
        have hP : s'.pdir = s.pdir := by rw [← hs']; exact hupd.trans hpd3
        have hW : s'.window = s.window := by rw [← hs']; exact huwin.trans hwin3
        have hZO : s'.free_zones = Z := by
          rw [← hs', hZ]
          show z2 :: _ = z2 :: Z'
          rw [huzo]
          exact congrArg _ hzo3
        have hFR : s'.free_frames = R' := by
          rw [← hs']
          exact hufr.trans (hfr3.trans hfr1)
        have hMEM : ∀ g off, s'.memory g off
            = if g = f then s.memory (st.tables (st.table_desc vaddr).frame i).frame off
              else s.memory g off := by
          intro g off
          rw [← hs']
          show s4.memory g off = _
          rw [humem]
          show (if g = f then s3.memory _ off else s3.memory g off) = _
          rw [hmem3, hmem1]
          simp only [hFf, if_false]
          by_cases hg : g = f
          · simp only [hg, if_true]
          · simp only [hg, if_false]
        have hTAB : ∀ g j, ¬ (g = (st.table_desc z2).frame ∧ j = VMM_OFFSET_IN_TABLE z2) →
            g ≠ f → s'.tables g j
              = if g = fn ∧ j = i then
                  mapped_page_desc ⟨fn, true, true, true, false, false⟩ f zone.flags
                else s.tables g j := by
          intro g j hg1 hg2
          rw [← hs']
          show s4.tables g j = _
          rw [hutab]
          have : (s3.copy_frame f (st.tables (st.table_desc vaddr).frame i).frame).table_desc z2
              = st.table_desc z2 := by
            show s3.table_desc z2 = _
            rw [htd3, htd2 z2 hz2.2.1]
          rw [this]
          simp only [hg1, if_false]
          show (if g = f then s3.tables _ j else s3.tables g j) = _
          simp only [hg2, if_false]
          rw [htab3]
          simp only [hg1, if_false]
          rw [htab1]
          simp only [hg2, if_false]
        have hsuf : s'.free_frames <:+ s.free_frames := by
          rw [hFR, hf]
          exact List.suffix_cons f R'
        have hnd : (f :: R').Nodup := by
          rw [← hf]
          exact hinv.frames.sublist.nodup hnodup
        refine ⟨⟨hA, ?_, ?_, hZO, ?_, ?_, ?_, ?_, ?_, ?_⟩, ⟨?_, ?_, ?_⟩, ?_, hsuf, ?_⟩
        · rw [hP]; exact hinv.pdir_eq
        · rw [hW]; exact hinv.window_eq
        · exact hsuf.trans hinv.frames
        · intro j
          rw [hTAB fs j (fun hc => hfs2 hc.1) hfsf]
          simp only [hne, false_and, if_false]
          exact hinv.snapshot j
        · intro j
          rw [hTAB _ j (fun hc => hz2.2.2.2.1 hc.1.symm) (Ne.symm hff.2.1)]
          simp only [Ne.symm hfnt.2.1, false_and, if_false]
          exact hinv.shared_table j
        · rw [hTAB _ _ hslot (Ne.symm (hff.2.2.2 z1 hz1m))]
          simp only [Ne.symm (hfnt.2.2.2 z1 hz1m), false_and, if_false]
          exact hinv.src_present
        · rw [hTAB _ _ hslot (Ne.symm (hff.2.2.2 z1 hz1m))]
          simp only [Ne.symm (hfnt.2.2.2 z1 hz1m), false_and, if_false]
          exact hinv.src_frame
        · intro g hg off
          rw [hMEM]
          have : g ≠ f := fun hc => hg (hc ▸ hfm)
          simp only [this, if_false]
          exact hinv.memory_kept g hg off
        · rw [hTAB fn i (fun hc => hfn2 hc.1) hfnf]
          simp [mapped_page_desc]
        · intro h
          cases h
        · intro _
          rw [hTAB fn i (fun hc => hfn2 hc.1) hfnf]
          simp only [and_self, if_true, mapped_page_desc, hfa]
          refine ⟨hfR, ?_, ?_⟩
          · rw [hFR]
            exact (List.nodup_cons.mp hnd).1
          · intro off
            rw [hMEM]
            simp only [if_true]
            exact hinv.memory_kept _
              (fun hc => (cow_free_frame st vaddr _ hready hc).2.2.1 i hi hold rfl) off
        · intro j hj
          rw [hTAB fn j (fun hc => hfn2 hc.1) hfnf]
          simp only [hj, and_false, if_false]
        · intro g hg
          funext off
          rw [hMEM]
          have : g ≠ f := fun hc => hg (by rw [hc, hf]; simp)
          simp only [this, if_false]

end Kernel

/-!
## Copy-on-write resolution: the loop over the pages of the old table
-/

namespace Kernel

/-- One present page of the old table, whatever its zone. -/
theorem copy_page_step (st : VmmState) (p : List ProcZone) (vaddr fs fn z1 : Nat)
    (Z R : List Nat) (s s' : VmmState) (i : Nat) (r : Int)
    (hready : cow_resolvable st vaddr)
    (hfree : st.free_frames = fs :: fn :: R) (hzones : st.free_zones = z1 :: Z)
    (hinv : resolve_inv st vaddr fs fn z1 Z R s)
    (hi : i < 1024)
    (hold : (st.tables (st.table_desc vaddr).frame i).present = true)
    (hnew : (s.tables fn i).present = false)
    (hstep : vmm_copy_page_to_resolve_cow s p (vaddr / 4194304 * 4194304 + i * VMM_PAGE_SIZE)
      z1 i = some (r, s')) :
    resolve_inv st vaddr fs fn z1 Z R s' ∧
    (∀ zone, proc_find_zone p (vaddr / 4194304 * 4194304 + i * VMM_PAGE_SIZE) = some zone →
      resolved_entry st vaddr fn R s' i zone.mapped_file_sharedly) ∧
    (∀ j, j ≠ i → s'.tables fn j = s.tables fn j) ∧
    s'.free_frames <:+ s.free_frames ∧
    (∀ f, f ∉ s.free_frames → s'.memory f = s.memory f) := by
  cases hzone : proc_find_zone p (vaddr / 4194304 * 4194304 + i * VMM_PAGE_SIZE) with
  | none =>
    unfold vmm_copy_page_to_resolve_cow at hstep
    rw [hzone] at hstep
    simp only [Option.some.injEq, Prod.mk.injEq] at hstep
    obtain ⟨_, hs⟩ := hstep
    subst hs
    exact ⟨hinv, fun zone hz => (by cases hz), fun _ _ => rfl, List.suffix_refl _,
      fun _ _ => rfl⟩
  | some zone =>
    cases hsh : zone.mapped_file_sharedly with
    | true =>
      obtain ⟨h1, h2, h3, h4, h5⟩ := copy_page_shared st p vaddr fs fn z1 Z R s s' i r zone
        hready hfree hzones hinv hi hold hzone hsh hstep
      refine ⟨h1, ?_, h3, by rw [h4], fun f _ => by rw [h5]⟩
      intro zone' hz'
      cases hz'
      rw [hsh]
      exact h2
    | false =>
      obtain ⟨h1, h2, h3, h4, h5⟩ := copy_page_private st p vaddr fs fn z1 Z R s s' i r zone
        hready hfree hzones hinv hi hold hnew hzone hsh hstep
      refine ⟨h1, ?_, h3, h4, h5⟩
      intro zone' hz'
      cases hz'
      rw [hsh]
      exact h2

/-- A resolved entry stays resolved while its slot in the new table, the frames that are no
longer free and the allocator's promise not to hand a frame out twice are respected. -/
theorem resolved_entry_kept (st : VmmState) (vaddr fn : Nat) (R : List Nat)
    (s s' : VmmState) (i : Nat) (sharedly : Bool)
    (h : resolved_entry st vaddr fn R s i sharedly)
    (htab : s'.tables fn i = s.tables fn i)
    (hsuf : s'.free_frames <:+ s.free_frames)
    (hmem : ∀ f, f ∉ s.free_frames → s'.memory f = s.memory f) :
    resolved_entry st vaddr fn R s' i sharedly := by
  unfold resolved_entry at *
  rw [htab]
  refine ⟨h.1, h.2.1, ?_⟩
  intro hs
  obtain ⟨h1, h2, h3⟩ := h.2.2 hs
  refine ⟨h1, fun hc => h2 (hsuf.subset hc), ?_⟩
  intro off
  rw [hmem _ h2]
  exact h3 off

/-- The loop over the pages of the old table keeps the facts of `resolve_inv` and leaves every
page of the list that was present and lies in a zone resolved. -/
theorem resolve_pages_spec (st : VmmState) (p : List ProcZone) (vaddr fs fn z1 : Nat)
    (Z R : List Nat)
    (hready : cow_resolvable st vaddr)
    (hfree : st.free_frames = fs :: fn :: R) (hzones : st.free_zones = z1 :: Z) :
    ∀ (L : List Nat) (s s' : VmmState), L.Nodup → (∀ i ∈ L, i < 1024) →
      resolve_inv st vaddr fs fn z1 Z R s →
      (∀ i ∈ L, (s.tables fn i).present = false) →
      resolve_pages p z1 (vaddr / 4194304 * 4194304) L s = some s' →
      resolve_inv st vaddr fs fn z1 Z R s' ∧
      (∀ i ∈ L, (st.tables (st.table_desc vaddr).frame i).present = true →
        ∀ zone, proc_find_zone p (vaddr / 4194304 * 4194304 + i * VMM_PAGE_SIZE) = some zone →
          resolved_entry st vaddr fn R s' i zone.mapped_file_sharedly) ∧
      (∀ j, j ∉ L → s'.tables fn j = s.tables fn j) ∧
      s'.free_frames <:+ s.free_frames ∧
      (∀ f, f ∉ s.free_frames → s'.memory f = s.memory f) := by
  intro L
  induction L with
  | nil =>
    intro s s' _ _ hinv _ hrun
    unfold resolve_pages at hrun
    cases hrun
    exact ⟨hinv, fun i hi => (by cases hi), fun _ _ => rfl, List.suffix_refl _,
      fun _ _ => rfl⟩
  | cons i rest ih =>
    intro s s' hnd hlt hinv hnew hrun
    have hi : i < 1024 := hlt i (by simp)
    have hirest : i ∉ rest := (List.nodup_cons.mp hnd).1
    have hndr : rest.Nodup := (List.nodup_cons.mp hnd).2
    have hltr : ∀ j ∈ rest, j < 1024 := fun j hj => hlt j (by simp [hj])
    unfold resolve_pages at hrun
    rw [inv_translate_src st s vaddr fs fn z1 Z R hready hzones hinv] at hrun
    simp only [hinv.snapshot i] at hrun
    by_cases hold : (st.tables (st.table_desc vaddr).frame i).present = true
    · rw [if_pos hold] at hrun
      cases hstep : vmm_copy_page_to_resolve_cow s p
          (vaddr / 4194304 * 4194304 + i * VMM_PAGE_SIZE) z1 i with
      | none => rw [hstep] at hrun; cases hrun
      | some q =>
        obtain ⟨r, s1⟩ := q
        rw [hstep] at hrun
        simp only at hrun
        obtain ⟨hinv1, hent1, htab1, hsuf1, hmem1⟩ := copy_page_step st p vaddr fs fn z1 Z R
          s s1 i r hready hfree hzones hinv hi hold (hnew i (by simp)) hstep
        have hnew1 : ∀ j ∈ rest, (s1.tables fn j).present = false := by
          intro j hj
          rw [htab1 j (fun hc => hirest (hc ▸ hj))]
          exact hnew j (by simp [hj])
        obtain ⟨hinv', hent', htab', hsuf', hmem'⟩ := ih s1 s' hndr hltr hinv1 hnew1 hrun
        refine ⟨hinv', ?_, ?_, hsuf'.trans hsuf1, ?_⟩
        · intro j hj hpres zone hz
          rcases List.mem_cons.mp hj with hji | hjr
          · subst hji
            exact resolved_entry_kept st vaddr fn R s1 s' j _ (hent1 zone hz)
              (htab' j hirest) hsuf' hmem'
          · exact hent' j hjr hpres zone hz
        · intro j hj
          have hji : j ≠ i := fun hc => hj (by simp [hc])
          have hjr : j ∉ rest := fun hc => hj (by simp [hc])
          rw [htab' j hjr, htab1 j hji]
        · intro f hf
          rw [hmem' f (fun hc => hf (hsuf1.subset hc)), hmem1 f hf]
    · rw [if_neg hold] at hrun
      obtain ⟨hinv', hent', htab', hsuf', hmem'⟩ := ih s s' hndr hltr hinv
        (fun j hj => hnew j (by simp [hj])) hrun
      refine ⟨hinv', ?_, ?_, hsuf', hmem'⟩
      · intro j hj hpres zone hz
        rcases List.mem_cons.mp hj with hji | hjr
        · subst hji
          exact absurd hpres hold
        · exact hent' j hjr hpres zone hz
      · intro j hj
        exact htab' j (fun hc => hj (by simp [hc]))

end Kernel

/-!
## Copy-on-write resolution: the whole call
-/

namespace Kernel

/-- The outcome of `vmm_force_allocate_ptable_lockless`: an error, or the first free frame as
the new, empty table of the address, shown by the window. -/
theorem force_allocate_spec (s : VmmState) (vaddr : Nat) (ha : s.pdir_active = true) :
    (vmm_force_allocate_ptable_lockless s vaddr).1 ≠ 0 ∨
    ∃ fn R, s.free_frames = fn :: R ∧ fn ≠ 0 ∧
      (vmm_force_allocate_ptable_lockless s vaddr).2.pdir_active = true ∧
      (vmm_force_allocate_ptable_lockless s vaddr).2.pdir = (fun n =>
        if n = VMM_OFFSET_IN_DIRECTORY vaddr then ⟨fn, true, true, true, false, false⟩
        else s.pdir n) ∧
      (vmm_force_allocate_ptable_lockless s vaddr).2.window = (fun n =>
        if n = VMM_OFFSET_IN_DIRECTORY vaddr then some fn else s.window n) ∧
      (vmm_force_allocate_ptable_lockless s vaddr).2.free_zones = s.free_zones ∧
      (vmm_force_allocate_ptable_lockless s vaddr).2.free_frames = R ∧
      (vmm_force_allocate_ptable_lockless s vaddr).2.tables = (fun g j =>
        if g = fn then PageDesc.zero else s.tables g j) ∧
      (vmm_force_allocate_ptable_lockless s vaddr).2.memory = (fun g off =>
        if g = fn then 0 else s.memory g off) := by
  unfold vmm_force_allocate_ptable_lockless vmm_allocate_ptable_lockless
  have ha' : (s.set_table_desc vaddr TableDesc.zero).pdir_active = true := ha
  have hal : ((s.set_table_desc vaddr TableDesc.zero).table_desc vaddr).allocated = false := by
    simp [VmmState.table_desc, VmmState.set_table_desc, TableDesc.zero]
  rw [if_neg (by simp [ha']), if_neg (by simp [hal])]
  cases hfr : s.free_frames with
  | nil =>
    left
    have hfr' : (s.set_table_desc vaddr TableDesc.zero).free_frames = [] := hfr
    rw [pmm_alloc_page_nil _ hfr']
    simp [VMM_ERR_NO_SPACE]
  | cons fn R =>
    have hfr' : (s.set_table_desc vaddr TableDesc.zero).free_frames = fn :: R := hfr
    rw [pmm_alloc_page_cons _ fn R hfr']
    by_cases h0 : fn = 0
    · left
      simp [h0, VMM_ERR_NO_SPACE]
    · right
      refine ⟨fn, R, rfl, h0, ?_⟩
      simp only [h0, if_false]
      refine ⟨ha, ?_, rfl, rfl, rfl, rfl, rfl⟩
      funext n
      simp only [VmmState.set_table_desc, VmmState.zero_frame, VmmState.set_window,
        table_desc_init_from_allocated_state, TableDesc.zero]
      by_cases hn : n = VMM_OFFSET_IN_DIRECTORY vaddr
      · simp only [hn, if_true]
      · simp only [hn, if_false]

/-- The outcome of `_vmm_alloc_mapped_zone` when the zoner has the kernel page `z1`, in a
table that is present and shown by the window: the page is mapped to the frame that the
allocator handed out. -/
theorem alloc_mapped_zone_spec (st : VmmState) (z1 : Nat) (Z : List Nat)
    (ha : st.pdir_active = true) (hzones : st.free_zones = z1 :: Z)
    (hz : z1 % 4096 = 0) (hp : (st.table_desc z1).present = true)
    (hw : st.window (VMM_OFFSET_IN_DIRECTORY z1) = some (st.table_desc z1).frame)
    (hal : ∀ f ∈ st.free_frames, f % 4096 = 0) :
    ∃ st1, vmm_alloc_mapped_zone st = some (z1, st1) ∧
      st1.pdir_active = true ∧ st1.pdir = st.pdir ∧ st1.window = st.window ∧
      st1.memory = st.memory ∧
      st1.free_zones = Z ∧ st1.free_frames = st.free_frames.tail ∧
      st1.tables = (fun g j =>
        if g = (st.table_desc z1).frame ∧ j = VMM_OFFSET_IN_TABLE z1 then
          mapped_page_desc (st.table_desc z1) (st.free_frames.headD 0)
            (PAGE_READABLE ||| PAGE_WRITABLE)
        else st.tables g j) := by
  unfold vmm_alloc_mapped_zone zoner_new_zone
  rw [hzones]
  simp only
  obtain ⟨sa, hsa⟩ : ∃ sa : VmmState, sa = { st with free_zones := Z } := ⟨_, rfl⟩
  rw [← hsa]
  have ha' : sa.pdir_active = true := by rw [hsa]; exact ha
  have hp' : (sa.table_desc z1).present = true := by rw [hsa]; exact hp
  have hw' : sa.window (VMM_OFFSET_IN_DIRECTORY z1) = some (sa.table_desc z1).frame := by
    rw [hsa]; exact hw
  have hfrs : st.free_frames = sa.free_frames := by rw [hsa]
  have htd : st.table_desc z1 = sa.table_desc z1 := by rw [hsa]; rfl
  have hpd : st.pdir = sa.pdir := by rw [hsa]
  have hwn : st.window = sa.window := by rw [hsa]
  have hmm : st.memory = sa.memory := by rw [hsa]
  have htb : st.tables = sa.tables := by rw [hsa]
  have hzo : sa.free_zones = Z := by rw [hsa]
  rw [hfrs, htd, hpd, hmm, htb, hwn]
  rw [hfrs] at hal
  clear hsa hfrs htd hpd hmm htb hwn
  have hpf := (window_shows_table sa z1 hw').2.1
  cases hfr : sa.free_frames with
  | nil =>
    rw [pmm_alloc_page_nil _ hfr]
    unfold vmm_map_pages_lockless vmm_map_pages_loop
    rw [if_neg (by simp [hz]), map_page_present _ z1 _ _ ha' hp' hw']
    simp only [vmm_map_pages_loop]
    refine ⟨_, rfl, ha', rfl, rfl, rfl, hzo, hfr, ?_⟩
    unfold VmmState.set_page_desc
    simp only [hpf]
    rfl
  | cons fs R1 =>
    have hfs : fs % 4096 = 0 := hal fs (by simp [hfr])
    rw [pmm_alloc_page_cons _ fs R1 hfr]
    unfold vmm_map_pages_lockless vmm_map_pages_loop
    simp only
    rw [if_neg (by simp [hz, hfs])]
    have ha2 : ({ sa with free_frames := R1 } : VmmState).pdir_active = true := ha'
    have hp2 : (({ sa with free_frames := R1 } : VmmState).table_desc z1).present = true := hp'
    have hw2 : ({ sa with free_frames := R1 } : VmmState).window (VMM_OFFSET_IN_DIRECTORY z1)
        = some (({ sa with free_frames := R1 } : VmmState).table_desc z1).frame := hw'
    rw [map_page_present _ z1 _ _ ha2 hp2 hw2]
    simp only [vmm_map_pages_loop]
    refine ⟨_, rfl, ha', rfl, rfl, rfl, hzo, rfl, ?_⟩
    have hpf2 : ({ sa with free_frames := R1 } : VmmState).ptable_frame z1
        = (sa.table_desc z1).frame := hpf
    unfold VmmState.set_page_desc
    simp only [hpf2]
    rfl

/-- The outcome of `_vmm_free_mapped_zone` for a page in a table that is present and shown by
the window: only the page descriptor of the page, the allocator and the zoner change. -/
theorem free_mapped_zone_spec (s s' : VmmState) (z : Nat) (r : Int)
    (ha : s.pdir_active = true) (hz : z % 4096 = 0)
    (hp : (s.table_desc z).present = true)
    (hw : s.window (VMM_OFFSET_IN_DIRECTORY z) = some (s.table_desc z).frame)
    (h : vmm_free_mapped_zone s z = some (r, s')) :
    r = 0 ∧ s'.pdir = s.pdir ∧ s'.window = s.window ∧ s'.memory = s.memory ∧
    (∀ g j, ¬ (g = (s.table_desc z).frame ∧ j = VMM_OFFSET_IN_TABLE z) →
      s'.tables g j = s.tables g j) := by
  unfold vmm_free_mapped_zone at h
  rw [if_neg (by simp [(window_shows_table s z hw).1])] at h
  obtain ⟨sp, hsp⟩ : ∃ sp : VmmState, sp = pmm_free s (s.page_desc z).frame := ⟨_, rfl⟩
  rw [← hsp] at h
  have ha' : sp.pdir_active = true := by rw [hsp]; exact ha
  have hp' : (sp.table_desc z).present = true := by rw [hsp]; exact hp
  have hw' : sp.window (VMM_OFFSET_IN_DIRECTORY z) = some (sp.table_desc z).frame := by
    rw [hsp]; exact hw
  obtain ⟨s1, hun, -, hupd, huwin, -, -, humem, hutab⟩ :=
    unmap_page_present_spec sp z ha' hp' hw'
  unfold vmm_unmap_pages_lockless vmm_unmap_pages_loop at h
  rw [if_neg (by simp [hz]), hun] at h
  simp only [vmm_unmap_pages_loop, Int.lt_irrefl, if_false, Option.some.injEq,
    Prod.mk.injEq] at h
  obtain ⟨hr, hs'⟩ := h
  refine ⟨hr.symm, ?_, ?_, ?_, ?_⟩
  · rw [← hs']
    show s1.pdir = _
    rw [hupd, hsp]; rfl
  · rw [← hs']
    show s1.window = _
    rw [huwin, hsp]; rfl
  · rw [← hs']
    show s1.memory = _
    rw [humem, hsp]; rfl
  · intro g j hgj
    rw [← hs']
    show s1.tables g j = _
    rw [hutab]
    have : sp.table_desc z = s.table_desc z := by rw [hsp]; rfl
    rw [this]
    simp only [hgj, if_false]
    rw [hsp]
    rfl

/-- The start of the call up to the loop: with the kernel page `z1` and the frames `fs` and
`fn` taken, the loop starts in a state that satisfies `resolve_inv` with an empty new table,
and the call ends with `_vmm_free_mapped_zone` on the state that the loop leaves. -/
theorem resolve_reaches_loop (st st' : VmmState) (p : List ProcZone) (vaddr : Nat)
    (hready : cow_resolvable st vaddr)
    (hres : vmm_resolve_copy_on_write st p vaddr = some (0, st')) :
    ∃ fs fn z1 Z R s0 s3, st.free_frames = fs :: fn :: R ∧ st.free_zones = z1 :: Z ∧
      resolve_inv st vaddr fs fn z1 Z R s0 ∧
      (∀ i, (s0.tables fn i).present = false) ∧
      resolve_pages p z1 (vaddr / 4194304 * 4194304) (List.range 1024) s0 = some s3 ∧
      vmm_free_mapped_zone s3 z1 = some (0, st') := by
  obtain ⟨hact, hvlt, hpres, hwinv, hwinz, halign, hnodup, hframes, hslots, hzonesp⟩ := hready
  have hready : cow_resolvable st vaddr :=
    ⟨hact, hvlt, hpres, hwinv, hwinz, halign, hnodup, hframes, hslots, hzonesp⟩
  have hds := offset_in_directory_serve vaddr
  cases hzs : st.free_zones with
  | nil =>
    exfalso
    unfold vmm_resolve_copy_on_write vmm_alloc_mapped_zone zoner_new_zone at hres
    rw [hzs] at hres
    cases hres
  | cons z1 Z =>
    have hz1m : z1 ∈ st.free_zones := by simp [hzs]
    have hz1 := cow_free_zone st vaddr z1 hready hz1m
    obtain ⟨st1, halloc, ha1, hpd1, hwin1, hmem1, hzo1, hfr1, htab1⟩ :=
      alloc_mapped_zone_spec st z1 Z hact hzs hz1.1 hz1.2.2.1 hz1.2.2.2.2
        (fun f hf => (hframes f hf).1)
    unfold vmm_resolve_copy_on_write at hres
    rw [halloc] at hres
    simp only at hres
    have htds1 : st1.table_desc (vaddr / 4194304 * 4194304) = st.table_desc vaddr := by
      unfold VmmState.table_desc
      rw [hpd1, hds]
    have hws1 : st1.window (VMM_OFFSET_IN_DIRECTORY (vaddr / 4194304 * 4194304))
        = some (st1.table_desc (vaddr / 4194304 * 4194304)).frame := by
      rw [htds1, hwin1, hds]
      exact hwinv
    obtain ⟨hwm1, hpf1, -⟩ := window_shows_table st1 _ hws1
    rw [if_neg (by simp [hwm1]), hpf1, htds1] at hres
    have htdz1 : st1.table_desc z1 = st.table_desc z1 := by
      unfold VmmState.table_desc
      rw [hpd1]
    have hhw1 : st1.hardware_page_desc z1
        = mapped_page_desc (st.table_desc z1) (st.free_frames.headD 0)
            (PAGE_READABLE ||| PAGE_WRITABLE) := by
      unfold VmmState.hardware_page_desc
      rw [htdz1, htab1]
      simp only [and_self, if_true]
    rw [translate_some st1 z1 (by rw [htdz1]; exact hz1.2.2.1) (by rw [hhw1]; rfl),
      hhw1] at hres
    simp only at hres
    generalize hst2 : st1.copy_frame
      (mapped_page_desc (st.table_desc z1) (st.free_frames.headD 0)
        (PAGE_READABLE ||| PAGE_WRITABLE)).frame (st.table_desc vaddr).frame = st2 at hres
    have ha2 : st2.pdir_active = true := by rw [← hst2]; exact ha1
    rcases force_allocate_spec st2 vaddr ha2 with herr | ⟨fn, R, hfr2, hfn0, fa, fpd, fwin,
      fzo, ffr, ftab, fmem⟩
    · exfalso
      rw [if_pos herr] at hres
      simp only [Option.some.injEq] at hres
      apply herr
      rw [hres]
    · have hfr2' : st.free_frames.tail = fn :: R := by
        rw [← hfr1, ← hfr2, ← hst2]
        rfl
      cases hfs : st.free_frames with
      | nil => rw [hfs] at hfr2'; cases hfr2'
      | cons fs R1 =>
        rw [hfs] at hfr2'
        simp only [List.tail_cons] at hfr2'
        subst hfr2'
        have hfree : st.free_frames = fs :: fn :: R := hfs
        obtain ⟨hne, hfsR, hfnR, hnodupR, hfsm, hfnm, hRm⟩ :=
          cow_frames_facts st vaddr fs fn R hready hfree
        have hfst := cow_free_frame st vaddr fs hready hfsm
        have hfnt := cow_free_frame st vaddr fn hready hfnm
        have hfsa : fs / 4096 * 4096 = fs := by have := hfst.1; omega
        have hsf : (mapped_page_desc (st.table_desc z1) (st.free_frames.headD 0)
            (PAGE_READABLE ||| PAGE_WRITABLE)).frame = fs := by
          rw [hfs]
          show fs / 4096 * 4096 = fs
          exact hfsa
        rw [hsf] at hst2
        have hzero : (vmm_force_allocate_ptable_lockless st2 vaddr).1 = 0 := by
          by_contra hc
          rw [if_pos hc] at hres
          simp only [Option.some.injEq] at hres
          apply hc
          rw [hres]
        rw [if_neg (by simp [hzero]), if_pos hpres] at hres
        generalize hs0 : (vmm_force_allocate_ptable_lockless st2 vaddr).2.set_table_desc
          (vaddr / 4194304 * 4194304)
          (table_desc_init_from_allocated_state
            ((vmm_force_allocate_ptable_lockless st2 vaddr).2.table_desc
              (vaddr / 4194304 * 4194304))) = s0 at hres
        cases hloop : resolve_pages p z1 (vaddr / 4194304 * 4194304) (List.range 1024) s0 with
        | none => rw [hloop] at hres; cases hres
        | some s3 =>
          rw [hloop] at hres
          simp only at hres
          -- the state in which the loop starts
          have htab2 : st2.tables = fun g j =>
              if g = fs then st1.tables (st.table_desc vaddr).frame j else st1.tables g j := by
            rw [← hst2]; rfl
          have hmem2 : st2.memory = fun g off =>
              if g = fs then st.memory (st.table_desc vaddr).frame off
              else st.memory g off := by
            rw [← hst2]
            show (fun g off => if g = fs then st1.memory _ off else st1.memory g off) = _
            rw [hmem1]
          have h0tab : s0.tables = fun g j =>
              if g = fn then PageDesc.zero else st2.tables g j := by
            rw [← hs0]; exact ftab
          have h0mem : s0.memory = fun g off =>
              if g = fn then 0 else st2.memory g off := by
            rw [← hs0]; exact fmem
          have h0pd : s0.pdir = fun n =>
              if n = VMM_OFFSET_IN_DIRECTORY vaddr then ⟨fn, true, true, true, false, false⟩
              else st.pdir n := by
            rw [← hs0]
            unfold VmmState.set_table_desc VmmState.table_desc
            simp only [hds, fpd, table_desc_init_from_allocated_state, if_true]
            funext n
            by_cases hn : n = VMM_OFFSET_IN_DIRECTORY vaddr
            · simp only [hn, if_true]
            · simp only [hn, if_false]
              rw [← hst2]
              show st1.pdir n = _
              rw [hpd1]
          have h0win : s0.window = fun n =>
              if n = VMM_OFFSET_IN_DIRECTORY vaddr then some fn else st.window n := by
            rw [← hs0]
            show (vmm_force_allocate_ptable_lockless st2 vaddr).2.window = _
            rw [fwin]
            funext n
            by_cases hn : n = VMM_OFFSET_IN_DIRECTORY vaddr
            · simp only [hn, if_true]
            · simp only [hn, if_false]
              rw [← hst2]
              show st1.window n = _
              rw [hwin1]
          have hK1T : (st.table_desc z1).frame ≠ (st.table_desc vaddr).frame := hz1.2.2.2.1
          have hT1 : ∀ j, st1.tables (st.table_desc vaddr).frame j
              = st.tables (st.table_desc vaddr).frame j := by
            intro j
            rw [htab1]
            simp only [Ne.symm hK1T, false_and, if_false]
          refine ⟨fs, fn, z1, Z, R, s0, s3, rfl, rfl, ⟨?_, h0pd, h0win, ?_, ?_, ?_, ?_, ?_, ?_,
            ?_⟩, ?_, hloop, hres⟩
          · rw [← hs0]; exact fa
          · rw [← hs0]
            show (vmm_force_allocate_ptable_lockless st2 vaddr).2.free_zones = Z
            rw [fzo, ← hst2]
            exact hzo1
          · rw [← hs0]
            show (vmm_force_allocate_ptable_lockless st2 vaddr).2.free_frames <:+ R
            rw [ffr]
          · intro j
            rw [h0tab, htab2]
            simp only [hne, if_false, if_true]
            exact hT1 j
          · intro j
            rw [h0tab, htab2]
            simp only [Ne.symm hfnt.2.1, Ne.symm hfst.2.1, if_false]
            exact hT1 j
          · rw [h0tab, htab2, htab1]
            simp only [Ne.symm (hfnt.2.2.2 z1 hz1m), Ne.symm (hfst.2.2.2 z1 hz1m), if_false,
              and_self, if_true]
            rfl
          · rw [h0tab, htab2, htab1]
            simp only [Ne.symm (hfnt.2.2.2 z1 hz1m), Ne.symm (hfst.2.2.2 z1 hz1m), if_false,
              and_self, if_true, hfs]
            exact hfsa
          · intro g hg off
            rw [h0mem, hmem2]
            have h1 : g ≠ fn := fun hc => hg (hc ▸ hfnm)
            have h2 : g ≠ fs := fun hc => hg (hc ▸ hfsm)
            simp only [h1, h2, if_false]
          · intro j
            rw [h0tab]
            simp only [if_true]
            rfl

end Kernel

/-!
## Copy-on-write resolution, per entry
-/

namespace Kernel

end Kernel

